import Mathlib

/-!
# Delivery estimate resolution engine

A shallow embedding of the zip-to-zip cascade of `nativeCodeRev.cpp` and of the
`AnalyticalDeliveryEstimate` macro of `analytical.cpp`, with the properties of the
design document proved (or refuted) on it.

Conventions of the embedding.

* Machine integers are `Int`; a narrowing cast is an explicit wrap (`wrap16`, `wrap32`).
  C++ integer division truncates toward zero, which is `Int.tdiv`.
* A `boost::unordered_map<K, V>` is a function `K → Option V` (`find` is application,
  `end()` is `none`), an `unordered_set<K>` is a function `K → Bool`.
* A static `scoped_ptr` that may be `NULL` is an `Option`.
* A `while` loop is a recursion on a fuel argument; the fuel handed to it by the
  enclosing function is computed from the loop variable and is always sufficient.
* The truncation loops also return the values they probed, in probe order.
-/

/-! ## Data model shared by the two macros -/

/-- Country identifiers of `MACRO_NS::country`; the header declaring them is not among the
sources, so the identifiers are parameters of every function that mentions one. -/
structure country where
  united_kingdom : Int
  united_states : Int
  germany : Int
  australia : Int

/-- Delivery-time bound of a shipping service; `-1` is "unknown". -/
structure shipping_service_est where
  min_hours : Int
  max_hours : Int
  deriving DecidableEq, Repr

/-- Entry of the shipping-service table: hour bounds and working-day flags. -/
structure shipping_service_info where
  min_hours : Int
  max_hours : Int
  working_days_flags : Int
  deriving DecidableEq, Repr

namespace Native

/-! ## Keys and tables of `nativeCodeRev.cpp` -/

structure cbt_key where
  shipping_service_id : Int
  origin_country_id : Int
  dest_country_id : Int
  deriving DecidableEq, Repr

structure z2z_range_key where
  country_id : Int
  zip : Int
  deriving DecidableEq, Repr

structure z2z_tozipnull_key where
  from_country_id : Int
  to_country_id : Int
  from_zip_hash : Int
  shipping_service_id : Int
  deriving DecidableEq, Repr

structure z2z_default_key where
  from_country_id : Int
  to_country_id : Int
  from_zip_hash : Int
  to_zip_hash : Int
  shipping_service_id : Int
  deriving DecidableEq, Repr

/-- Key of the exclusion-zone table. The C++ constructor takes `(service, country, zip)`;
`exclusion_zip_key.make` keeps that argument order. -/
structure exclusion_zip_key where
  shipping_service_id : Int
  zip_code_hash : Int
  country_id : Int
  deriving DecidableEq, Repr

def exclusion_zip_key.make (service country zip : Int) : exclusion_zip_key :=
  ⟨service, zip, country⟩

structure z2z_services_key where
  from_country_id : Int
  to_country_id : Int
  shipping_service_id : Int
  deriving DecidableEq, Repr

abbrev ssi_map := Int → Option shipping_service_info
abbrev cbt_map := cbt_key → Option shipping_service_info
abbrev exc_map := exclusion_zip_key → Option shipping_service_est
abbrev z2z_default_map := z2z_default_key → Option shipping_service_est
abbrev z2z_range_map := z2z_range_key → Option Int
abbrev z2z_tozipnull_map := z2z_tozipnull_key → Option shipping_service_est
abbrev z2z_estimate_map := z2z_default_key → Option shipping_service_est
abbrev z2z_services_set := z2z_services_key → Bool

/-- The static table pointers of the macro; `none` is a pointer that was never loaded. -/
structure Tables where
  service_info_map : Option ssi_map
  service_cbt_map : Option cbt_map
  service_exc_map : Option exc_map
  service_z2z_range_map : Option z2z_range_map
  service_z2z_default_map : Option z2z_default_map
  service_z2z_tozipnull_map : Option z2z_tozipnull_map
  service_z2z_estimate_map : Option z2z_estimate_map
  service_z2z_services_set : Option z2z_services_set

def uk_zip_base : Int := 36

/-- The truncation base every lookup computes on entry: `uk_zip_base` for the United
Kingdom, 10 for every other country. -/
def ctry_base (c : country) (country_id : Int) : Int :=
  if country_id = c.united_kingdom then uk_zip_base else 10

/-! ## `get_z2z_default` -/

/-- Inner `while (true)` of `get_z2z_default`: probe `(temp_from_zip, temp_to_zip)`, return on
a hit, otherwise truncate the destination and leave the loop when it becomes 0. -/
def get_z2z_default_to_loop (m : z2z_default_map)
    (from_country_id to_country_id shipping_service to_ctry_base temp_from_zip : Int) :
    Nat → Int → Option shipping_service_est × List Int
  | 0, _ => (none, [])
  | fuel + 1, temp_to_zip =>
    match m ⟨from_country_id, to_country_id, temp_from_zip, temp_to_zip, shipping_service⟩ with
    | some est => (some est, [temp_to_zip])
    | none =>
      if temp_to_zip.tdiv to_ctry_base = 0 then (none, [temp_to_zip])
      else
        let r := get_z2z_default_to_loop m from_country_id to_country_id shipping_service
          to_ctry_base temp_from_zip fuel (temp_to_zip.tdiv to_ctry_base)
        (r.1, temp_to_zip :: r.2)

/-- Outer `while (true)` of `get_z2z_default`: restart the destination at `to_zip`, run the
inner loop, then truncate the origin and leave the loop when it becomes 0. -/
def get_z2z_default_from_loop (m : z2z_default_map)
    (from_country_id to_country_id shipping_service from_ctry_base to_ctry_base to_zip : Int) :
    Nat → Int → Option shipping_service_est × List (Int × List Int)
  | 0, _ => (none, [])
  | fuel + 1, temp_from_zip =>
    let r := get_z2z_default_to_loop m from_country_id to_country_id shipping_service
      to_ctry_base temp_from_zip (to_zip.natAbs + 1) to_zip
    match r.1 with
    | some est => (some est, [(temp_from_zip, r.2)])
    | none =>
      if temp_from_zip.tdiv from_ctry_base = 0 then (none, [(temp_from_zip, r.2)])
      else
        let q := get_z2z_default_from_loop m from_country_id to_country_id shipping_service
          from_ctry_base to_ctry_base to_zip fuel (temp_from_zip.tdiv from_ctry_base)
        (q.1, (temp_from_zip, r.2) :: q.2)

/-- The function `get_z2z_default` with its probe trace: for each origin value probed, the
destination values probed under it. -/
def get_z2z_default_run (c : country) (m : z2z_default_map)
    (from_country_id to_country_id from_zip to_zip shipping_service : Int) :
    Option shipping_service_est × List (Int × List Int) :=
  get_z2z_default_from_loop m from_country_id to_country_id shipping_service
    (ctry_base c from_country_id) (ctry_base c to_country_id) to_zip
    (from_zip.natAbs + 1) from_zip

def get_z2z_default (c : country) (m : z2z_default_map)
    (from_country_id to_country_id from_zip to_zip shipping_service : Int) :
    Option shipping_service_est :=
  (get_z2z_default_run c m from_country_id to_country_id from_zip to_zip shipping_service).1

/-! ## `get_z2z_ranges` -/

/-- Body of the inner loop of `get_z2z_ranges` for one destination value: the destination
must have a bucket, and the estimate table must hold the bucket pair with
`max_hours >= 0`. -/
def get_z2z_ranges_probe (rm : z2z_range_map) (em : z2z_estimate_map)
    (from_country_id to_country_id shipping_service it_from temp_to_zip : Int) :
    Option shipping_service_est :=
  match rm ⟨to_country_id, temp_to_zip⟩ with
  | some it_to =>
    match em ⟨from_country_id, to_country_id, it_from, it_to, shipping_service⟩ with
    | some est => if 0 ≤ est.max_hours then some est else none
    | none => none
  | none => none

/-- Inner `while (temp_to_zip > 0)` of `get_z2z_ranges`. -/
def get_z2z_ranges_to_loop (rm : z2z_range_map) (em : z2z_estimate_map)
    (from_country_id to_country_id shipping_service to_ctry_base it_from : Int) :
    Nat → Int → Option shipping_service_est × List Int
  | 0, _ => (none, [])
  | fuel + 1, temp_to_zip =>
    if 0 < temp_to_zip then
      match get_z2z_ranges_probe rm em from_country_id to_country_id shipping_service
          it_from temp_to_zip with
      | some est => (some est, [temp_to_zip])
      | none =>
        let r := get_z2z_ranges_to_loop rm em from_country_id to_country_id shipping_service
          to_ctry_base it_from fuel (temp_to_zip.tdiv to_ctry_base)
        (r.1, temp_to_zip :: r.2)
    else (none, [])

/-- Outer `while (temp_from_zip > 0)` of `get_z2z_ranges`: the inner loop runs only when the
origin value has a bucket. -/
def get_z2z_ranges_from_loop (rm : z2z_range_map) (em : z2z_estimate_map)
    (from_country_id to_country_id shipping_service from_ctry_base to_ctry_base to_zip : Int) :
    Nat → Int → Option shipping_service_est × List (Int × List Int)
  | 0, _ => (none, [])
  | fuel + 1, temp_from_zip =>
    if 0 < temp_from_zip then
      match rm ⟨from_country_id, temp_from_zip⟩ with
      | some it_from =>
        let r := get_z2z_ranges_to_loop rm em from_country_id to_country_id shipping_service
          to_ctry_base it_from to_zip.toNat to_zip
        match r.1 with
        | some est => (some est, [(temp_from_zip, r.2)])
        | none =>
          let q := get_z2z_ranges_from_loop rm em from_country_id to_country_id
            shipping_service from_ctry_base to_ctry_base to_zip fuel
            (temp_from_zip.tdiv from_ctry_base)
          (q.1, (temp_from_zip, r.2) :: q.2)
      | none =>
        let q := get_z2z_ranges_from_loop rm em from_country_id to_country_id
          shipping_service from_ctry_base to_ctry_base to_zip fuel
          (temp_from_zip.tdiv from_ctry_base)
        (q.1, (temp_from_zip, []) :: q.2)
    else (none, [])

/-- The function `get_z2z_ranges` with its probe trace: for each origin value looked up in
the range table, the destination values looked up under it. -/
def get_z2z_ranges_run (c : country) (rm : z2z_range_map) (em : z2z_estimate_map)
    (from_country_id to_country_id from_zip to_zip shipping_service : Int) :
    Option shipping_service_est × List (Int × List Int) :=
  get_z2z_ranges_from_loop rm em from_country_id to_country_id shipping_service
    (ctry_base c from_country_id) (ctry_base c to_country_id) to_zip from_zip.toNat from_zip

def get_z2z_ranges (c : country) (rm : z2z_range_map) (em : z2z_estimate_map)
    (from_country_id to_country_id from_zip to_zip shipping_service : Int) :
    Option shipping_service_est :=
  (get_z2z_ranges_run c rm em from_country_id to_country_id from_zip to_zip
    shipping_service).1

/-! ## `get_z2z_tozipnull` and `get_exc_est` -/

/-- The `while (temp_from_zip > 0)` loop of `get_z2z_tozipnull`. -/
def get_z2z_tozipnull_loop (m : z2z_tozipnull_map)
    (from_country_id to_country_id shipping_service from_ctry_base : Int) :
    Nat → Int → Option shipping_service_est × List Int
  | 0, _ => (none, [])
  | fuel + 1, temp_from_zip =>
    if 0 < temp_from_zip then
      match m ⟨from_country_id, to_country_id, temp_from_zip, shipping_service⟩ with
      | some est => (some est, [temp_from_zip])
      | none =>
        let r := get_z2z_tozipnull_loop m from_country_id to_country_id shipping_service
          from_ctry_base fuel (temp_from_zip.tdiv from_ctry_base)
        (r.1, temp_from_zip :: r.2)
    else (none, [])

def get_z2z_tozipnull_run (c : country) (m : z2z_tozipnull_map)
    (from_country_id to_country_id from_zip shipping_service : Int) :
    Option shipping_service_est × List Int :=
  get_z2z_tozipnull_loop m from_country_id to_country_id shipping_service
    (ctry_base c from_country_id) from_zip.toNat from_zip

def get_z2z_tozipnull (c : country) (m : z2z_tozipnull_map)
    (from_country_id to_country_id from_zip shipping_service : Int) :
    Option shipping_service_est :=
  (get_z2z_tozipnull_run c m from_country_id to_country_id from_zip shipping_service).1

/-- The `while (temp_to_zip > 0)` loop of `get_exc_est`. -/
def get_exc_est_loop (m : exc_map) (to_country_id shipping_service to_ctry_base : Int) :
    Nat → Int → Option shipping_service_est × List Int
  | 0, _ => (none, [])
  | fuel + 1, temp_to_zip =>
    if 0 < temp_to_zip then
      match m (exclusion_zip_key.make shipping_service to_country_id temp_to_zip) with
      | some est => (some est, [temp_to_zip])
      | none =>
        let r := get_exc_est_loop m to_country_id shipping_service to_ctry_base fuel
          (temp_to_zip.tdiv to_ctry_base)
        (r.1, temp_to_zip :: r.2)
    else (none, [])

def get_exc_est_run (c : country) (m : exc_map) (to_country_id to_zip shipping_service : Int) :
    Option shipping_service_est × List Int :=
  get_exc_est_loop m to_country_id shipping_service (ctry_base c to_country_id)
    to_zip.toNat to_zip

def get_exc_est (c : country) (m : exc_map) (to_country_id to_zip shipping_service : Int) :
    Option shipping_service_est :=
  (get_exc_est_run c m to_country_id to_zip shipping_service).1

/-! ## `get_z2z_est` -/

/-- The cascade of `get_z2z_est` once the service-set test has passed: each stage runs only
while no estimate has been found and its table is loaded. -/
def z2z_cascade (c : country) (T : Tables)
    (from_country_id to_country_id from_zip to_zip shipping_service : Int) :
    Option shipping_service_est :=
  let z2z_est : Option shipping_service_est := none
  let z2z_est :=
    match z2z_est, T.service_z2z_default_map with
    | none, some dm =>
      get_z2z_default c dm from_country_id to_country_id from_zip to_zip shipping_service
    | e, _ => e
  let z2z_est :=
    match z2z_est, T.service_z2z_range_map, T.service_z2z_estimate_map with
    | none, some rm, some em =>
      get_z2z_ranges c rm em from_country_id to_country_id from_zip to_zip shipping_service
    | e, _, _ => e
  let z2z_est :=
    match z2z_est, T.service_z2z_tozipnull_map with
    | none, some nm =>
      get_z2z_tozipnull c nm from_country_id to_country_id from_zip shipping_service
    | e, _ => e
  let z2z_est :=
    match z2z_est, T.service_exc_map with
    | none, some xm => get_exc_est c xm to_country_id to_zip shipping_service
    | e, _ => e
  z2z_est

set_option linter.unusedVariables false in
/-- The function `get_z2z_est`. Its first five statements overwrite the parameters with
constants; `services` is the dereferenced `service_z2z_services_set`, which the caller
has checked to be loaded. -/
def get_z2z_est (c : country) (T : Tables) (services : z2z_services_set)
    (from_country_id to_country_id from_zip to_zip shipping_service : Int) :
    Option shipping_service_est :=
  let from_country_id : Int := 77
  let shipping_service : Int := 7712
  let from_zip : Int := 9545
  let to_zip : Int := 7575
  let to_country_id : Int := 77
  if services ⟨from_country_id, to_country_id, shipping_service⟩ then
    z2z_cascade c T from_country_id to_country_id from_zip to_zip shipping_service
  else none

end Native

/-! ## Integer casts -/

/-- Two's-complement value of `x` in a signed integer of `w` bits. -/
def wrap (w : Nat) (x : Int) : Int :=
  (x + 2 ^ (w - 1)) % 2 ^ w - 2 ^ (w - 1)

/-- The cast `(int8_t) x`. -/
def wrap8 (x : Int) : Int := wrap 8 x

/-- The cast `(int16_t) x`. -/
def wrap16 (x : Int) : Int := wrap 16 x

/-- The cast `(int32_t) x`. -/
def wrap32 (x : Int) : Int := wrap 32 x

/-! ## Holiday calendar (`holiday_info`) -/

def max_holiday_bits : Int := 915

/-- Per-country holiday bitset: bit `i` is day `start_date + i`. -/
structure holiday_info where
  holidays : Fin 915 → Bool
  start_date : Int

def holiday_info.get_bit (h : holiday_info) (date : Int) : Bool :=
  if hlt : date - h.start_date < 0 ∨ date - h.start_date ≥ 915 then false
  else h.holidays ⟨(date - h.start_date).toNat, by omega⟩

def holiday_info.is_holiday (h : holiday_info) (date : Int) : Bool :=
  h.get_bit date

abbrev holiday_map := Int → Option holiday_info

namespace Analytical

/-! ## Keys, tables and model state of `analytical.cpp` -/

structure qa_model_key where
  category : Int
  service : Int
  from_zip : Int
  to_zip : Int
  deriving DecidableEq, Repr

/-- The static QA model table, in source order. -/
def qa_model_map : List (qa_model_key × Int) :=
  [ (⟨37908, 19, 95126, 90067⟩, 2), (⟨37908, 20, 95126, 90067⟩, 1),
    (⟨37908, 21, 95126, 90067⟩, 1), (⟨37908, 3, 95126, 90067⟩, 3),
    (⟨37908, 7, 95126, 90067⟩, 2), (⟨37908, 9, 95126, 90067⟩, 11),
    (⟨37908, 22, 95126, 90067⟩, 3), (⟨37908, 23, 95126, 90067⟩, 4),
    (⟨37908, 24, 95126, 90067⟩, 5), (⟨37908, 4, 95126, 90067⟩, 5),
    (⟨37908, 5, 95126, 90067⟩, 3), (⟨37908, 1, 95126, 90067⟩, 7),
    (⟨162917, 1, 95126, 10002⟩, 3), (⟨162917, 3, 95126, 10002⟩, 2),
    (⟨162917, 7, 95126, 10002⟩, 1), (⟨162917, 8, 95126, 10002⟩, 4),
    (⟨162917, 10, 95126, 10002⟩, 6), (⟨162917, 11, 95126, 10002⟩, 2),
    (⟨43304, 1, 95126, 96125⟩, 7), (⟨43304, 3, 95126, 96125⟩, 1),
    (⟨43304, 7, 95126, 96125⟩, 4), (⟨43304, 8, 95126, 96125⟩, 3),
    (⟨43304, 9, 95126, 96125⟩, 3), (⟨43304, 10, 95126, 96125⟩, 9),
    (⟨43304, 14, 95126, 96125⟩, 1), (⟨43304, 19, 95126, 96125⟩, 1),
    (⟨43304, 22, 95126, 96125⟩, 3),
    (⟨42428, 1, 95126, 89412⟩, 6), (⟨42428, 3, 95126, 89412⟩, 4),
    (⟨42428, 7, 95126, 89412⟩, 2), (⟨42428, 8, 95126, 89412⟩, 3),
    (⟨42428, 10, 95126, 89412⟩, 8), (⟨42428, 14, 95126, 89412⟩, 10),
    (⟨42428, 19, 95126, 89412⟩, 4), (⟨42428, 22, 95126, 89412⟩, 3),
    (⟨169323, 1, 95126, 90067⟩, 6), (⟨169323, 3, 95126, 90067⟩, 4),
    (⟨169323, 7, 95126, 90067⟩, 2), (⟨169323, 8, 95126, 90067⟩, 3),
    (⟨169323, 10, 95126, 90067⟩, 8), (⟨169323, 14, 95126, 90067⟩, 10),
    (⟨169323, 19, 95126, 90067⟩, 4), (⟨169323, 22, 95126, 90067⟩, 3),
    (⟨50460, 1, 95126, 10002⟩, 7), (⟨50460, 3, 95126, 10002⟩, 1),
    (⟨50460, 7, 95126, 10002⟩, 4), (⟨50460, 8, 95126, 10002⟩, 3),
    (⟨50460, 9, 95126, 10002⟩, 3), (⟨50460, 10, 95126, 10002⟩, 9),
    (⟨50460, 14, 95126, 10002⟩, 1), (⟨50460, 19, 95126, 10002⟩, 1),
    (⟨50460, 22, 95126, 10002⟩, 3) ]

/-- The function `shipping_qa_model::evaluate`: the listed day count, `-1` on a miss. -/
def shipping_qa_model_evaluate (category service from_zip to_zip : Int) : Int :=
  match qa_model_map.find? (fun kv => decide (kv.1 = ⟨category, service, from_zip, to_zip⟩)) with
  | some kv => kv.2
  | none => -1

/-- Historical averages: `data 0` is the total, `data 1 … data 7` are Sunday … Saturday. -/
structure analytical_info where
  data : Fin 8 → Int

def analytical_info.get_total (a : analytical_info) : Int := a.data 0

def analytical_info.get_day (a : analytical_info) (day_of_week : Int) : Int :=
  let day_of_week : Int := if day_of_week < 1 ∨ day_of_week > 7 then 1 else day_of_week
  if h : 0 ≤ day_of_week ∧ day_of_week < 8 then a.data ⟨day_of_week.toNat, by omega⟩
  else 0

structure shipping_zip_key where
  shipping_service_id : Int
  origin_zip : Int
  dest_zip : Int
  deriving DecidableEq, Repr

structure zip_key where
  origin_zip : Int
  dest_zip : Int
  deriving DecidableEq, Repr

structure zip_range_key where
  country_id : Int
  zip : Int
  deriving DecidableEq, Repr

structure service_country_key where
  country_id : Int
  service_id : Int
  deriving DecidableEq, Repr

abbrev seller_map := Int → Option analytical_info
abbrev category_map := Int → Option analytical_info
abbrev shipping_map := Int → Option analytical_info
abbrev shipping_zip_map := shipping_zip_key → Option analytical_info
abbrev zip_map := zip_key → Option analytical_info
abbrev zip_range_map := zip_range_key → Option Int
abbrev base_service_map := service_country_key → Option Int
abbrev zip_estimate_map := shipping_zip_key → Option shipping_service_est

/-- The struct `experiment_model`. Scores and thresholds are C++ `double`s that are only
ever compared; they are rationals here. -/
structure experiment_model where
  seller_features : Option seller_map
  category_features : Option category_map
  shipping_features : Option shipping_map
  shipping_zip_features : Option shipping_zip_map
  zip_features : Option zip_map
  thresholds : List ℚ
  min_days_predicted : Nat
  max_days_predicted : Nat

/-- The delegated predicate `eligibility->is_analytical_eligible(from_country, to_country,
to_region, to_zip, handling_time, listing_site)`. -/
abbrev eligibility_fn := Int → Int → Int → Int → Int → Int → Bool

/-- The static state of the macro. `category_optouts` is a `std::set` of
`(seller, category)` pairs, a list here. -/
structure State where
  zip_ranges : Option zip_range_map
  base_services : Option base_service_map
  zip_estimates : Option zip_estimate_map
  holiday_info_map : Option holiday_map
  eligibility : Option eligibility_fn
  category_optouts : List (Int × Int)
  default_model : experiment_model
  test_model : experiment_model

/-- Functions and constants the macro uses from headers that are not among the sources;
they are parameters of the embedding. -/
structure Externals where
  seconds_per_day : Int
  seconds_per_hour : Int
  get_month_from_day : Int → Int
  get_holidays : Int → Option holiday_map → Option holiday_info
  is_non_working_day : Int → holiday_info → Int → Bool

/-- The attributes the host supplies for one request. A blob is the list of its
characters; `LeafCats` is a pointer that may be `NULL`. -/
structure Request where
  handling_time : Int
  Site : Int
  Ctry : Int
  FromZip : List (List Char)
  SellerId : Int
  LeafCats : Option (List Int)
  AllCats : List Int
  item_price : Int
  ToCtry : Int
  ToRegion : Int
  ToZip : Int
  sde_model : List Char
  CalculatedShippingCost : List Int
  NativeDeliveryEstimate : List Int
  DeliveryEstimateStartDate : List Int
  dist_val : Int
  FnfOptOut : Int

def nde_max_column : Nat := 1
def nde_service_column : Nat := 2
def nde_working_column : Nat := 3
def shipcalc_column_number_error : Nat := 0
def shipcalc_column_number_low_cost : Nat := 5
def des_column_number_start_date : Nat := 0
def des_column_number_start_time : Nat := 2

/-! ## Postal code translation -/

def translate_to_zip (c : country) (to_zip_big to_country_id : Int) : Int :=
  let to_zip : Int := 0
  if to_country_id = c.united_states ∨ to_country_id = c.germany then
    wrap16 (to_zip_big.tdiv 100)
  else if to_country_id = c.australia then wrap16 to_zip_big
  else if to_zip ≥ 10000 then wrap16 (to_zip_big.tdiv 100)
  else wrap16 to_zip_big

/-- The `for` loop of `translate_from_zip` over the characters of the first blob. -/
def translate_from_zip_loop (c : country) (from_country_id : Int) :
    List Char → Nat → Int → Int
  | [], _, from_zip => from_zip
  | ch :: rest, i, from_zip =>
    if i < 4 then
      if ch.toNat < '0'.toNat ∨ ch.toNat > '9'.toNat ∨
          (from_country_id ≠ c.australia ∧ i ≥ 3) then from_zip
      else translate_from_zip_loop c from_country_id rest (i + 1)
        (from_zip * 10 + (ch.toNat : Int) - ('0'.toNat : Int))
    else from_zip

def translate_from_zip (c : country) (from_zip_string : List (List Char))
    (from_country_id : Int) : Int :=
  match from_zip_string with
  | blob :: _ =>
    if blob.length > 0 then wrap16 (translate_from_zip_loop c from_country_id blob 0 0)
    else wrap16 (-1)
  | [] => wrap16 (-1)

/-- The `for` loop of `translate_from_zip_big`. -/
def translate_from_zip_big_loop : List Char → Nat → Int → Int
  | [], _, from_zip => from_zip
  | ch :: rest, i, from_zip =>
    if i < 9 then
      if ch.toNat < '0'.toNat ∨ ch.toNat > '9'.toNat then from_zip
      else translate_from_zip_big_loop rest (i + 1)
        (from_zip * 10 + (ch.toNat : Int) - ('0'.toNat : Int))
    else from_zip

def translate_from_zip_big (from_zip_string : List (List Char)) : Int :=
  match from_zip_string with
  | blob :: _ => if blob.length > 0 then translate_from_zip_big_loop blob 0 0 else 0
  | [] => 0

/-! ## Feature vector -/

/-- The enumerators of `ship_model` that index the feature array. -/
inductive ship_model where
  | HOUR_OF_DAY | DAY_OF_WEEK | MONTH_OF_YEAR | SHIPPING_FEE | ITEM_PRICE | DISTANCE
  | HANDLING_DAYS | DAYS_FROM_NONWORKING_DAYS | IS_PAYMENT_ON_HOLIDAY
  | SELLER_TOTAL_AVERAGE | SELLER_DAY_AVERAGE
  | CATEGORY_TOTAL_AVERAGE | CATEGORY_DAY_AVERAGE
  | SHIPPING_METHOD_TOTAL_AVERAGE | SHIPPING_METHOD_DAY_AVERAGE
  | ZIP_TOTAL_AVERAGE | ZIP_DAY_AVERAGE
  | SHIPPING_METHOD_ZIP_TOTAL_AVERAGE | SHIPPING_METHOD_ZIP_DAY_AVERAGE
  deriving DecidableEq, Repr

/-- The array `int32_t features[MAX_VALUE]`. -/
abbrev features := ship_model → Int

/-- The assignment `features[k] = v`. -/
def features.set (f : features) (k : ship_model) (v : Int) : features :=
  fun j => if j = k then v else f j

def set_seller_features (f : features) (day_of_week seller_id : Int)
    (model : experiment_model) : features :=
  let f := f.set .SELLER_TOTAL_AVERAGE (-1)
  let f := f.set .SELLER_DAY_AVERAGE (-1)
  match model.seller_features with
  | some m =>
    match m seller_id with
    | some it =>
      let f := f.set .SELLER_TOTAL_AVERAGE it.get_total
      f.set .SELLER_DAY_AVERAGE (it.get_day day_of_week)
    | none => f
  | none => f

def set_category_features (f : features) (day_of_week leaf_category_id : Int)
    (model : experiment_model) : features :=
  let f := f.set .CATEGORY_TOTAL_AVERAGE (-1)
  let f := f.set .CATEGORY_DAY_AVERAGE (-1)
  match model.category_features with
  | some m =>
    match m leaf_category_id with
    | some it =>
      let f := f.set .CATEGORY_TOTAL_AVERAGE it.get_total
      f.set .CATEGORY_DAY_AVERAGE (it.get_day day_of_week)
    | none => f
  | none => f

def set_shipment_zip_features (f : features) (day_of_week shipping_service to_zip from_zip : Int)
    (model : experiment_model) : features :=
  let f := f.set .SHIPPING_METHOD_TOTAL_AVERAGE (-1)
  let f := f.set .SHIPPING_METHOD_DAY_AVERAGE (-1)
  let f := f.set .ZIP_TOTAL_AVERAGE (-1)
  let f := f.set .ZIP_DAY_AVERAGE (-1)
  let f := f.set .SHIPPING_METHOD_ZIP_TOTAL_AVERAGE (-1)
  let f := f.set .SHIPPING_METHOD_ZIP_DAY_AVERAGE (-1)
  let f :=
    match model.shipping_features with
    | some m =>
      match m shipping_service with
      | some it =>
        let f := f.set .SHIPPING_METHOD_TOTAL_AVERAGE it.get_total
        f.set .SHIPPING_METHOD_DAY_AVERAGE (it.get_day day_of_week)
      | none => f
    | none => f
  let f :=
    match model.zip_features with
    | some m =>
      match m ⟨from_zip, to_zip⟩ with
      | some it =>
        let f := f.set .ZIP_TOTAL_AVERAGE it.get_total
        f.set .ZIP_DAY_AVERAGE (it.get_day day_of_week)
      | none => f
    | none => f
  match model.shipping_zip_features with
  | some m =>
    match m ⟨shipping_service, from_zip, to_zip⟩ with
    | some it =>
      let f := f.set .SHIPPING_METHOD_ZIP_TOTAL_AVERAGE it.get_total
      f.set .SHIPPING_METHOD_ZIP_DAY_AVERAGE (it.get_day day_of_week)
    | none => f
  | none => f

/-- The function `shipping_tree_model::evaluate` of `shipping_analytical_modelB.cpp`. -/
def shipping_tree_model_evaluate (_ : features) : ℚ := 10

/-! ## The Australian zip-to-zip model -/

/-- The function `zip_to_zip_model`; the pair is `(min_days, max_days)`, passed by reference
in the source. -/
def zip_to_zip_model (st : State) (days : Int × Int)
    (shipping_service to_zip to_country_id from_zip from_country_id handling_time : Int) :
    Int × Int :=
  match st.base_services, st.zip_ranges, st.zip_estimates with
  | some base_services, some zip_ranges, some zip_estimates =>
    if to_zip ≠ 0 ∧ from_zip ≠ 0 ∧ shipping_service ≠ 0 ∧ from_country_id = to_country_id ∧
        from_country_id ≠ 0 then
      match base_services ⟨wrap16 from_country_id, shipping_service⟩ with
      | some it =>
        match zip_ranges ⟨wrap16 to_country_id, to_zip⟩,
            zip_ranges ⟨wrap16 from_country_id, from_zip⟩ with
        | some it_to, some it_from =>
          match zip_estimates ⟨it, it_to, it_from⟩ with
          | some it_estimate =>
            if it_estimate.max_hours ≥ 0 then
              (it_estimate.min_hours.tdiv 24 + handling_time,
               it_estimate.max_hours.tdiv 24 + handling_time)
            else days
          | none => days
        | _, _ => days
      | none => days
    else days
  | _, _, _ => days

/-! ## Calendar features and threshold bucketing -/

/-- The `while` loop that counts `days_from_nonworking_day`; `nwd day` is
`is_non_working_day(day, origin_holidays, non_working_days)`. -/
def days_from_nonworking_day_loop (nwd : Int → Bool) : Nat → Int → Int → Int
  | 0, _, days_from_nonworking_day => days_from_nonworking_day
  | fuel + 1, day, days_from_nonworking_day =>
    if !nwd day then
      let day := day + 1
      let days_from_nonworking_day := days_from_nonworking_day + 1
      if days_from_nonworking_day ≥ 7 then days_from_nonworking_day
      else days_from_nonworking_day_loop nwd fuel day days_from_nonworking_day
    else days_from_nonworking_day

/-- The bound `max_model_days`: the model's `max_days_predicted`, replaced by the digit of a
two-character `D`+digit model string. -/
def max_model_days (model : experiment_model) (sde_model : List Char) : Nat :=
  match sde_model with
  | [d0, d1] =>
    if d0 = 'D' ∧ d1.toNat ≥ '0'.toNat ∧ d1.toNat ≤ '9'.toNat then d1.toNat - '0'.toNat
    else model.max_days_predicted
  | _ => model.max_days_predicted

/-- The threshold `for` loop, from index `i`; `days` is `(min_days, max_days)` before the
loop. The loop stops at the first `i` beyond the bound or beyond the thresholds. -/
def threshold_loop (model_score : ℚ) (thresholds : List ℚ) (max_model_days : Nat) :
    Nat → Nat → Int × Int → Int × Int
  | 0, _, days => days
  | fuel + 1, i, days =>
    if i ≤ max_model_days then
      if h : thresholds.length ≤ i then days
      else if model_score ≤ thresholds[i] then (wrap32 i, wrap32 i)
      else threshold_loop model_score thresholds max_model_days fuel (i + 1) days
    else days

/-- The loop as the macro runs it: from `min_days_predicted`, with fuel that outlasts the
thresholds list. -/
def threshold_bucket (model_score : ℚ) (thresholds : List ℚ)
    (min_days_predicted max_model_days : Nat) (days : Int × Int) : Int × Int :=
  threshold_loop model_score thresholds max_model_days (thresholds.length + 1)
    min_days_predicted days

/-! ## The macro `AnalyticalDeliveryEstimate` -/

/-- The stages of the macro that can write the result. -/
inductive Stage where
  | zip_to_zip
  | qa
  | threshold
  deriving DecidableEq, Repr

/-- The statement `if (handling_time == 0) handling_time = 1;`. -/
def normalize_handling_time (handling_time : Int) : Int :=
  if handling_time = 0 then 1 else handling_time

/-- The value of `is_analytical_eligible` after the four gate statements of the macro: the
delegated predicate (false when it is not loaded), the native-estimate check, the seller
opt-out flag and the category opt-out set. -/
def is_analytical_eligible (st : State) (rq : Request) : Bool :=
  let handling_time := normalize_handling_time rq.handling_time
  let is_analytical_eligible : Bool :=
    match st.eligibility with
    | some eligibility =>
      eligibility rq.Ctry rq.ToCtry rq.ToRegion rq.ToZip handling_time rq.Site
    | none => false
  let is_analytical_eligible : Bool :=
    if rq.NativeDeliveryEstimate.length > nde_working_column then
      let native_max := rq.NativeDeliveryEstimate.getD nde_max_column 0
      if native_max < 0 then false else is_analytical_eligible
    else is_analytical_eligible
  let is_analytical_eligible : Bool :=
    if rq.FnfOptOut ≠ 0 then false else is_analytical_eligible
  let is_analytical_eligible : Bool :=
    if rq.AllCats.length > 0 ∧ st.category_optouts ≠ [] ∧
        (st.category_optouts.count (rq.SellerId, rq.AllCats.getD 0 0)) > 0 then false
    else is_analytical_eligible
  is_analytical_eligible

/-- The local `shipping_service`: column 2 of the native estimate when the estimate has its
four columns, 0 otherwise. -/
def request_shipping_service (rq : Request) : Int :=
  if rq.NativeDeliveryEstimate.length > nde_working_column then
    wrap32 (rq.NativeDeliveryEstimate.getD nde_service_column 0)
  else 0

/-- The local `non_working_days`: column 3 of the native estimate, 0 when it is missing. -/
def request_non_working_days (rq : Request) : Int :=
  if rq.NativeDeliveryEstimate.length > nde_working_column then
    wrap8 (rq.NativeDeliveryEstimate.getD nde_working_column 0)
  else 0

/-- The local `to_zip`: translated only for an eligible request with a non-zero
destination zip. -/
def request_to_zip (c : country) (st : State) (rq : Request) : Int :=
  if is_analytical_eligible st rq ∧ rq.ToZip ≠ 0 then translate_to_zip c rq.ToZip rq.ToCtry
  else 0

/-- The local `from_zip`: translated only for an eligible request. -/
def request_from_zip (c : country) (st : State) (rq : Request) : Int :=
  if is_analytical_eligible st rq then translate_from_zip c rq.FromZip rq.Ctry else 0

/-- The local `distance` after bucketing. -/
def request_distance (c : country) (st : State) (rq : Request) : Int :=
  if request_from_zip c st rq = -1 then -1 else (rq.dist_val * 1609 + 27500).tdiv 55000

/-- The local `leaf_category_id`: the first leaf category, 0 when there is none. -/
def request_leaf_category (rq : Request) : Int :=
  match rq.LeafCats with
  | some (cat :: _) => cat
  | _ => 0

/-- The model a request selects: the test model for the model string `b`, the default
model otherwise. -/
def request_model (st : State) (rq : Request) : experiment_model :=
  if rq.sde_model = ['b'] then st.test_model else st.default_model

/-- The feature array the US branch hands to the scoring function. -/
def model_features (c : country) (ext : Externals) (st : State) (rq : Request) : features :=
  let handling_time := normalize_handling_time rq.handling_time
  let model := request_model st rq
  let shipping_price : Int :=
    if rq.CalculatedShippingCost.length > shipcalc_column_number_low_cost ∧
        rq.CalculatedShippingCost.getD shipcalc_column_number_error 0 = 0 then
      rq.CalculatedShippingCost.getD shipcalc_column_number_low_cost 0
    else 1
  let cal : Int × Int × Int × Int × Int :=
    if rq.DeliveryEstimateStartDate.length > des_column_number_start_time then
      let start_date := rq.DeliveryEstimateStartDate.getD des_column_number_start_date 0
      let hour_of_day :=
        ((rq.DeliveryEstimateStartDate.getD des_column_number_start_time 0).tmod
          ext.seconds_per_day).tdiv ext.seconds_per_hour
      let day_of_week := (start_date + 1).tmod 7 + 1
      let month_of_year := ext.get_month_from_day start_date
      match ext.get_holidays rq.Ctry st.holiday_info_map with
      | some origin_holidays =>
        let is_payment_on_holiday : Int := if origin_holidays.is_holiday start_date then 1 else 0
        let days_from_nonworking_day :=
          days_from_nonworking_day_loop
            (fun day => ext.is_non_working_day day origin_holidays
              (request_non_working_days rq))
            7 start_date 0
        (hour_of_day, day_of_week, month_of_year, days_from_nonworking_day,
          is_payment_on_holiday)
      | none => (hour_of_day, day_of_week, month_of_year, 0, 0)
    else (0, 0, 0, 0, 0)
  let hour_of_day := cal.1
  let day_of_week := cal.2.1
  let month_of_year := cal.2.2.1
  let days_from_nonworking_day := cal.2.2.2.1
  let is_payment_on_holiday := cal.2.2.2.2
  let f : features := fun _ => 0
  let f := f.set .HOUR_OF_DAY (wrap32 hour_of_day)
  let f := f.set .DAY_OF_WEEK (wrap32 day_of_week)
  let f := f.set .MONTH_OF_YEAR (wrap32 month_of_year)
  let f := f.set .SHIPPING_FEE ((wrap32 (shipping_price + 99)).tdiv 100)
  let f := f.set .ITEM_PRICE ((rq.item_price + 99).tdiv 100)
  let f := f.set .DISTANCE (wrap32 (request_distance c st rq))
  let f := f.set .HANDLING_DAYS handling_time
  let f := f.set .DAYS_FROM_NONWORKING_DAYS (wrap32 days_from_nonworking_day)
  let f := f.set .IS_PAYMENT_ON_HOLIDAY (wrap32 is_payment_on_holiday)
  let f := set_seller_features f day_of_week rq.SellerId model
  let f := set_shipment_zip_features f day_of_week (request_shipping_service rq)
    (request_to_zip c st rq) (request_from_zip c st rq) model
  set_category_features f day_of_week (request_leaf_category rq) model

/-- The local `model_score`: the scoring function applied to the feature array. -/
def model_score (c : country) (ext : Externals) (st : State) (evaluate : features → ℚ)
    (rq : Request) : ℚ :=
  evaluate (model_features c ext st rq)

/-- The day count of the QA branch. -/
def qa_days (rq : Request) : Int :=
  shipping_qa_model_evaluate (wrap32 (request_leaf_category rq)) (request_shipping_service rq)
    (translate_from_zip_big rq.FromZip) rq.ToZip

/-- The macro `AnalyticalDeliveryEstimate`: the returned `(min_days, max_days)` together
with the stages that ran, in order. `evaluate` is the scoring function
(`shipping_tree_model::evaluate`). -/
def AnalyticalDeliveryEstimate_run (c : country) (ext : Externals) (st : State)
    (evaluate : features → ℚ) (rq : Request) : (Int × Int) × List Stage :=
  let days : Int × Int := (-1, -1)
  let to_country_id := rq.ToCtry
  let handling_time := normalize_handling_time rq.handling_time
  let is_analytical_eligible := is_analytical_eligible st rq
  let r : (Int × Int) × List Stage :=
    if is_analytical_eligible ∧ to_country_id = c.australia then
      (zip_to_zip_model st days (request_shipping_service rq) (request_to_zip c st rq)
        to_country_id (request_from_zip c st rq) rq.Ctry handling_time, [Stage.zip_to_zip])
    else (days, [])
  if is_analytical_eligible ∧ to_country_id = c.united_states ∧ rq.sde_model = ['q', 'a'] then
    let max_days := qa_days rq
    ((max_days, max_days), r.2 ++ [Stage.qa])
  else if is_analytical_eligible ∧ to_country_id = c.united_states then
    let model := request_model st rq
    (threshold_bucket (model_score c ext st evaluate rq) model.thresholds
      model.min_days_predicted (max_model_days model rq.sde_model) r.1,
      r.2 ++ [Stage.threshold])
  else r

def AnalyticalDeliveryEstimate (c : country) (ext : Externals) (st : State)
    (evaluate : features → ℚ) (rq : Request) : Int × Int :=
  (AnalyticalDeliveryEstimate_run c ext st evaluate rq).1

end Analytical

/-! ## Search devices used in the proofs

One device per loop shape of the source: `first_pos` is the result of a `while (z > 0)`
search over the truncations of `z`, `first_dw` the result of a
`while (true) … if (z == 0) break` search. The loops of the embedding are shown to compute
them. -/

section Devices

variable {α : Type}

def first_pos (b : Int) (f : Int → Option α) : Nat → Int → Option α
  | 0, _ => none
  | n + 1, z =>
    if 0 < z then
      match f z with
      | some e => some e
      | none => first_pos b f n (z.tdiv b)
    else none

def first_dw (b : Int) (f : Int → Option α) : Nat → Int → Option α
  | 0, _ => none
  | n + 1, z =>
    match f z with
    | some e => some e
    | none => if z.tdiv b = 0 then none else first_dw b f n (z.tdiv b)

end Devices

/-- Probe of one origin level of `get_z2z_ranges`: the bucket lookup of the origin value
followed, when it has a bucket, by the whole destination loop. -/
def ranges_level (rm : Native.z2z_range_map) (em : Native.z2z_estimate_map) (fc tc svc tb tz : Int)
    (f : Int) : Option shipping_service_est :=
  match rm ⟨fc, f⟩ with
  | some it_from =>
    first_pos tb (fun p => Native.get_z2z_ranges_probe rm em fc tc svc it_from p) tz.toNat tz
  | none => none

/-- Destination values probed under one origin level of `get_z2z_ranges`: none when the
origin value has no bucket, the trace of the destination loop otherwise. -/
def ranges_level_trace (rm : Native.z2z_range_map) (em : Native.z2z_estimate_map)
    (fc tc svc tb tz : Int) (f : Int) : List Int :=
  match rm ⟨fc, f⟩ with
  | some it_from => (Native.get_z2z_ranges_to_loop rm em fc tc svc tb it_from tz.toNat tz).2
  | none => []

/-- The pair of truncation levels `(i, j)` hits with estimate `e` in `get_z2z_ranges`: the
origin truncated `i` times and the destination truncated `j` times are positive, both have
a range bucket, and the estimate table holds
`(origin_country, dest_country, origin bucket, dest bucket, service)` with entry `e`,
`max_hours >= 0`. -/
def ranges_hit (c : country) (rm : Native.z2z_range_map) (em : Native.z2z_estimate_map)
    (fc tc fz tz svc : Int) (i j : Nat) (e : shipping_service_est) : Prop :=
  0 < fz.tdiv (Native.ctry_base c fc ^ i) ∧ 0 < tz.tdiv (Native.ctry_base c tc ^ j) ∧
    ∃ bf bt : Int,
      rm ⟨fc, fz.tdiv (Native.ctry_base c fc ^ i)⟩ = some bf ∧
      rm ⟨tc, tz.tdiv (Native.ctry_base c tc ^ j)⟩ = some bt ∧
      em ⟨fc, tc, bf, bt, svc⟩ = some e ∧ 0 ≤ e.max_hours

/-- The pair of truncation levels `(i, j)` is probed by `get_z2z_default` (unless an earlier
pair hits): level 0 is the code itself, whatever its value, and a further level is reached
only while the truncated code is not 0. -/
def default_probed (c : country) (fc tc fz tz : Int) (i j : Nat) : Prop :=
  (i = 0 ∨ fz.tdiv (Native.ctry_base c fc ^ i) ≠ 0) ∧
    (j = 0 ∨ tz.tdiv (Native.ctry_base c tc ^ j) ≠ 0)

/-- The key `get_z2z_default` looks up at truncation levels `(i, j)`. -/
def default_key (c : country) (fc tc fz tz svc : Int) (i j : Nat) : Native.z2z_default_key :=
  ⟨fc, tc, fz.tdiv (Native.ctry_base c fc ^ i), tz.tdiv (Native.ctry_base c tc ^ j), svc⟩

/-! ## Concrete inputs used by the closed theorems -/

/-- Country identifiers used in the concrete evaluations. -/
def sample_country : country := ⟨3, 1, 77, 15⟩

/-- A zip-pair table whose only entry is keyed by the 3-digit prefixes `954` and `757`. -/
def prefix_only_default_map : Native.z2z_default_map :=
  fun k => if k = ⟨77, 77, 954, 757, 7712⟩ then some ⟨24, 48⟩ else none

/-- A services set that lists only the request `(77, 77, service 1)`. -/
def own_request_set : Native.z2z_services_set :=
  fun k => decide (k = ⟨77, 77, 1⟩)

/-- Tables whose zip-pair table holds the exact key of the request
`(77, 77, 1000, 2000, service 1)`. -/
def own_request_tables : Native.Tables :=
  { service_info_map := none, service_cbt_map := none, service_exc_map := none,
    service_z2z_range_map := none,
    service_z2z_default_map :=
      some (fun k => if k = ⟨77, 77, 1000, 2000, 1⟩ then some ⟨24, 48⟩ else none),
    service_z2z_tozipnull_map := none, service_z2z_estimate_map := none,
    service_z2z_services_set := some own_request_set }

/-- A services set that lists only `(77, 77, service 7712)`. -/
def constants_set : Native.z2z_services_set :=
  fun k => decide (k = ⟨77, 77, 7712⟩)

/-- Tables whose zip-pair table holds the key `(77, 77, 9545, 7575, service 7712)`. -/
def constants_tables : Native.Tables :=
  { service_info_map := none, service_cbt_map := none, service_exc_map := none,
    service_z2z_range_map := none,
    service_z2z_default_map :=
      some (fun k => if k = ⟨77, 77, 9545, 7575, 7712⟩ then some ⟨24, 48⟩ else none),
    service_z2z_tozipnull_map := none, service_z2z_estimate_map := none,
    service_z2z_services_set := some constants_set }

/-- A zip-pair table whose entry has the "unknown" hours `(-1, -1)`. -/
def negative_default_map : Native.z2z_default_map :=
  fun k => if k = ⟨77, 77, 9545, 7575, 7712⟩ then some ⟨-1, -1⟩ else none

/-- A buyer-zip-omitted table whose entry has the "unknown" hours `(-1, -1)`. -/
def negative_tozipnull_map : Native.z2z_tozipnull_map :=
  fun k => if k = ⟨77, 77, 9545, 7712⟩ then some ⟨-1, -1⟩ else none

/-- An exclusion-zone table whose entry has the "unknown" hours `(-1, -1)`. -/
def negative_exc_map : Native.exc_map :=
  fun k => if k = Native.exclusion_zip_key.make 7712 77 7575 then some ⟨-1, -1⟩ else none

/-- Tables in which only the zip-pair table is loaded, with a negative entry. -/
def negative_tables : Native.Tables :=
  { service_info_map := none, service_cbt_map := none, service_exc_map := none,
    service_z2z_range_map := none,
    service_z2z_default_map := some negative_default_map,
    service_z2z_tozipnull_map := none, service_z2z_estimate_map := none,
    service_z2z_services_set := some constants_set }

/-- Externals used in the concrete evaluations: no holiday calendar. -/
def sample_externals : Analytical.Externals :=
  { seconds_per_day := 86400, seconds_per_hour := 3600, get_month_from_day := fun _ => 1,
    get_holidays := fun _ _ => none, is_non_working_day := fun _ _ _ => false }

/-- A model with thresholds `0, 0, 10, 20` for days 0 to 3 and the day range `[2, 7]`. -/
def sample_model : Analytical.experiment_model :=
  { seller_features := none, category_features := none, shipping_features := none,
    shipping_zip_features := none, zip_features := none,
    thresholds := [0, 0, 10, 20], min_days_predicted := 2, max_days_predicted := 7 }

/-- A state whose eligibility predicate accepts every request and whose opt-out set holds
the pair `(seller 42, category 37908)`. -/
def sample_state : Analytical.State :=
  { zip_ranges := none, base_services := none, zip_estimates := none,
    holiday_info_map := none, eligibility := some (fun _ _ _ _ _ _ => true),
    category_optouts := [(42, 37908)], default_model := sample_model,
    test_model := sample_model }

/-- A request to the United States with a valid native estimate `(3, 5, service 19, 65)`. -/
def us_request : Analytical.Request :=
  { handling_time := 1, Site := 0, Ctry := 1, FromZip := [['9', '5', '1', '2', '6']],
    SellerId := 7, LeafCats := some [37908], AllCats := [37908], item_price := 1000,
    ToCtry := 1, ToRegion := 0, ToZip := 90067, sde_model := [],
    CalculatedShippingCost := [], NativeDeliveryEstimate := [3, 5, 19, 65],
    DeliveryEstimateStartDate := [], dist_val := 300, FnfOptOut := 0 }

/-- The request `us_request` without a native estimate. -/
def us_request_no_native : Analytical.Request :=
  { us_request with NativeDeliveryEstimate := [] }

/-- The request `us_request` with the negative upper bound `-1` in its native estimate. -/
def us_request_negative_native : Analytical.Request :=
  { us_request with NativeDeliveryEstimate := [-1, -1, 19, 65] }

/-- The request `us_request` from the opted-out seller 42. -/
def us_request_opted_out : Analytical.Request :=
  { us_request with SellerId := 42 }

/-- The request `us_request` with the QA model string. -/
def us_request_qa : Analytical.Request :=
  { us_request with sde_model := ['q', 'a'] }

/-- The index `d` is the least day index in the scan range `[m, u]` that lies inside the
thresholds list `t` and whose threshold is not below the score `s`. -/
def least_threshold_index (s : ℚ) (t : List ℚ) (m u d : Nat) : Prop :=
  m ≤ d ∧ d ≤ u ∧ (∃ x, t[d]? = some x ∧ s ≤ x) ∧
    ∀ d' : Nat, m ≤ d' → d' < d → ∀ x, t[d']? = some x → ¬ s ≤ x

/-- A range table with the buckets `95 -> 90` and `75 -> 70` of country 77. -/
def sample_range_map : Native.z2z_range_map :=
  fun k => if k = ⟨77, 95⟩ then some 90 else if k = ⟨77, 75⟩ then some 70 else none

/-- An estimate table with the bucket pair `(90, 70)` of service 7712. -/
def sample_estimate_map : Native.z2z_estimate_map :=
  fun k => if k = ⟨77, 77, 90, 70, 7712⟩ then some ⟨48, 72⟩ else none

/-- A buyer-zip-omitted table keyed by the prefix `95` of service 7712. -/
def sample_tozipnull_map : Native.z2z_tozipnull_map :=
  fun k => if k = ⟨77, 77, 95, 7712⟩ then some ⟨72, 96⟩ else none

/-! ## The macro `NativeDeliveryEstimate` -/

namespace Native

/-- The attributes the host supplies to `NativeDeliveryEstimate` for one request;
`shipping_services` is a pointer that may be `NULL`. -/
structure Request where
  handling_time : Int
  Ctry : Int
  ToCtry : Int
  shipping_services : Option (List Int)
  CalculatedShippingCost : List Int
  FromZip : List (List Char)
  ToZip : Int

def shipcalc_column_number_error : Nat := 0
def shipcalc_column_number_mail_class : Nat := 2
def cbt_shipping_service_id : Int := 50000

/-- The `for` loop of `translate_from_zip_big` in `nativeCodeRev.cpp`. -/
def translate_from_zip_big_loop : List Char → Nat → Int → Int
  | [], _, from_zip => from_zip
  | ch :: rest, i, from_zip =>
    if i < 9 then
      if ch.toNat < '0'.toNat ∨ ch.toNat > '9'.toNat then from_zip
      else translate_from_zip_big_loop rest (i + 1)
        (from_zip * 10 + (ch.toNat : Int) - ('0'.toNat : Int))
    else from_zip

def translate_from_zip_big (from_zip_string : List (List Char)) : Int :=
  match from_zip_string with
  | blob :: _ => if blob.length > 0 then translate_from_zip_big_loop blob 0 0 else 0
  | [] => 0

/-- The `for` loop that picks the shipping service when there is no ShipCalc response: the
first service on the cross-border side of `cbt_shipping_service_id` that matches `is_cbt`;
`shipping_service` is the value held when no entry qualifies. -/
def pick_shipping_service (is_cbt : Bool) : List Int → Int → Int
  | [], shipping_service => shipping_service
  | v :: rest, shipping_service =>
    if is_cbt = true ∧ v ≥ cbt_shipping_service_id then wrap32 v
    else if is_cbt = false ∧ v < cbt_shipping_service_id then wrap32 v
    else pick_shipping_service is_cbt rest shipping_service

/-- The locals of `NativeDeliveryEstimate` after its table lookups. -/
structure native_locals where
  from_country_id : Int
  to_country_id : Int
  shipping_service : Int
  min_hours : Int
  max_hours : Int
  working_days : Int
  have_z2z_est : Bool
  deriving DecidableEq, Repr

/-- The local `to_country_id` of `NativeDeliveryEstimate`. `convert_country` is
`MACRO_NS::convert_country`, declared in a header that is not among the sources. -/
def native_to_country_id (convert_country : Int → Int) (rq : Request) : Int :=
  wrap16 (convert_country rq.ToCtry)

set_option linter.unusedVariables false in
/-- The local `from_country_id` of `NativeDeliveryEstimate`: the origin country read from
the request is overwritten by the statement `from_country_id = 77;` before its first
use. -/
def native_from_country_id (convert_country : Int → Int) (rq : Request) : Int :=
  let from_country_id : Int := wrap16 (convert_country rq.Ctry)
  let from_country_id : Int := 77
  from_country_id

/-- The local `is_cbt`. -/
def native_is_cbt (convert_country : Int → Int) (rq : Request) : Bool :=
  decide (native_from_country_id convert_country rq ≠ native_to_country_id convert_country rq)

/-- The local `shipping_service`: the mail class of the ShipCalc response when there is
one without error, otherwise the service picked from the item's services. -/
def native_shipping_service (convert_country : Int → Int) (rq : Request) : Int :=
  if rq.CalculatedShippingCost.length > shipcalc_column_number_mail_class ∧
      rq.CalculatedShippingCost.getD shipcalc_column_number_error 0 = 0 then
    wrap32 (rq.CalculatedShippingCost.getD shipcalc_column_number_mail_class 0)
  else
    match rq.shipping_services with
    | some values => pick_shipping_service (native_is_cbt convert_country rq) values 0
    | none => 0

/-- The local `z2z_est`: the zip cascade runs only for a request that is not cross-border,
when the services set is loaded. -/
def native_z2z_est (c : country) (convert_country : Int → Int) (T : Tables) (rq : Request) :
    Option shipping_service_est :=
  match native_is_cbt convert_country rq, T.service_z2z_services_set with
  | false, some services =>
    get_z2z_est c T services (native_from_country_id convert_country rq)
      (native_to_country_id convert_country rq) (translate_from_zip_big rq.FromZip) rq.ToZip
      (native_shipping_service convert_country rq)
  | _, _ => none

/-- The body of `NativeDeliveryEstimate` up to the day conversion: the zip cascade, the
service default table, then the cross-border table. -/
def NativeDeliveryEstimate_locals (c : country) (convert_country : Int → Int) (T : Tables)
    (rq : Request) : native_locals :=
  let from_country_id := native_from_country_id convert_country rq
  let to_country_id := native_to_country_id convert_country rq
  let shipping_service := native_shipping_service convert_country rq
  let working_days : Int := 65
  let l : native_locals :=
    match native_z2z_est c convert_country T rq with
    | some est =>
      ⟨from_country_id, to_country_id, shipping_service, est.min_hours, est.max_hours,
        working_days, true⟩
    | none => ⟨from_country_id, to_country_id, shipping_service, -1, -1, working_days, false⟩
  let l : native_locals :=
    match T.service_info_map with
    | some service_info_map =>
      if shipping_service ≠ 0 ∧ l.have_z2z_est = false then
        match service_info_map shipping_service with
        | some it =>
          { l with min_hours := it.min_hours, max_hours := it.max_hours,
                   working_days := it.working_days_flags }
        | none => l
      else l
    | none => l
  if (shipping_service ≥ cbt_shipping_service_id ∨ from_country_id ≠ to_country_id) ∧
      l.have_z2z_est = false then
    match T.service_cbt_map with
    | some service_cbt_map =>
      let l : native_locals := { l with min_hours := -1, max_hours := -1 }
      match service_cbt_map ⟨shipping_service, from_country_id, to_country_id⟩ with
      | some it => { l with min_hours := it.min_hours, max_hours := it.max_hours }
      | none =>
        match service_cbt_map ⟨shipping_service, to_country_id, to_country_id⟩ with
        | some it => { l with min_hours := it.min_hours, max_hours := it.max_hours }
        | none => l
    | none => l
  else l

/-- The macro `NativeDeliveryEstimate`: the returned vector
`(min_days, max_days, shipping_service, working_days)`. -/
def NativeDeliveryEstimate (c : country) (convert_country : Int → Int) (T : Tables)
    (rq : Request) : List Int :=
  let l := NativeDeliveryEstimate_locals c convert_country T rq
  let handling_time : Int := if rq.handling_time = 0 then 1 else rq.handling_time
  let max_days : Int :=
    if l.max_hours ≥ 0 ∧ handling_time > 0 then l.max_hours.tdiv 24 + handling_time else -1
  let min_days : Int :=
    if l.min_hours ≥ 0 ∧ handling_time > 0 then l.min_hours.tdiv 24 + handling_time else -1
  [min_days, max_days, l.shipping_service, l.working_days]

end Native

/-! ## Calendar construction (`holiday_info::set_bit`) -/

/-- The function `holiday_info::set_bit`. `day_number year month day` is
`boost::gregorian::gregorian_calendar::day_number`, a library function. -/
def holiday_info.set_bit (h : holiday_info) (day_number : Int → Int → Int → Int)
    (year month day : Int) : holiday_info :=
  if month < 1 ∨ month > 12 ∨ day < 1 ∨ day > 31 then h
  else
    let date : Int := day_number year month day
    if hlt : date - h.start_date < 0 ∨ date - h.start_date ≥ 915 then h
    else
      { h with holidays :=
          Function.update h.holidays ⟨(date - h.start_date).toNat, by omega⟩ true }

/-- The country conversion used in the concrete evaluations: the identity. -/
def sample_convert_country : Int → Int := fun country_id => country_id

/-- A cross-border request from country 77 to country 1 whose ShipCalc response names
service 5. -/
def cbt_request : Native.Request :=
  { handling_time := 1, Ctry := 77, ToCtry := 1, shipping_services := none,
    CalculatedShippingCost := [0, 0, 5], FromZip := [], ToZip := 90067 }

/-- A service default table that holds service 5 with hours `(24, 48)`. -/
def service5_info_map : Native.ssi_map :=
  fun s => if s = 5 then some ⟨24, 48, 65⟩ else none

/-- Tables whose service default table holds service 5 with hours `(24, 48)` and whose
cross-border table is loaded but empty. -/
def cbt_miss_tables : Native.Tables :=
  { service_info_map := some service5_info_map,
    service_cbt_map := some (fun _ => none), service_exc_map := none,
    service_z2z_range_map := none, service_z2z_default_map := none,
    service_z2z_tozipnull_map := none, service_z2z_estimate_map := none,
    service_z2z_services_set := none }

/-- A cross-border table that holds only the self-pair `(service 5, 1, 1)`. -/
def self_pair_cbt_map : Native.cbt_map :=
  fun k => if k = ⟨5, 1, 1⟩ then some ⟨72, 96, 0⟩ else none

/-- Tables with the service default of `cbt_miss_tables` and the self-pair cross-border
table. -/
def cbt_self_pair_tables : Native.Tables :=
  { cbt_miss_tables with service_cbt_map := some self_pair_cbt_map }

/-! ## Search devices with a probe trace

The devices `first_pos` and `first_dw` extended with the list of values probed; the
single-code loops of the embedding are instances of them. -/

section TraceDevices

variable {α : Type}

def scan_pos (b : Int) (f : Int → Option α) : Nat → Int → Option α × List Int
  | 0, _ => (none, [])
  | n + 1, z =>
    if 0 < z then
      match f z with
      | some e => (some e, [z])
      | none => ((scan_pos b f n (z.tdiv b)).1, z :: (scan_pos b f n (z.tdiv b)).2)
    else (none, [])

def scan_dw (b : Int) (f : Int → Option α) : Nat → Int → Option α × List Int
  | 0, _ => (none, [])
  | n + 1, z =>
    match f z with
    | some e => (some e, [z])
    | none =>
      if z.tdiv b = 0 then (none, [z])
      else ((scan_dw b f n (z.tdiv b)).1, z :: (scan_dw b f n (z.tdiv b)).2)

end TraceDevices

/-- The Julian day number of a Gregorian date, the formula of
`gregorian_calendar::day_number`; used in the concrete evaluations. -/
def gregorian_day_number (year month day : Int) : Int :=
  let a := (14 - month) / 12
  let y := year + 4800 - a
  let m := month + 12 * a - 3
  day + (153 * m + 2) / 5 + 365 * y + y / 4 - y / 100 + y / 400 - 32045

/-- A calendar that starts on 1 January 2000 (day 2451545) and has no holiday yet. -/
def empty_calendar_2000 : holiday_info :=
  { holidays := fun _ => false, start_date := 2451545 }

/-! ## Instrumented threshold loop and the walk of the design document -/

/-- The threshold `for` loop of `threshold_loop` together with its iterations: for each
execution of the loop body, the index `i` and whether `thresholds[i]` was read. -/
def threshold_loop_run (model_score : ℚ) (thresholds : List ℚ) (max_model_days : Nat) :
    Nat → Nat → Int × Int → (Int × Int) × List (Nat × Bool)
  | 0, _, days => (days, [])
  | fuel + 1, i, days =>
    if i ≤ max_model_days then
      if h : thresholds.length ≤ i then (days, [(i, false)])
      else if model_score ≤ thresholds[i] then ((wrap32 i, wrap32 i), [(i, true)])
      else
        ((threshold_loop_run model_score thresholds max_model_days fuel (i + 1) days).1,
          (i, true) ::
            (threshold_loop_run model_score thresholds max_model_days fuel (i + 1) days).2)
    else (days, [])

/-- The walk as the design document words it: the number of consecutive non-working days
starting at the anchor day (stepping while the current day is non-working), capped at 7. -/
def consecutive_nonworking_days (nwd : Int → Bool) (anchor : Int) : Int :=
  (((List.range 7).takeWhile (fun k => nwd (anchor + k))).length : Int)

/-- Externals whose calendar lookup always finds `empty_calendar_2000` and for which no
day is a non-working day. -/
def all_working_externals : Analytical.Externals :=
  { seconds_per_day := 86400, seconds_per_hour := 3600, get_month_from_day := fun _ => 1,
    get_holidays := fun _ _ => some empty_calendar_2000,
    is_non_working_day := fun _ _ _ => false }

/-- The request `us_request` paid on day 2451545 at 01:00. -/
def us_request_dated : Analytical.Request :=
  { us_request with DeliveryEstimateStartDate := [2451545, 0, 3600] }

/-- A model whose only threshold not below the score 10 is the one of day 9, with the day
range `[2, 7]`. -/
def late_threshold_model : Analytical.experiment_model :=
  { seller_features := none, category_features := none, shipping_features := none,
    shipping_zip_features := none, zip_features := none,
    thresholds := [0, 0, 0, 0, 0, 0, 0, 0, 0, 20], min_days_predicted := 2,
    max_days_predicted := 7 }

/-- The state `sample_state` with `late_threshold_model` as default model. -/
def late_threshold_state : Analytical.State :=
  { sample_state with default_model := late_threshold_model }

/-- The request `us_request` with the override model string `D9`. -/
def us_request_override_9 : Analytical.Request :=
  { us_request with sde_model := ['D', '9'] }

/-! ## Reading of a postal code as a run of leading digits -/

/-- The character is one of `'0'` .. `'9'`. -/
def spec_is_digit (ch : Char) : Bool :=
  decide ('0'.toNat ≤ ch.toNat ∧ ch.toNat ≤ '9'.toNat)

/-- Specification side: the longest run of leading digit characters within the first `n`
characters of a code. -/
def spec_leading_digits (n : Nat) (code : List Char) : List Char :=
  (code.take n).takeWhile spec_is_digit

/-- Specification side: the decimal value of a string of digit characters, `0` for the
empty string. -/
def spec_decimal_value (digits : List Char) : Int :=
  digits.foldl (fun acc ch => acc * 10 + (ch.toNat : Int) - ('0'.toNat : Int)) 0

/-- Number of leading characters `translate_from_zip` reads for an origin country. -/
def from_zip_width (c : country) (from_country_id : Int) : Nat :=
  if from_country_id = c.australia then 4 else 3

/-! ## Accumulator of `translate_from_zip_big` -/

/-- The values the 32-bit accumulator expression of `translate_from_zip_big` takes, computed
in the integers: for each digit read, `from_zip * 10`, `from_zip * 10 + raw[i]` and
`from_zip * 10 + raw[i] - '0'`, in order. -/
def translate_from_zip_big_values : List Char → Nat → Int → List Int
  | [], _, _ => []
  | ch :: rest, i, from_zip =>
    if i < 9 then
      if ch.toNat < '0'.toNat ∨ ch.toNat > '9'.toNat then []
      else
        from_zip * 10 :: (from_zip * 10 + (ch.toNat : Int)) ::
          (from_zip * 10 + (ch.toNat : Int) - ('0'.toNat : Int)) ::
          translate_from_zip_big_values rest (i + 1)
            (from_zip * 10 + (ch.toNat : Int) - ('0'.toNat : Int))
    else []

/-- The truncation of a code by the base `b`, as the lookups do it: `z /= b`. -/
def truncate_zip (b : Int) (z : Int) : Int := z.tdiv b

/-! ## Alphanumeric postal codes as table keys (`fileCreation.cpp`) -/

namespace FileCreation

def UK_ZIP_BASE : Int := 36

def UK_ZIP_VAR : Int := 55

/-- The library function `std::isdigit` on an ASCII character. -/
def isdigit (ch : Char) : Bool :=
  decide ('0'.toNat ≤ ch.toNat ∧ ch.toNat ≤ '9'.toNat)

/-- The function `is_number`: the iterator skips the leading digits; the string is a number
when it is not empty and the iterator reached its end. -/
def is_number (str : List Char) : Bool :=
  let it := str.dropWhile isdigit
  !str.isEmpty && it.isEmpty

/-- The `while (pow)` loop of `power` on 32-bit integers: `pow & 1` is the low bit and
`pow >>= 1` the arithmetic shift. No value is produced when the fuel runs out before `pow`
is 0. -/
def power_loop : Nat → Int → Int → Int → Option Int
  | 0, _, pow, result => if pow ≠ 0 then none else some result
  | fuel + 1, base, pow, result =>
    if pow ≠ 0 then
      power_loop fuel (wrap32 (base * base)) (pow / 2)
        (if pow % 2 = 1 then wrap32 (result * base) else result)
    else some result

/-- The function `power`. The fuel `pow` is enough for every non-negative exponent, since
the shift at least halves it; for a negative exponent the source loop does not terminate
and no value is produced. -/
def power (base pow : Int) : Option Int :=
  power_loop pow.toNat base pow 1

/-- The library call `boost::lexical_cast<int32_t>` on a non-empty string of digits: its
decimal value, or no value (the call throws `bad_lexical_cast`) when that value does not
fit 32 bits. -/
def lexical_cast_int32 (str : List Char) : Option Int :=
  let value := str.foldl (fun acc ch => acc * 10 + (ch.toNat : Int) - ('0'.toNat : Int)) 0
  if value < 2 ^ 31 then some value else none

/-- The `for` loop of `convert_zip_to_hash` over the characters of the code, with the
running `counter` and `zip_hash`. -/
def convert_zip_to_hash_loop : List Char → Int → Int → Option Int
  | [], _, zip_hash => some zip_hash
  | ch :: rest, counter, zip_hash =>
    match power UK_ZIP_BASE (wrap32 (counter - 1)) with
    | none => none
    | some p =>
      if isdigit ch then
        convert_zip_to_hash_loop rest (wrap32 (counter - 1))
          (wrap32 (zip_hash + wrap32 (wrap32 ((ch.toNat : Int) - ('0'.toNat : Int)) * p)))
      else
        convert_zip_to_hash_loop rest (wrap32 (counter - 1))
          (wrap32 (zip_hash + wrap32 (wrap32 ((ch.toNat : Int) - UK_ZIP_VAR) * p)))

/-- The function `convert_zip_to_hash`: a code made of digits only is read as a decimal
number, any other code through the base-36 loop. -/
def convert_zip_to_hash (zip : List Char) : Option Int :=
  if is_number zip then lexical_cast_int32 zip
  else convert_zip_to_hash_loop zip (wrap32 (zip.length : Int)) 0

end FileCreation

/-- The character is one of `'A'` .. `'Z'`. -/
def spec_is_upper (ch : Char) : Bool :=
  decide ('A'.toNat ≤ ch.toNat ∧ ch.toNat ≤ 'Z'.toNat)

/-- Specification side: the base-36 digit of a code character: `'0'..'9'` map to 0..9 and
every other character, in particular `'A'..'Z'`, to its character code minus 55. -/
def spec_base36_digit (ch : Char) : Int :=
  if spec_is_digit ch then (ch.toNat : Int) - 48 else (ch.toNat : Int) - 55

/-- Specification side: the value obtained by reading a code left to right and accumulating
`value = value * 36 + digit`. -/
def spec_base36_value (code : List Char) : Int :=
  code.foldl (fun value ch => value * 36 + spec_base36_digit ch) 0

/-! ## Locals behind the calendar, price and distance features -/

namespace Analytical

/-- The local `shipping_price`: the low-cost column of the ShipCalc response when the
response has it and reports no error, 1 otherwise. -/
def request_shipping_price (rq : Request) : Int :=
  if rq.CalculatedShippingCost.length > shipcalc_column_number_low_cost ∧
      rq.CalculatedShippingCost.getD shipcalc_column_number_error 0 = 0 then
    rq.CalculatedShippingCost.getD shipcalc_column_number_low_cost 0
  else 1

/-- The local `day_of_week`: `(start_date + 1) % 7 + 1` when the request has its start
date, 0 otherwise. -/
def request_day_of_week (rq : Request) : Int :=
  if rq.DeliveryEstimateStartDate.length > des_column_number_start_time then
    (rq.DeliveryEstimateStartDate.getD des_column_number_start_date 0 + 1).tmod 7 + 1
  else 0

end Analytical

/-- The request `us_request` with a ShipCalc response of low cost 1250 and the item price
1999. -/
def us_request_priced : Analytical.Request :=
  { us_request with CalculatedShippingCost := [0, 0, 0, 0, 0, 1250], item_price := 1999 }

/-- The request `us_request` at a distance of 73406836926 miles, the least distance whose
bucket is `2^31`. -/
def us_request_far : Analytical.Request :=
  { us_request with dist_val := 73406836926 }

/-- The request `us_request` paid on Sunday 2 January 2000 (day 2451546). -/
def us_request_sunday : Analytical.Request :=
  { us_request with DeliveryEstimateStartDate := [2451546, 0, 3600] }

/-- A record of historical averages: total 10, Sunday 11, …, Saturday 17. -/
def sample_history : Analytical.analytical_info :=
  { data := fun i => 10 + (i.val : Int) }

/-- The model `sample_model` with a seller table that holds `sample_history` for seller 7
and no other table. -/
def history_model : Analytical.experiment_model :=
  { sample_model with
    seller_features := some (fun seller_id => if seller_id = 7 then some sample_history else none) }

/-- The holiday walk `days_from_nonworking_day_loop` together with the days on which its
loop body ran, in order. -/
def days_from_nonworking_day_run (nwd : Int → Bool) : Nat → Int → Int → Int × List Int
  | 0, _, days_from_nonworking_day => (days_from_nonworking_day, [])
  | fuel + 1, day, days_from_nonworking_day =>
    if !nwd day then
      if days_from_nonworking_day + 1 ≥ 7 then (days_from_nonworking_day + 1, [day])
      else
        ((days_from_nonworking_day_run nwd fuel (day + 1) (days_from_nonworking_day + 1)).1,
          day ::
            (days_from_nonworking_day_run nwd fuel (day + 1) (days_from_nonworking_day + 1)).2)
    else (days_from_nonworking_day, [])

/-- The conditions under which `zip_to_zip_model` writes the result, with the estimate entry
`est` it reads: the three tables are loaded, both zips and the service are non-zero, the
countries are equal and non-zero, the service has a base service, both zips have a range
bucket, and the estimate table holds `est`, with `max_hours >= 0`, under the key whose
origin slot is the bucket of the destination zip and whose destination slot is the bucket
of the origin zip. -/
def zip_to_zip_hit (st : Analytical.State)
    (shipping_service to_zip to_country_id from_zip from_country_id : Int)
    (est : shipping_service_est) : Prop :=
  ∃ (base_services : Analytical.base_service_map) (zip_ranges : Analytical.zip_range_map)
    (zip_estimates : Analytical.zip_estimate_map) (base_service bucket_to bucket_from : Int),
    st.base_services = some base_services ∧ st.zip_ranges = some zip_ranges ∧
    st.zip_estimates = some zip_estimates ∧
    to_zip ≠ 0 ∧ from_zip ≠ 0 ∧ shipping_service ≠ 0 ∧ from_country_id = to_country_id ∧
    from_country_id ≠ 0 ∧
    base_services ⟨wrap16 from_country_id, shipping_service⟩ = some base_service ∧
    zip_ranges ⟨wrap16 to_country_id, to_zip⟩ = some bucket_to ∧
    zip_ranges ⟨wrap16 from_country_id, from_zip⟩ = some bucket_from ∧
    zip_estimates
      { shipping_service_id := base_service, origin_zip := bucket_to,
        dest_zip := bucket_from } = some est ∧
    0 ≤ est.max_hours

/-- A state for the Australian path (country 15): service 19 has the base service 100, the
zips 2000 and 3000 are their own buckets, and the estimate table holds `(24, 72)` under
`(100, origin 3000, dest 2000)` and `(48, 120)` under `(100, origin 2000, dest 3000)`. -/
def au_state : Analytical.State :=
  { sample_state with
    base_services := some (fun k => if k = ⟨15, 19⟩ then some 100 else none),
    zip_ranges := some (fun k =>
      if k = ⟨15, 2000⟩ then some 2000 else if k = ⟨15, 3000⟩ then some 3000 else none),
    zip_estimates := some (fun k =>
      if k = ⟨100, 3000, 2000⟩ then some ⟨24, 72⟩
      else if k = ⟨100, 2000, 3000⟩ then some ⟨48, 120⟩ else none) }

/-- A domestic request of country 77 whose ShipCalc response names service 5. -/
def domestic_request : Native.Request :=
  { cbt_request with ToCtry := 77 }

/-- Tables whose service default table holds service 5 with an unknown lower bound,
`(-1, 48)`, and nothing else. -/
def min_unknown_tables : Native.Tables :=
  { cbt_miss_tables with
    service_info_map := some (fun s => if s = 5 then some ⟨-1, 48, 65⟩ else none) }

namespace Native

/-- The local `handling_time` of `NativeDeliveryEstimate` after the statement
`if (handling_time == 0) handling_time = 1;`. -/
def native_handling_time (rq : Request) : Int :=
  if rq.handling_time = 0 then 1 else rq.handling_time

end Native

/-- The request `domestic_request` with the handling time -1. -/
def domestic_request_negative_handling : Native.Request :=
  { domestic_request with handling_time := -1 }

/-! ## Decoding of a table key (`convert_hash_to_zip`) -/

namespace FileCreation

/-- The `while (zip != 0)` loop of `convert_hash_to_zip`: the characters written to the
string stream, in the order they are written. A remainder in `0..9` is written as a
number, hence as its decimal digit; any other remainder as the character
`(char) (rem + UK_ZIP_VAR)`. -/
def convert_hash_to_zip_loop : Nat → Int → List Char
  | 0, _ => []
  | fuel + 1, zip =>
    if zip ≠ 0 then
      let rem : Int := zip.tmod UK_ZIP_BASE
      if rem ≥ 0 ∧ rem ≤ 9 then
        Char.ofNat ('0'.toNat + rem.toNat) :: convert_hash_to_zip_loop fuel (zip.tdiv UK_ZIP_BASE)
      else
        Char.ofNat (rem + UK_ZIP_VAR).toNat :: convert_hash_to_zip_loop fuel (zip.tdiv UK_ZIP_BASE)
    else []

/-- The function `convert_hash_to_zip`: the written characters, reversed. The fuel
`|zip|` outlasts the loop, since every division by 36 shrinks the magnitude. -/
def convert_hash_to_zip (zip : Int) : List Char :=
  (convert_hash_to_zip_loop zip.natAbs zip).reverse

end FileCreation

/-! ## Construction of the zip-range table (`zr_create_map_data`) -/

namespace FileCreation

structure zip_range_key where
  country_id : Int
  zip : Int
  deriving DecidableEq, Repr

/-- The table `zip_range_map`, from `(country, zip)` to the start of the zip's range. -/
abbrev zip_range_map := zip_range_key → Option Int

/-- The call `bmap->insert(std::pair(key, value))`: it has no effect when the key is
already present. -/
def zip_range_map.insert (bmap : zip_range_map) (key : zip_range_key) (value : Int) :
    zip_range_map :=
  fun k =>
    if k = key then
      match bmap key with
      | some old => some old
      | none => some value
    else bmap k

/-- One line `country zip_begin zip_end` of the input of `zr_create_map_data`, as the three
`int16_t` variables hold it in one iteration of the reading loop. -/
structure zip_range_line where
  country : Int
  zip_begin : Int
  zip_end : Int
  deriving DecidableEq, Repr

/-- The loop `for (int16_t i = zip_begin; i <= zip_end; i++)` of `zr_create_map_data`, from
the value `i`: an excluded zip is skipped, any other zip is inserted with the value
`zip_begin`. -/
def zr_range_loop (excluded : Int → Bool) (country zip_begin zip_end : Int) :
    Nat → Int → zip_range_map → zip_range_map
  | 0, _, bmap => bmap
  | fuel + 1, i, bmap =>
    if i ≤ zip_end then
      if excluded i then
        zr_range_loop excluded country zip_begin zip_end fuel (wrap16 (i + 1)) bmap
      else
        zr_range_loop excluded country zip_begin zip_end fuel (wrap16 (i + 1))
          (bmap.insert ⟨country, i⟩ zip_begin)
    else bmap

/-- The map `zr_create_map_data` builds from the lines of its input, in input order;
`excluded` is the membership test of the set `excluded`. The inner loop gets one unit of
fuel for each zip of the range. -/
def zr_create_map_data (input : List zip_range_line) (excluded : Int → Bool) :
    zip_range_map :=
  input.foldl
    (fun bmap line =>
      zr_range_loop excluded line.country line.zip_begin line.zip_end
        (line.zip_end - line.zip_begin + 1).toNat line.zip_begin bmap)
    (fun _ => none)

/-- The set `excluded_zips` of `main`. -/
def excluded_zips : Int → Bool :=
  fun zip => decide (zip ∈ [2898, 2899, 6798, 6799, 7151])

/-- The line of the input covers the key: same country, and the zip lies in the range. -/
def zip_range_line.covers (line : zip_range_line) (key : zip_range_key) : Bool :=
  decide (line.country = key.country_id ∧ line.zip_begin ≤ key.zip ∧ key.zip ≤ line.zip_end)

end FileCreation

/-- Zip ranges of country 15 for the concrete evaluations: `[2000, 2004]`, the overlapping
`[2003, 2008]`, and `[6797, 6800]`, which contains two excluded zips. -/
def sample_zip_range_lines : List FileCreation.zip_range_line :=
  [⟨15, 2000, 2004⟩, ⟨15, 2003, 2008⟩, ⟨15, 6797, 6800⟩]

/-! ## Truncation arithmetic -/

section Truncation

theorem tdiv_tdiv_of_nonneg (z a b : Int) (ha : 0 ≤ a) (hb : 0 ≤ b) :
    (z.tdiv a).tdiv b = z.tdiv (a * b) := by
  obtain ⟨a, rfl⟩ := Int.eq_ofNat_of_zero_le ha
  obtain ⟨b, rfl⟩ := Int.eq_ofNat_of_zero_le hb
  rcases Int.natAbs_eq z with hz | hz
  · rw [hz, ← Int.ofNat_tdiv, ← Int.ofNat_tdiv, ← Int.ofNat_mul, ← Int.ofNat_tdiv,
      Nat.div_div_eq_div_mul]
  · rw [hz, Int.neg_tdiv, Int.neg_tdiv, Int.neg_tdiv, ← Int.ofNat_tdiv, ← Int.ofNat_tdiv,
      ← Int.ofNat_mul, ← Int.ofNat_tdiv, Nat.div_div_eq_div_mul]

theorem tdiv_pow_succ (z b : Int) (hb : 0 ≤ b) (k : Nat) :
    z.tdiv (b ^ (k + 1)) = (z.tdiv b).tdiv (b ^ k) := by
  rw [tdiv_tdiv_of_nonneg z b (b ^ k) hb (pow_nonneg hb k), pow_succ, mul_comm]

theorem tdiv_pow_zero (z b : Int) : z.tdiv (b ^ 0) = z := by
  simp

theorem tdiv_lt_self (z b : Int) (hz : 0 < z) (hb : 2 ≤ b) : z.tdiv b < z := by
  rw [Int.tdiv_eq_ediv (le_of_lt hz) (by omega)]
  exact Int.ediv_lt_of_lt_mul (by omega) (by nlinarith)

theorem natAbs_tdiv_lt (z b : Int) (hz : z ≠ 0) (hb : 2 ≤ b) :
    (z.tdiv b).natAbs < z.natAbs := by
  rw [Int.natAbs_tdiv]
  have h1 : 0 < z.natAbs := Int.natAbs_pos.mpr hz
  have h2 : 2 ≤ b.natAbs := by omega
  exact Nat.div_lt_self h1 h2

theorem tdiv_pow_pos_of_pos (z b : Int) (hb : 0 ≤ b) (k : Nat)
    (h : 0 < z.tdiv (b ^ (k + 1))) : 0 < z.tdiv (b ^ k) := by
  by_contra hcon
  have hle : z.tdiv (b ^ k) ≤ 0 := by omega
  have e : z.tdiv (b ^ (k + 1)) = (z.tdiv (b ^ k)).tdiv b := by
    rw [tdiv_tdiv_of_nonneg z (b ^ k) b (pow_nonneg hb k) hb, pow_succ]
  rw [e] at h
  have : (z.tdiv (b ^ k)).tdiv b ≤ 0 := by
    obtain ⟨n, hn⟩ := Int.exists_eq_neg_ofNat hle
    rw [hn, Int.neg_tdiv]
    have := Int.tdiv_nonneg (Int.ofNat_nonneg n) hb
    omega
  omega

theorem ctry_base_ge_two (c : country) (country_id : Int) :
    2 ≤ Native.ctry_base c country_id := by
  unfold Native.ctry_base Native.uk_zip_base
  split <;> omega

end Truncation

/-! ## First hit along the truncations of a code

Each search device is characterised by the least truncation level at which the probe
hits. -/

section FirstHit

variable {α : Type}

theorem first_pos_none_iff (b : Int) (hb : 2 ≤ b) (f : Int → Option α) :
    ∀ (n : Nat) (z : Int), z ≤ n →
      (first_pos b f n z = none ↔ ∀ k : Nat, 0 < z.tdiv (b ^ k) → f (z.tdiv (b ^ k)) = none) := by
  intro n
  induction n with
  | zero =>
    intro z hz
    simp only [first_pos, true_iff]
    intro k hk
    exfalso
    induction k with
    | zero => simp at hk; omega
    | succ k ih => exact ih (tdiv_pow_pos_of_pos z b (by omega) k hk)
  | succ n ih =>
    intro z hz
    by_cases hpos : 0 < z
    · have hlt := tdiv_lt_self z b hpos hb
      have hfuel : z.tdiv b ≤ (n : Int) := by push_cast at hz; omega
      cases hf : f z with
      | some e =>
        simp only [first_pos, hpos, if_true, hf]
        constructor
        · intro h; cases h
        · intro h
          have := h 0 (by simpa using hpos)
          simp [hf] at this
      | none =>
        simp only [first_pos, hpos, if_true, hf]
        rw [ih _ hfuel]
        constructor
        · intro h k hk
          cases k with
          | zero => simpa using hf
          | succ k =>
            rw [tdiv_pow_succ z b (by omega) k] at hk ⊢
            exact h k hk
        · intro h k hk
          rw [← tdiv_pow_succ z b (by omega) k] at hk ⊢
          exact h (k + 1) hk
    · simp only [first_pos, hpos, if_false, true_iff]
      intro k hk
      exfalso
      induction k with
      | zero => simp at hk; omega
      | succ k ih2 => exact ih2 (tdiv_pow_pos_of_pos z b (by omega) k hk)

theorem first_pos_some (b : Int) (hb : 2 ≤ b) (f : Int → Option α) (e : α) :
    ∀ (n : Nat) (z : Int), first_pos b f n z = some e →
      ∃ k : Nat, 0 < z.tdiv (b ^ k) ∧ f (z.tdiv (b ^ k)) = some e ∧
        ∀ k' : Nat, k' < k → f (z.tdiv (b ^ k')) = none := by
  intro n
  induction n with
  | zero => intro z h; simp [first_pos] at h
  | succ n ih =>
    intro z h
    by_cases hpos : 0 < z
    · cases hf : f z with
      | some e' =>
        simp only [first_pos, hpos, if_true, hf] at h
        refine ⟨0, by simpa using hpos, by simpa [hf] using h, ?_⟩
        intro k' hk'; omega
      | none =>
        simp only [first_pos, hpos, if_true, hf] at h
        obtain ⟨k, h1, h2, h3⟩ := ih _ h
        refine ⟨k + 1, ?_, ?_, ?_⟩
        · rw [tdiv_pow_succ z b (by omega) k]; exact h1
        · rw [tdiv_pow_succ z b (by omega) k]; exact h2
        · intro k' hk'
          cases k' with
          | zero => simpa using hf
          | succ k' =>
            rw [tdiv_pow_succ z b (by omega) k']
            exact h3 k' (by omega)
    · simp [first_pos, hpos] at h

/-- The least-level description determines the result of `first_pos`. -/
theorem first_pos_eq_some_iff (b : Int) (hb : 2 ≤ b) (f : Int → Option α) (e : α)
    (n : Nat) (z : Int) (hz : z ≤ n) :
    first_pos b f n z = some e ↔
      ∃ k : Nat, 0 < z.tdiv (b ^ k) ∧ f (z.tdiv (b ^ k)) = some e ∧
        ∀ k' : Nat, k' < k → f (z.tdiv (b ^ k')) = none := by
  constructor
  · exact first_pos_some b hb f e n z
  · rintro ⟨k, hk1, hk2, hk3⟩
    cases hres : first_pos b f n z with
    | none =>
      have := (first_pos_none_iff b hb f n z hz).mp hres k hk1
      rw [hk2] at this; cases this
    | some e' =>
      obtain ⟨j, hj1, hj2, hj3⟩ := first_pos_some b hb f e' n z hres
      rcases Nat.lt_trichotomy j k with hlt | heq | hgt
      · have := hk3 j hlt; rw [hj2] at this; cases this
      · subst heq; rw [hj2] at hk2; exact hk2
      · have := hj3 k hgt; rw [hk2] at this; cases this

end FirstHit

section FirstHitDoWhile

variable {α : Type}

theorem zero_tdiv_pow_of_tdiv_eq_zero (z b : Int) (hb : 0 ≤ b) (h : z.tdiv b = 0) (k : Nat) :
    z.tdiv (b ^ (k + 1)) = 0 := by
  rw [tdiv_pow_succ z b hb k, h]
  simp

theorem first_dw_none_iff (b : Int) (hb : 2 ≤ b) (f : Int → Option α) :
    ∀ (n : Nat) (z : Int), z.natAbs < n →
      (first_dw b f n z = none ↔
        ∀ k : Nat, (k = 0 ∨ z.tdiv (b ^ k) ≠ 0) → f (z.tdiv (b ^ k)) = none) := by
  intro n
  induction n with
  | zero => intro z hz; omega
  | succ n ih =>
    intro z hz
    cases hf : f z with
    | some e =>
      simp only [first_dw, hf]
      constructor
      · intro h; cases h
      · intro h
        have := h 0 (Or.inl rfl)
        simp [hf] at this
    | none =>
      by_cases hq : z.tdiv b = 0
      · simp only [first_dw, hf, hq, if_true, true_iff]
        intro k hk
        cases k with
        | zero => simpa using hf
        | succ k =>
          rcases hk with hk | hk
          · omega
          · exact absurd (zero_tdiv_pow_of_tdiv_eq_zero z b (by omega) hq k) hk
      · have hz0 : z ≠ 0 := by
          intro h0; apply hq; rw [h0]; simp
        have hfuel : (z.tdiv b).natAbs < n := by
          have := natAbs_tdiv_lt z b hz0 hb
          omega
        simp only [first_dw, hf, hq, if_false]
        rw [ih _ hfuel]
        constructor
        · intro h k hk
          cases k with
          | zero => simpa using hf
          | succ k =>
            rcases hk with hk | hk
            · omega
            · rw [tdiv_pow_succ z b (by omega) k] at hk ⊢
              exact h k (Or.inr hk)
        · intro h k hk
          rw [← tdiv_pow_succ z b (by omega) k]
          apply h (k + 1)
          right
          rcases hk with hk | hk
          · subst hk
            rw [tdiv_pow_succ z b (by omega) 0]
            simpa using hq
          · rw [tdiv_pow_succ z b (by omega) k]
            exact hk

theorem first_dw_some (b : Int) (hb : 2 ≤ b) (f : Int → Option α) (e : α) :
    ∀ (n : Nat) (z : Int), first_dw b f n z = some e →
      ∃ k : Nat, (k = 0 ∨ z.tdiv (b ^ k) ≠ 0) ∧ f (z.tdiv (b ^ k)) = some e ∧
        ∀ k' : Nat, k' < k → f (z.tdiv (b ^ k')) = none := by
  intro n
  induction n with
  | zero => intro z h; simp [first_dw] at h
  | succ n ih =>
    intro z h
    cases hf : f z with
    | some e' =>
      simp only [first_dw, hf] at h
      refine ⟨0, Or.inl rfl, by simpa [hf] using h, ?_⟩
      intro k' hk'; omega
    | none =>
      by_cases hq : z.tdiv b = 0
      · simp [first_dw, hf, hq] at h
      · simp only [first_dw, hf, hq, if_false] at h
        obtain ⟨k, h1, h2, h3⟩ := ih _ h
        refine ⟨k + 1, ?_, ?_, ?_⟩
        · right
          rw [tdiv_pow_succ z b (by omega) k]
          rcases h1 with h1 | h1
          · subst h1; simpa using hq
          · exact h1
        · rw [tdiv_pow_succ z b (by omega) k]; exact h2
        · intro k' hk'
          cases k' with
          | zero => simpa using hf
          | succ k' =>
            rw [tdiv_pow_succ z b (by omega) k']
            exact h3 k' (by omega)

end FirstHitDoWhile

/-! ## The loops compute the first hit -/

section LoopResults

open Native

theorem get_z2z_tozipnull_loop_fst (m : z2z_tozipnull_map) (fc tc svc b : Int) :
    ∀ (n : Nat) (z : Int),
      (get_z2z_tozipnull_loop m fc tc svc b n z).1 =
        first_pos b (fun p => m ⟨fc, tc, p, svc⟩) n z := by
  intro n
  induction n with
  | zero => intro z; rfl
  | succ n ih =>
    intro z
    simp only [get_z2z_tozipnull_loop, first_pos]
    split
    · cases hf : m ⟨fc, tc, z, svc⟩ with
      | some e => rfl
      | none => exact ih _
    · rfl

theorem get_exc_est_loop_fst (m : exc_map) (tc svc b : Int) :
    ∀ (n : Nat) (z : Int),
      (get_exc_est_loop m tc svc b n z).1 =
        first_pos b (fun p => m (exclusion_zip_key.make svc tc p)) n z := by
  intro n
  induction n with
  | zero => intro z; rfl
  | succ n ih =>
    intro z
    simp only [get_exc_est_loop, first_pos]
    split
    · cases hf : m (exclusion_zip_key.make svc tc z) with
      | some e => rfl
      | none => exact ih _
    · rfl

theorem get_z2z_ranges_to_loop_fst (rm : z2z_range_map) (em : z2z_estimate_map)
    (fc tc svc b it_from : Int) :
    ∀ (n : Nat) (z : Int),
      (get_z2z_ranges_to_loop rm em fc tc svc b it_from n z).1 =
        first_pos b (fun p => get_z2z_ranges_probe rm em fc tc svc it_from p) n z := by
  intro n
  induction n with
  | zero => intro z; rfl
  | succ n ih =>
    intro z
    simp only [get_z2z_ranges_to_loop, first_pos]
    split
    · cases hf : get_z2z_ranges_probe rm em fc tc svc it_from z with
      | some e => rfl
      | none => exact ih _
    · rfl

theorem get_z2z_default_to_loop_fst (m : z2z_default_map) (fc tc svc b f : Int) :
    ∀ (n : Nat) (z : Int),
      (get_z2z_default_to_loop m fc tc svc b f n z).1 =
        first_dw b (fun p => m ⟨fc, tc, f, p, svc⟩) n z := by
  intro n
  induction n with
  | zero => intro z; rfl
  | succ n ih =>
    intro z
    simp only [get_z2z_default_to_loop, first_dw]
    cases hf : m ⟨fc, tc, f, z, svc⟩ with
    | some e => rfl
    | none =>
      simp only []
      split
      · rfl
      · exact ih _

end LoopResults

section OuterLoops

open Native

theorem get_z2z_default_from_loop_fst_of (m : z2z_default_map) (fc tc svc fb tb tz : Int)
    (g : Int → Option shipping_service_est)
    (hg : ∀ f, (get_z2z_default_to_loop m fc tc svc tb f (tz.natAbs + 1) tz).1 = g f) :
    ∀ (n : Nat) (z : Int),
      (get_z2z_default_from_loop m fc tc svc fb tb tz n z).1 = first_dw fb g n z := by
  intro n
  induction n with
  | zero => intro z; rfl
  | succ n ih =>
    intro z
    simp only [get_z2z_default_from_loop, first_dw, hg]
    cases hf : g z with
    | some e => rfl
    | none =>
      simp only []
      split
      · rfl
      · exact ih _

theorem get_z2z_default_from_loop_fst (m : z2z_default_map) (fc tc svc fb tb tz : Int)
    (n : Nat) (z : Int) :
    (get_z2z_default_from_loop m fc tc svc fb tb tz n z).1 =
      first_dw fb
        (fun f => first_dw tb (fun p => m ⟨fc, tc, f, p, svc⟩) (tz.natAbs + 1) tz) n z :=
  get_z2z_default_from_loop_fst_of m fc tc svc fb tb tz _
    (fun f => get_z2z_default_to_loop_fst m fc tc svc tb f _ _) n z

theorem get_z2z_ranges_from_loop_fst (rm : z2z_range_map) (em : z2z_estimate_map)
    (fc tc svc fb tb tz : Int) :
    ∀ (n : Nat) (z : Int),
      (get_z2z_ranges_from_loop rm em fc tc svc fb tb tz n z).1 =
        first_pos fb (ranges_level rm em fc tc svc tb tz) n z := by
  intro n
  induction n with
  | zero => intro z; rfl
  | succ n ih =>
    intro z
    simp only [get_z2z_ranges_from_loop, first_pos, ranges_level]
    split
    · cases hr : rm ⟨fc, z⟩ with
      | some it_from =>
        simp only []
        rw [get_z2z_ranges_to_loop_fst]
        cases hf : first_pos tb (fun p => get_z2z_ranges_probe rm em fc tc svc it_from p)
            tz.toNat tz with
        | some e => rfl
        | none => exact ih _
      | none => exact ih _
    · rfl

theorem le_toNat_self (z : Int) : z ≤ (z.toNat : Int) := by
  omega

end OuterLoops

/-! ## Longest-prefix lookups: `get_z2z_tozipnull` and `get_exc_est` -/

namespace Native

theorem get_z2z_tozipnull_eq_first_pos (c : country) (m : z2z_tozipnull_map)
    (fc tc fz svc : Int) :
    get_z2z_tozipnull c m fc tc fz svc =
      first_pos (ctry_base c fc) (fun p => m ⟨fc, tc, p, svc⟩) fz.toNat fz := by
  unfold get_z2z_tozipnull get_z2z_tozipnull_run
  exact get_z2z_tozipnull_loop_fst m fc tc svc _ _ _

theorem get_exc_est_eq_first_pos (c : country) (m : exc_map) (tc tz svc : Int) :
    get_exc_est c m tc tz svc =
      first_pos (ctry_base c tc) (fun p => m (exclusion_zip_key.make svc tc p)) tz.toNat tz := by
  unfold get_exc_est get_exc_est_run
  exact get_exc_est_loop_fst m tc svc _ _ _

/-- C10. Longest-prefix match on a single code. `get_z2z_tozipnull` returns `e` exactly when
`e` is the entry keyed by `(origin_country, dest_country, p, service)` for the positive
prefix `p = from_zip / base^k` with the smallest `k` that is present in the table, and it
returns nothing exactly when no positive prefix is present. `get_exc_est` does the same over
the destination code with key `(service, dest_country, p)`; it has no origin argument, and
the cascade stage that calls it returns the same value for every origin country and origin
zip. -/
theorem longest_prefix_tozipnull_and_exc (c : country) (nm : z2z_tozipnull_map)
    (xm : exc_map) (fc tc fz tz svc : Int) :
    (∀ e, get_z2z_tozipnull c nm fc tc fz svc = some e ↔
      ∃ k : Nat, 0 < fz.tdiv (ctry_base c fc ^ k) ∧
        nm ⟨fc, tc, fz.tdiv (ctry_base c fc ^ k), svc⟩ = some e ∧
        ∀ k' : Nat, k' < k → nm ⟨fc, tc, fz.tdiv (ctry_base c fc ^ k'), svc⟩ = none) ∧
    (get_z2z_tozipnull c nm fc tc fz svc = none ↔
      ∀ k : Nat, 0 < fz.tdiv (ctry_base c fc ^ k) →
        nm ⟨fc, tc, fz.tdiv (ctry_base c fc ^ k), svc⟩ = none) ∧
    (∀ e, get_exc_est c xm tc tz svc = some e ↔
      ∃ k : Nat, 0 < tz.tdiv (ctry_base c tc ^ k) ∧
        xm (exclusion_zip_key.make svc tc (tz.tdiv (ctry_base c tc ^ k))) = some e ∧
        ∀ k' : Nat, k' < k →
          xm (exclusion_zip_key.make svc tc (tz.tdiv (ctry_base c tc ^ k'))) = none) ∧
    (get_exc_est c xm tc tz svc = none ↔
      ∀ k : Nat, 0 < tz.tdiv (ctry_base c tc ^ k) →
        xm (exclusion_zip_key.make svc tc (tz.tdiv (ctry_base c tc ^ k))) = none) ∧
    (∀ fc' fz' : Int,
      z2z_cascade c ⟨none, none, some xm, none, none, none, none, none⟩ fc' tc fz' tz svc =
        get_exc_est c xm tc tz svc) := by
  refine ⟨?_, ?_, ?_, ?_, ?_⟩
  · intro e
    rw [get_z2z_tozipnull_eq_first_pos]
    exact first_pos_eq_some_iff _ (ctry_base_ge_two c fc) _ e _ _ (le_toNat_self fz)
  · rw [get_z2z_tozipnull_eq_first_pos]
    exact first_pos_none_iff _ (ctry_base_ge_two c fc) _ _ _ (le_toNat_self fz)
  · intro e
    rw [get_exc_est_eq_first_pos]
    exact first_pos_eq_some_iff _ (ctry_base_ge_two c tc) _ e _ _ (le_toNat_self tz)
  · rw [get_exc_est_eq_first_pos]
    exact first_pos_none_iff _ (ctry_base_ge_two c tc) _ _ _ (le_toNat_self tz)
  · intro fc' fz'
    rfl

/-- C10, at a concrete input: for `from_zip = 9545` and a table keyed by the prefix `95`,
the entry returned is the one at a least truncation level. -/
theorem longest_prefix_tozipnull_and_exc_witness :
    ∃ k : Nat, 0 < (9545 : Int).tdiv (ctry_base sample_country 77 ^ k) ∧
      sample_tozipnull_map ⟨77, 77, (9545 : Int).tdiv (ctry_base sample_country 77 ^ k), 7712⟩ =
        some ⟨72, 96⟩ ∧
      ∀ k' : Nat, k' < k →
        sample_tozipnull_map
          ⟨77, 77, (9545 : Int).tdiv (ctry_base sample_country 77 ^ k'), 7712⟩ = none :=
  ((longest_prefix_tozipnull_and_exc sample_country sample_tozipnull_map negative_exc_map
    77 77 9545 7575 7712).1 ⟨72, 96⟩).mp (by decide)

end Native

/-! ## `get_z2z_ranges`: first bucket pair and probe order -/

section Ranges

open Native

theorem pos_of_tdiv_pow_pos (z b : Int) (hb : 0 ≤ b) :
    ∀ k : Nat, 0 < z.tdiv (b ^ k) → 0 < z := by
  intro k
  induction k with
  | zero => intro h; simpa using h
  | succ k ih => intro h; exact ih (tdiv_pow_pos_of_pos z b hb k h)

theorem ranges_probe_eq_some_iff (rm : z2z_range_map) (em : z2z_estimate_map)
    (fc tc svc bf t : Int) (e : shipping_service_est) :
    get_z2z_ranges_probe rm em fc tc svc bf t = some e ↔
      ∃ bt : Int, rm ⟨tc, t⟩ = some bt ∧ em ⟨fc, tc, bf, bt, svc⟩ = some e ∧
        0 ≤ e.max_hours := by
  unfold get_z2z_ranges_probe
  cases h1 : rm ⟨tc, t⟩ with
  | none => simp
  | some bt =>
    simp only [Option.some.injEq, exists_eq_left']
    cases h2 : em ⟨fc, tc, bf, bt, svc⟩ with
    | none => simp
    | some e' =>
      by_cases h3 : 0 ≤ e'.max_hours
      · simp only [h3, if_true, Option.some.injEq]
        constructor
        · intro h; subst h; exact ⟨rfl, h3⟩
        · rintro ⟨he, _⟩; exact he
      · simp only [h3, if_false]
        constructor
        · intro h; cases h
        · rintro ⟨he, hm⟩
          cases he
          exact absurd hm h3

theorem ranges_probe_eq_none_iff (rm : z2z_range_map) (em : z2z_estimate_map)
    (fc tc svc bf t : Int) :
    get_z2z_ranges_probe rm em fc tc svc bf t = none ↔
      ∀ (bt : Int) (e : shipping_service_est), rm ⟨tc, t⟩ = some bt →
        em ⟨fc, tc, bf, bt, svc⟩ = some e → ¬ 0 ≤ e.max_hours := by
  constructor
  · intro h bt e h1 h2 h3
    have := (ranges_probe_eq_some_iff rm em fc tc svc bf t e).mpr ⟨bt, h1, h2, h3⟩
    rw [h] at this; cases this
  · intro h
    cases hp : get_z2z_ranges_probe rm em fc tc svc bf t with
    | none => rfl
    | some e =>
      obtain ⟨bt, h1, h2, h3⟩ := (ranges_probe_eq_some_iff rm em fc tc svc bf t e).mp hp
      exact absurd h3 (h bt e h1 h2)

/-- Result of one origin level: a hit is the first destination level that hits. -/
theorem ranges_level_eq_some_iff (rm : z2z_range_map) (em : z2z_estimate_map)
    (fc tc svc tb tz : Int) (htb : 2 ≤ tb) (f : Int) (e : shipping_service_est) :
    ranges_level rm em fc tc svc tb tz f = some e ↔
      ∃ bf : Int, rm ⟨fc, f⟩ = some bf ∧ ∃ j : Nat, 0 < tz.tdiv (tb ^ j) ∧
        get_z2z_ranges_probe rm em fc tc svc bf (tz.tdiv (tb ^ j)) = some e ∧
        ∀ j' : Nat, j' < j →
          get_z2z_ranges_probe rm em fc tc svc bf (tz.tdiv (tb ^ j')) = none := by
  unfold ranges_level
  cases h1 : rm ⟨fc, f⟩ with
  | none => simp
  | some bf =>
    simp only [Option.some.injEq, exists_eq_left']
    exact first_pos_eq_some_iff tb htb _ e _ _ (le_toNat_self tz)

theorem ranges_level_eq_none_iff (rm : z2z_range_map) (em : z2z_estimate_map)
    (fc tc svc tb tz : Int) (htb : 2 ≤ tb) (f : Int) :
    ranges_level rm em fc tc svc tb tz f = none ↔
      ∀ bf : Int, rm ⟨fc, f⟩ = some bf → ∀ j : Nat, 0 < tz.tdiv (tb ^ j) →
        get_z2z_ranges_probe rm em fc tc svc bf (tz.tdiv (tb ^ j)) = none := by
  unfold ranges_level
  cases h1 : rm ⟨fc, f⟩ with
  | none => simp
  | some bf =>
    simp only [Option.some.injEq, forall_eq']
    exact first_pos_none_iff tb htb _ _ _ (le_toNat_self tz)

theorem get_z2z_ranges_eq_first_pos (c : country) (rm : z2z_range_map) (em : z2z_estimate_map)
    (fc tc fz tz svc : Int) :
    get_z2z_ranges c rm em fc tc fz tz svc =
      first_pos (ctry_base c fc) (ranges_level rm em fc tc svc (ctry_base c tc) tz)
        fz.toNat fz := by
  unfold get_z2z_ranges get_z2z_ranges_run
  exact get_z2z_ranges_from_loop_fst rm em fc tc svc _ _ tz _ _

theorem ranges_level_some_iff_hit (c : country) (rm : z2z_range_map) (em : z2z_estimate_map)
    (fc tc fz tz svc : Int) (i : Nat) (e : shipping_service_est)
    (hi : 0 < fz.tdiv (ctry_base c fc ^ i)) :
    ranges_level rm em fc tc svc (ctry_base c tc) tz (fz.tdiv (ctry_base c fc ^ i)) = some e ↔
      ∃ j : Nat, ranges_hit c rm em fc tc fz tz svc i j e ∧
        ∀ (j' : Nat) (e' : shipping_service_est), j' < j →
          ¬ ranges_hit c rm em fc tc fz tz svc i j' e' := by
  rw [ranges_level_eq_some_iff rm em fc tc svc _ tz (ctry_base_ge_two c tc)]
  constructor
  · rintro ⟨bf, hbf, j, hj, hp, hfirst⟩
    obtain ⟨bt, hbt, hem, hmx⟩ := (ranges_probe_eq_some_iff _ _ _ _ _ _ _ _).mp hp
    refine ⟨j, ⟨hi, hj, bf, bt, hbf, hbt, hem, hmx⟩, ?_⟩
    rintro j' e' hlt ⟨_, _, bf', bt', hbf', hbt', hem', hmx'⟩
    rw [hbf] at hbf'
    cases hbf'
    have := (ranges_probe_eq_none_iff _ _ _ _ _ _ _).mp (hfirst j' hlt) bt' e' hbt' hem'
    exact this hmx'
  · rintro ⟨j, ⟨_, hj, bf, bt, hbf, hbt, hem, hmx⟩, hfirst⟩
    refine ⟨bf, hbf, j, hj, ?_, ?_⟩
    · exact (ranges_probe_eq_some_iff _ _ _ _ _ _ _ _).mpr ⟨bt, hbt, hem, hmx⟩
    · intro j' hlt
      rw [ranges_probe_eq_none_iff]
      intro bt' e' hbt' hem' hmx'
      have hj' : 0 < tz.tdiv (ctry_base c tc ^ j') := by
        have h2 := ctry_base_ge_two c tc
        clear hfirst hbt hem
        induction j with
        | zero => omega
        | succ j ih =>
          have hprev := tdiv_pow_pos_of_pos tz _ (by omega) j hj
          rcases Nat.lt_succ_iff_lt_or_eq.mp hlt with h | h
          · exact ih hprev h
          · rw [h]; exact hprev
      exact hfirst j' e' hlt ⟨hi, hj', bf, bt', hbf, hbt', hem', hmx'⟩

theorem ranges_level_none_iff_no_hit (c : country) (rm : z2z_range_map)
    (em : z2z_estimate_map) (fc tc fz tz svc : Int) (i : Nat)
    (hi : 0 < fz.tdiv (ctry_base c fc ^ i)) :
    ranges_level rm em fc tc svc (ctry_base c tc) tz (fz.tdiv (ctry_base c fc ^ i)) = none ↔
      ∀ (j : Nat) (e : shipping_service_est), ¬ ranges_hit c rm em fc tc fz tz svc i j e := by
  rw [ranges_level_eq_none_iff rm em fc tc svc _ tz (ctry_base_ge_two c tc)]
  constructor
  · rintro h j e ⟨_, hj, bf, bt, hbf, hbt, hem, hmx⟩
    have := (ranges_probe_eq_none_iff _ _ _ _ _ _ _).mp (h bf hbf j hj) bt e hbt hem
    exact this hmx
  · intro h bf hbf j hj
    rw [ranges_probe_eq_none_iff]
    intro bt e hbt hem hmx
    exact h j e ⟨hi, hj, bf, bt, hbf, hbt, hem, hmx⟩

end Ranges

section RangesTrace

open Native

theorem not_pos_tdiv_pow (z b : Int) (hb : 0 ≤ b) (hz : ¬ 0 < z) (k : Nat) :
    ¬ 0 < z.tdiv (b ^ k) :=
  fun h => hz (pos_of_tdiv_pow_pos z b hb k h)

/-- Destination loop of `get_z2z_ranges`: the `j`-th value probed is the `j`-th truncation
and is positive; when the loop finds nothing it has probed every positive truncation. -/
theorem ranges_to_loop_trace (rm : z2z_range_map) (em : z2z_estimate_map)
    (fc tc svc tb bf : Int) (htb : 2 ≤ tb) :
    ∀ (n : Nat) (z : Int), z ≤ n →
      (∀ (j : Nat) (t : Int),
        (get_z2z_ranges_to_loop rm em fc tc svc tb bf n z).2[j]? = some t →
          t = z.tdiv (tb ^ j) ∧ 0 < t) ∧
      ((get_z2z_ranges_to_loop rm em fc tc svc tb bf n z).1 = none →
        ∀ j : Nat, 0 < z.tdiv (tb ^ j) →
          (get_z2z_ranges_to_loop rm em fc tc svc tb bf n z).2[j]? =
            some (z.tdiv (tb ^ j))) := by
  intro n
  induction n with
  | zero =>
    intro z hz
    have hz' : ¬ 0 < z := by simpa using hz
    refine ⟨?_, ?_⟩
    · intro j t h; simp [get_z2z_ranges_to_loop] at h
    · intro _ j hj; exact absurd hj (not_pos_tdiv_pow z tb (by omega) hz' j)
  | succ n ih =>
    intro z hz
    by_cases hpos : 0 < z
    · have hfuel : z.tdiv tb ≤ (n : Int) := by
        have := tdiv_lt_self z tb hpos htb
        push_cast at hz; omega
      obtain ⟨ih1, ih2⟩ := ih _ hfuel
      cases hp : get_z2z_ranges_probe rm em fc tc svc bf z with
      | some e =>
        simp only [get_z2z_ranges_to_loop, hpos, if_true, hp]
        refine ⟨?_, ?_⟩
        · intro j t h
          cases j with
          | zero =>
            simp at h
            subst h
            exact ⟨by simp, hpos⟩
          | succ j => simp at h
        · intro h; cases h
      | none =>
        simp only [get_z2z_ranges_to_loop, hpos, if_true, hp]
        refine ⟨?_, ?_⟩
        · intro j t h
          cases j with
          | zero =>
            simp at h
            subst h
            exact ⟨by simp, hpos⟩
          | succ j =>
            rw [List.getElem?_cons_succ] at h
            rw [tdiv_pow_succ z tb (by omega) j]
            exact ih1 j t h
        · intro hres j hj
          cases j with
          | zero => simp
          | succ j =>
            rw [List.getElem?_cons_succ]
            rw [tdiv_pow_succ z tb (by omega) j] at hj ⊢
            exact ih2 hres j hj
    · refine ⟨?_, ?_⟩
      · intro j t h; simp [get_z2z_ranges_to_loop, hpos] at h
      · intro _ j hj; exact absurd hj (not_pos_tdiv_pow z tb (by omega) hpos j)

theorem ranges_level_eq_to_loop (rm : z2z_range_map) (em : z2z_estimate_map)
    (fc tc svc tb tz f bf : Int) (h : rm ⟨fc, f⟩ = some bf) :
    ranges_level rm em fc tc svc tb tz f =
      (get_z2z_ranges_to_loop rm em fc tc svc tb bf tz.toNat tz).1 := by
  unfold ranges_level
  rw [h]
  exact (get_z2z_ranges_to_loop_fst rm em fc tc svc tb bf _ _).symm

/-- Origin loop of `get_z2z_ranges`: the `i`-th origin value probed is the `i`-th truncation
and is positive, the destination values probed under it are those of
`ranges_level_trace`, and a level that is followed by another origin truncation (or by
the end of an unsuccessful search) found nothing. -/
theorem ranges_from_loop_trace (rm : z2z_range_map) (em : z2z_estimate_map)
    (fc tc svc fb tb tz : Int) (hfb : 2 ≤ fb) :
    ∀ (n : Nat) (z : Int), z ≤ n →
      (∀ (i : Nat) (p : Int × List Int),
        (get_z2z_ranges_from_loop rm em fc tc svc fb tb tz n z).2[i]? = some p →
          p.1 = z.tdiv (fb ^ i) ∧ 0 < p.1 ∧
          p.2 = ranges_level_trace rm em fc tc svc tb tz p.1 ∧
          ((i + 1 < (get_z2z_ranges_from_loop rm em fc tc svc fb tb tz n z).2.length ∨
              (get_z2z_ranges_from_loop rm em fc tc svc fb tb tz n z).1 = none) →
            ranges_level rm em fc tc svc tb tz p.1 = none)) ∧
      ((get_z2z_ranges_from_loop rm em fc tc svc fb tb tz n z).1 = none →
        ∀ i : Nat, 0 < z.tdiv (fb ^ i) →
          ∃ p, (get_z2z_ranges_from_loop rm em fc tc svc fb tb tz n z).2[i]? = some p) := by
  intro n
  induction n with
  | zero =>
    intro z hz
    have hz' : ¬ 0 < z := by simpa using hz
    refine ⟨?_, ?_⟩
    · intro i p h; simp [get_z2z_ranges_from_loop] at h
    · intro _ i hi; exact absurd hi (not_pos_tdiv_pow z fb (by omega) hz' i)
  | succ n ih =>
    intro z hz
    by_cases hpos : 0 < z
    · have hfuel : z.tdiv fb ≤ (n : Int) := by
        have := tdiv_lt_self z fb hpos hfb
        push_cast at hz; omega
      obtain ⟨ih1, ih2⟩ := ih _ hfuel
      cases hr : rm ⟨fc, z⟩ with
      | some bf =>
        have hlev := ranges_level_eq_to_loop rm em fc tc svc tb tz z bf hr
        have htr : ranges_level_trace rm em fc tc svc tb tz z =
            (get_z2z_ranges_to_loop rm em fc tc svc tb bf tz.toNat tz).2 := by
          unfold ranges_level_trace; rw [hr]
        cases hin : (get_z2z_ranges_to_loop rm em fc tc svc tb bf tz.toNat tz).1 with
        | some e =>
          simp only [get_z2z_ranges_from_loop, hpos, if_true, hr, hin]
          refine ⟨?_, ?_⟩
          · intro i p h
            cases i with
            | zero =>
              simp at h
              subst h
              refine ⟨by simp, hpos, htr.symm, ?_⟩
              intro hc
              rcases hc with hc | hc
              · simp at hc
              · cases hc
            | succ i => simp at h
          · intro h; cases h
        | none =>
          simp only [get_z2z_ranges_from_loop, hpos, if_true, hr, hin]
          refine ⟨?_, ?_⟩
          · intro i p h
            cases i with
            | zero =>
              simp at h
              subst h
              refine ⟨by simp, hpos, htr.symm, ?_⟩
              intro _
              rw [hlev, hin]
            | succ i =>
              rw [List.getElem?_cons_succ] at h
              obtain ⟨h1, h2, h3, h4⟩ := ih1 i p h
              refine ⟨?_, h2, h3, ?_⟩
              · rw [tdiv_pow_succ z fb (by omega) i]; exact h1
              · intro hc
                apply h4
                rcases hc with hc | hc
                · left; simp only [List.length_cons] at hc; omega
                · right; exact hc
          · intro hres i hi
            cases i with
            | zero => simp
            | succ i =>
              rw [List.getElem?_cons_succ]
              rw [tdiv_pow_succ z fb (by omega) i] at hi
              exact ih2 hres i hi
      | none =>
        have hlev : ranges_level rm em fc tc svc tb tz z = none := by
          unfold ranges_level; rw [hr]
        have htr : ranges_level_trace rm em fc tc svc tb tz z = [] := by
          unfold ranges_level_trace; rw [hr]
        simp only [get_z2z_ranges_from_loop, hpos, if_true, hr]
        refine ⟨?_, ?_⟩
        · intro i p h
          cases i with
          | zero =>
            simp at h
            subst h
            exact ⟨by simp, hpos, htr.symm, fun _ => hlev⟩
          | succ i =>
            rw [List.getElem?_cons_succ] at h
            obtain ⟨h1, h2, h3, h4⟩ := ih1 i p h
            refine ⟨?_, h2, h3, ?_⟩
            · rw [tdiv_pow_succ z fb (by omega) i]; exact h1
            · intro hc
              apply h4
              rcases hc with hc | hc
              · left; simp only [List.length_cons] at hc; omega
              · right; exact hc
        · intro hres i hi
          cases i with
          | zero => simp
          | succ i =>
            rw [List.getElem?_cons_succ]
            rw [tdiv_pow_succ z fb (by omega) i] at hi
            exact ih2 hres i hi
    · refine ⟨?_, ?_⟩
      · intro i p h; simp [get_z2z_ranges_from_loop, hpos] at h
      · intro _ i hi; exact absurd hi (not_pos_tdiv_pow z fb (by omega) hpos i)

end RangesTrace

namespace Native

/-- C9. `get_z2z_ranges` returns `e` exactly when `e` is the estimate at the first pair
`(i, j)` in lexicographic order (`i` origin truncations, outer; `j` destination
truncations, inner) at which the truncated codes are positive, both have a range bucket
and the estimate table holds the bucket pair with `max_hours >= 0`; it returns nothing
exactly when no pair hits. In the probe trace the `i`-th origin value is the `i`-th
truncation of the origin and is positive, an unsuccessful search visits every positive
origin truncation, an origin value without a bucket has no destination probe under it,
every destination value probed is a positive truncation of the destination, and under a
bucketed origin value that is followed by another origin truncation (or ends an
unsuccessful search) every positive destination truncation has been probed. -/
theorem get_z2z_ranges_first_bucket_pair (c : country) (rm : z2z_range_map)
    (em : z2z_estimate_map) (fc tc fz tz svc : Int) :
    (∀ e, get_z2z_ranges c rm em fc tc fz tz svc = some e ↔
      ∃ i j : Nat, ranges_hit c rm em fc tc fz tz svc i j e ∧
        ∀ (i' j' : Nat) (e' : shipping_service_est), (i' < i ∨ (i' = i ∧ j' < j)) →
          ¬ ranges_hit c rm em fc tc fz tz svc i' j' e') ∧
    (get_z2z_ranges c rm em fc tc fz tz svc = none ↔
      ∀ (i j : Nat) (e : shipping_service_est),
        ¬ ranges_hit c rm em fc tc fz tz svc i j e) ∧
    (∀ (i : Nat) (p : Int × List Int),
      (get_z2z_ranges_run c rm em fc tc fz tz svc).2[i]? = some p →
        p.1 = fz.tdiv (ctry_base c fc ^ i) ∧ 0 < p.1) ∧
    (get_z2z_ranges c rm em fc tc fz tz svc = none →
      ∀ i : Nat, 0 < fz.tdiv (ctry_base c fc ^ i) →
        ∃ p, (get_z2z_ranges_run c rm em fc tc fz tz svc).2[i]? = some p) ∧
    (∀ (i : Nat) (p : Int × List Int),
      (get_z2z_ranges_run c rm em fc tc fz tz svc).2[i]? = some p →
        rm ⟨fc, p.1⟩ = none → p.2 = []) ∧
    (∀ (i j : Nat) (p : Int × List Int) (t : Int),
      (get_z2z_ranges_run c rm em fc tc fz tz svc).2[i]? = some p → p.2[j]? = some t →
        t = tz.tdiv (ctry_base c tc ^ j) ∧ 0 < t) ∧
    (∀ (i : Nat) (p : Int × List Int),
      (get_z2z_ranges_run c rm em fc tc fz tz svc).2[i]? = some p →
        rm ⟨fc, p.1⟩ ≠ none →
        (i + 1 < (get_z2z_ranges_run c rm em fc tc fz tz svc).2.length ∨
          get_z2z_ranges c rm em fc tc fz tz svc = none) →
        ∀ j : Nat, 0 < tz.tdiv (ctry_base c tc ^ j) →
          p.2[j]? = some (tz.tdiv (ctry_base c tc ^ j))) := by
  have hfb := ctry_base_ge_two c fc
  have htb := ctry_base_ge_two c tc
  obtain ⟨tr1, tr2⟩ := ranges_from_loop_trace rm em fc tc svc (ctry_base c fc)
    (ctry_base c tc) tz hfb fz.toNat fz (le_toNat_self fz)
  refine ⟨?_, ?_, ?_, ?_, ?_, ?_, ?_⟩
  · intro e
    rw [get_z2z_ranges_eq_first_pos,
      first_pos_eq_some_iff _ hfb _ e _ _ (le_toNat_self fz)]
    constructor
    · rintro ⟨i, hi, hlev, hfirst⟩
      obtain ⟨j, hhit, hj⟩ := (ranges_level_some_iff_hit c rm em fc tc fz tz svc i e hi).mp hlev
      refine ⟨i, j, hhit, ?_⟩
      intro i' j' e' hlt hhit'
      rcases hlt with hlt | ⟨heq, hlt⟩
      · have := (ranges_level_none_iff_no_hit c rm em fc tc fz tz svc i' hhit'.1).mp
          (hfirst i' hlt)
        exact this j' e' hhit'
      · subst heq
        exact hj j' e' hlt hhit'
    · rintro ⟨i, j, hhit, hfirst⟩
      refine ⟨i, hhit.1, ?_, ?_⟩
      · rw [ranges_level_some_iff_hit c rm em fc tc fz tz svc i e hhit.1]
        exact ⟨j, hhit, fun j' e' hlt => hfirst i j' e' (Or.inr ⟨rfl, hlt⟩)⟩
      · intro i' hlt
        cases hlev : ranges_level rm em fc tc svc (ctry_base c tc) tz
            (fz.tdiv (ctry_base c fc ^ i')) with
        | none => rfl
        | some e' =>
          exfalso
          have hi' : 0 < fz.tdiv (ctry_base c fc ^ i') := by
            have hi := hhit.1
            clear hfirst hhit
            induction i with
            | zero => omega
            | succ i ih =>
              have hprev := tdiv_pow_pos_of_pos fz _ (by omega) i hi
              rcases Nat.lt_succ_iff_lt_or_eq.mp hlt with h | h
              · exact ih h hprev
              · rw [h]; exact hprev
          obtain ⟨j', hhit', _⟩ :=
            (ranges_level_some_iff_hit c rm em fc tc fz tz svc i' e' hi').mp hlev
          exact hfirst i' j' e' (Or.inl hlt) hhit'
  · rw [get_z2z_ranges_eq_first_pos, first_pos_none_iff _ hfb _ _ _ (le_toNat_self fz)]
    constructor
    · intro h i j e hhit
      exact (ranges_level_none_iff_no_hit c rm em fc tc fz tz svc i hhit.1).mp
        (h i hhit.1) j e hhit
    · intro h i hi
      exact (ranges_level_none_iff_no_hit c rm em fc tc fz tz svc i hi).mpr (h i)
  · intro i p hp
    obtain ⟨h1, h2, _, _⟩ := tr1 i p hp
    exact ⟨h1, h2⟩
  · intro hres i hi
    exact tr2 hres i hi
  · intro i p hp hrm
    obtain ⟨_, _, h3, _⟩ := tr1 i p hp
    rw [h3]
    unfold ranges_level_trace
    rw [hrm]
  · intro i j p t hp ht
    obtain ⟨_, _, h3, _⟩ := tr1 i p hp
    rw [h3] at ht
    unfold ranges_level_trace at ht
    cases hrm : rm ⟨fc, p.1⟩ with
    | none => rw [hrm] at ht; simp at ht
    | some bf =>
      rw [hrm] at ht
      exact (ranges_to_loop_trace rm em fc tc svc (ctry_base c tc) bf htb tz.toNat tz
        (le_toNat_self tz)).1 j t ht
  · intro i p hp hrm hnext j hj
    obtain ⟨_, _, h3, h4⟩ := tr1 i p hp
    have hnone := h4 hnext
    cases hb : rm ⟨fc, p.1⟩ with
    | none => exact absurd hb hrm
    | some bf =>
      rw [ranges_level_eq_to_loop rm em fc tc svc (ctry_base c tc) tz p.1 bf hb] at hnone
      rw [h3]
      unfold ranges_level_trace
      rw [hb]
      exact (ranges_to_loop_trace rm em fc tc svc (ctry_base c tc) bf htb tz.toNat tz
        (le_toNat_self tz)).2 hnone j hj

/-- The probe trace of `get_z2z_ranges` at a concrete input: the origin levels 9545 and 954
have no bucket and no destination probe, the bucketed level 95 probes 7575, 757 and 75 and
hits at 75. -/
theorem get_z2z_ranges_run_sample :
    get_z2z_ranges_run sample_country sample_range_map sample_estimate_map
        77 77 9545 7575 7712 =
      (some ⟨48, 72⟩, [(9545, []), (954, []), (95, [7575, 757, 75])]) := by
  decide

/-- C9, at a concrete input: the estimate returned for `(9545, 7575)` is the one of a first
hitting pair of truncation levels. -/
theorem get_z2z_ranges_first_bucket_pair_witness :
    ∃ i j : Nat,
      ranges_hit sample_country sample_range_map sample_estimate_map 77 77 9545 7575 7712
        i j ⟨48, 72⟩ ∧
      ∀ (i' j' : Nat) (e' : shipping_service_est), (i' < i ∨ (i' = i ∧ j' < j)) →
        ¬ ranges_hit sample_country sample_range_map sample_estimate_map 77 77 9545 7575
          7712 i' j' e' :=
  ((get_z2z_ranges_first_bucket_pair sample_country sample_range_map sample_estimate_map
    77 77 9545 7575 7712).1 ⟨48, 72⟩).mp (by decide)

end Native

/-! ## `get_z2z_default`: first prefix pair -/

section Default

open Native

variable {α : Type}

theorem tdiv_pow_ne_zero_of_succ (z b : Int) (hb : 0 ≤ b) (k : Nat)
    (h : z.tdiv (b ^ (k + 1)) ≠ 0) : z.tdiv (b ^ k) ≠ 0 := by
  intro h0
  apply h
  have e : z.tdiv (b ^ (k + 1)) = (z.tdiv (b ^ k)).tdiv b := by
    rw [tdiv_tdiv_of_nonneg z (b ^ k) b (pow_nonneg hb k) hb, pow_succ]
  rw [e, h0]
  simp

theorem probed_level_of_lt (z b : Int) (hb : 0 ≤ b) :
    ∀ k : Nat, (k = 0 ∨ z.tdiv (b ^ k) ≠ 0) → ∀ k' : Nat, k' < k →
      (k' = 0 ∨ z.tdiv (b ^ k') ≠ 0) := by
  intro k
  induction k with
  | zero => intro _ k' hk'; omega
  | succ k ih =>
    intro h k' hk'
    have hk : z.tdiv (b ^ k) ≠ 0 := by
      rcases h with h | h
      · omega
      · exact tdiv_pow_ne_zero_of_succ z b hb k h
    rcases Nat.lt_succ_iff_lt_or_eq.mp hk' with h' | h'
    · exact ih (Or.inr hk) k' h'
    · subst h'; exact Or.inr hk

theorem first_dw_eq_some_iff (b : Int) (hb : 2 ≤ b) (f : Int → Option α) (e : α)
    (n : Nat) (z : Int) (hz : z.natAbs < n) :
    first_dw b f n z = some e ↔
      ∃ k : Nat, (k = 0 ∨ z.tdiv (b ^ k) ≠ 0) ∧ f (z.tdiv (b ^ k)) = some e ∧
        ∀ k' : Nat, k' < k → f (z.tdiv (b ^ k')) = none := by
  constructor
  · exact first_dw_some b hb f e n z
  · rintro ⟨k, hk1, hk2, hk3⟩
    cases hres : first_dw b f n z with
    | none =>
      have := (first_dw_none_iff b hb f n z hz).mp hres k hk1
      rw [hk2] at this; cases this
    | some e' =>
      obtain ⟨j, hj1, hj2, hj3⟩ := first_dw_some b hb f e' n z hres
      rcases Nat.lt_trichotomy j k with hlt | heq | hgt
      · have := hk3 j hlt; rw [hj2] at this; cases this
      · subst heq; rw [hj2] at hk2; exact hk2
      · have := hj3 k hgt; rw [hk2] at this; cases this

theorem get_z2z_default_eq_first_dw (c : country) (m : z2z_default_map)
    (fc tc fz tz svc : Int) :
    get_z2z_default c m fc tc fz tz svc =
      first_dw (ctry_base c fc)
        (fun f => first_dw (ctry_base c tc) (fun p => m ⟨fc, tc, f, p, svc⟩)
          (tz.natAbs + 1) tz)
        (fz.natAbs + 1) fz := by
  unfold get_z2z_default get_z2z_default_run
  exact get_z2z_default_from_loop_fst m fc tc svc _ _ tz _ _

end Default

namespace Native

/-- C8, as amended. `get_z2z_default` is a prefix search, not a single lookup: it returns `e`
exactly when `e` is the entry at the first probed pair of truncation levels `(i, j)`
(origin outer, destination inner, least truncated first) whose key
`(origin_country, dest_country, from_zip / base^i, to_zip / base^j, service)` is in the
table, and it returns nothing exactly when no probed pair is in the table. Level 0 is the
code as given; a further level is probed while the truncated code is not 0. In particular
an entry under the exact key is always the one returned. -/
theorem get_z2z_default_first_prefix_pair (c : country) (m : z2z_default_map)
    (fc tc fz tz svc : Int) :
    (∀ e, get_z2z_default c m fc tc fz tz svc = some e ↔
      ∃ i j : Nat, default_probed c fc tc fz tz i j ∧
        m (default_key c fc tc fz tz svc i j) = some e ∧
        ∀ i' j' : Nat, (i' < i ∨ (i' = i ∧ j' < j)) → default_probed c fc tc fz tz i' j' →
          m (default_key c fc tc fz tz svc i' j') = none) ∧
    (get_z2z_default c m fc tc fz tz svc = none ↔
      ∀ i j : Nat, default_probed c fc tc fz tz i j →
        m (default_key c fc tc fz tz svc i j) = none) ∧
    (∀ e, m ⟨fc, tc, fz, tz, svc⟩ = some e →
      get_z2z_default c m fc tc fz tz svc = some e) := by
  have hfb := ctry_base_ge_two c fc
  have htb := ctry_base_ge_two c tc
  have hsome : ∀ e, get_z2z_default c m fc tc fz tz svc = some e ↔
      ∃ i j : Nat, default_probed c fc tc fz tz i j ∧
        m (default_key c fc tc fz tz svc i j) = some e ∧
        ∀ i' j' : Nat, (i' < i ∨ (i' = i ∧ j' < j)) → default_probed c fc tc fz tz i' j' →
          m (default_key c fc tc fz tz svc i' j') = none := by
    intro e
    rw [get_z2z_default_eq_first_dw,
      first_dw_eq_some_iff _ hfb _ e _ _ (Nat.lt_succ_self _)]
    constructor
    · rintro ⟨i, hi, hin, hfirst⟩
      obtain ⟨j, hj, hm, hjfirst⟩ :=
        (first_dw_eq_some_iff _ htb _ e _ _ (Nat.lt_succ_self _)).mp hin
      refine ⟨i, j, ⟨hi, hj⟩, hm, ?_⟩
      rintro i' j' hlt ⟨_, hj'⟩
      rcases hlt with hlt | ⟨heq, hlt⟩
      · exact (first_dw_none_iff _ htb _ _ _ (Nat.lt_succ_self _)).mp (hfirst i' hlt) j' hj'
      · subst heq
        exact hjfirst j' hlt
    · rintro ⟨i, j, ⟨hi, hj⟩, hm, hfirst⟩
      refine ⟨i, hi, ?_, ?_⟩
      · rw [first_dw_eq_some_iff _ htb _ e _ _ (Nat.lt_succ_self _)]
        refine ⟨j, hj, hm, ?_⟩
        intro j' hlt
        exact hfirst i j' (Or.inr ⟨rfl, hlt⟩)
          ⟨hi, probed_level_of_lt tz _ (by omega) j hj j' hlt⟩
      · intro i' hlt
        rw [first_dw_none_iff _ htb _ _ _ (Nat.lt_succ_self _)]
        intro j' hj'
        exact hfirst i' j' (Or.inl hlt)
          ⟨probed_level_of_lt fz _ (by omega) i hi i' hlt, hj'⟩
  refine ⟨hsome, ?_, ?_⟩
  · rw [get_z2z_default_eq_first_dw, first_dw_none_iff _ hfb _ _ _ (Nat.lt_succ_self _)]
    constructor
    · rintro h i j ⟨hi, hj⟩
      exact (first_dw_none_iff _ htb _ _ _ (Nat.lt_succ_self _)).mp (h i hi) j hj
    · intro h i hi
      rw [first_dw_none_iff _ htb _ _ _ (Nat.lt_succ_self _)]
      intro j hj
      exact h i j ⟨hi, hj⟩
  · intro e he
    rw [hsome]
    refine ⟨0, 0, ⟨Or.inl rfl, Or.inl rfl⟩, ?_, ?_⟩
    · simpa [default_key] using he
    · rintro i' j' (h | ⟨_, h⟩) _ <;> omega

/-- C8 as amended, at a concrete input: the estimate returned for `(9545, 7575)` from the
table keyed by `(954, 757)` is the one of a first probed pair of truncation levels. -/
theorem get_z2z_default_first_prefix_pair_witness :
    ∃ i j : Nat, default_probed sample_country 77 77 9545 7575 i j ∧
      prefix_only_default_map (default_key sample_country 77 77 9545 7575 7712 i j) =
        some ⟨24, 48⟩ ∧
      ∀ i' j' : Nat, (i' < i ∨ (i' = i ∧ j' < j)) →
        default_probed sample_country 77 77 9545 7575 i' j' →
        prefix_only_default_map (default_key sample_country 77 77 9545 7575 7712 i' j') =
          none :=
  ((get_z2z_default_first_prefix_pair sample_country prefix_only_default_map
    77 77 9545 7575 7712).1 ⟨24, 48⟩).mp (by decide)

/-- C8, counterexample. With `from_zip = 9545`, `to_zip = 7575` and a table whose only key
holds the prefixes `954` and `757`, the exact key is absent and `get_z2z_default` still
returns an estimate. -/
theorem get_z2z_default_not_exact_lookup :
    prefix_only_default_map ⟨77, 77, 9545, 7575, 7712⟩ = none ∧
      get_z2z_default sample_country prefix_only_default_map 77 77 9545 7575 7712 =
        some ⟨24, 48⟩ := by
  decide

end Native

/-! ## `get_z2z_est`: the overwritten parameters -/

namespace Native

/-- The stages of the cascade in priority order: the first loaded stage that has a result
decides; this is the order in which `get_z2z_est` runs them on the values it holds. -/
theorem z2z_cascade_priority (c : country) (T : Tables) (fc tc fz tz svc : Int) :
    z2z_cascade c T fc tc fz tz svc =
      ((T.service_z2z_default_map.bind (fun dm => get_z2z_default c dm fc tc fz tz svc)).orElse
        fun _ =>
          ((T.service_z2z_range_map.bind fun rm => T.service_z2z_estimate_map.bind fun em =>
              get_z2z_ranges c rm em fc tc fz tz svc).orElse
            fun _ =>
              ((T.service_z2z_tozipnull_map.bind fun nm =>
                  get_z2z_tozipnull c nm fc tc fz svc).orElse
                fun _ => T.service_exc_map.bind fun xm => get_exc_est c xm tc tz svc))) := by
  obtain ⟨_, _, xm, rm, dm, nm, em, _⟩ := T
  rcases dm with _ | dm <;> rcases rm with _ | rm <;> rcases em with _ | em <;>
    rcases nm with _ | nm <;> rcases xm with _ | xm <;>
    simp only [z2z_cascade, Option.bind, Option.orElse]
  all_goals
    try (generalize get_z2z_default c dm fc tc fz tz svc = r1; cases r1 <;> try dsimp only)
  all_goals
    try (generalize get_z2z_ranges c rm em fc tc fz tz svc = r2; cases r2 <;> try dsimp only)
  all_goals
    try (generalize get_z2z_tozipnull c nm fc tc fz svc = r3; cases r3 <;> try dsimp only)

/-- C1, the code at a failing input. The request `(77, 77, 1000, 2000, service 1)` is in the
services set and its exact key is in the zip-pair table, so the cascade on the request's
own arguments yields `(24, 48)`; `get_z2z_est` returns nothing, because it tests and probes
the constants `(77, 77, 9545, 7575, 7712)` instead. -/
theorem get_z2z_est_ignores_own_request :
    own_request_set ⟨77, 77, 1⟩ = true ∧
      z2z_cascade sample_country own_request_tables 77 77 1000 2000 1 = some ⟨24, 48⟩ ∧
      get_z2z_est sample_country own_request_tables own_request_set 77 77 1000 2000 1 =
        none := by
  decide

/-- C2, the code at a failing input. The request `(77, 77, 9545, 7575, service 9999)` is not
in the services set, and `get_z2z_est` still returns the zip-pair entry `(24, 48)` of
service 7712. -/
theorem get_z2z_est_answers_unlisted_service :
    constants_set ⟨77, 77, 9999⟩ = false ∧
      get_z2z_est sample_country constants_tables constants_set 77 77 9545 7575 9999 =
        some ⟨24, 48⟩ := by
  decide

/-- The sibling that does filter: every estimate `get_z2z_ranges` returns has
`max_hours >= 0`. -/
theorem get_z2z_ranges_max_hours_nonneg (c : country) (rm : z2z_range_map)
    (em : z2z_estimate_map) (fc tc fz tz svc : Int) (e : shipping_service_est)
    (h : get_z2z_ranges c rm em fc tc fz tz svc = some e) : 0 ≤ e.max_hours := by
  rw [get_z2z_ranges_eq_first_pos] at h
  obtain ⟨i, _, hlev, _⟩ := first_pos_some _ (ctry_base_ge_two c fc) _ e _ _ h
  obtain ⟨bf, _, j, _, hp, _⟩ :=
    (ranges_level_eq_some_iff rm em fc tc svc _ tz (ctry_base_ge_two c tc) _ e).mp hlev
  obtain ⟨_, _, _, hm⟩ := (ranges_probe_eq_some_iff _ _ _ _ _ _ _ _).mp hp
  exact hm

/-- C7, the code at a failing input. An entry with `max_hours = -1` is returned as an
estimate by `get_z2z_default`, by `get_z2z_tozipnull`, by `get_exc_est` and by
`get_z2z_est`. -/
theorem negative_entry_is_returned :
    get_z2z_default sample_country negative_default_map 77 77 9545 7575 7712 =
        some ⟨-1, -1⟩ ∧
      get_z2z_tozipnull sample_country negative_tozipnull_map 77 77 9545 7712 =
        some ⟨-1, -1⟩ ∧
      get_exc_est sample_country negative_exc_map 77 7575 7712 = some ⟨-1, -1⟩ ∧
      get_z2z_est sample_country negative_tables constants_set 77 77 9545 7575 7712 =
        some ⟨-1, -1⟩ := by
  decide

end Native

/-! ## Threshold bucketing -/

section Threshold

open Analytical

theorem wrap32_of_lt (d : Nat) (h : d < 2 ^ 31) : wrap32 (d : Int) = d := by
  unfold wrap32 wrap
  have h' : (d : Int) < 2 ^ 31 := by exact_mod_cast h
  norm_num at h' ⊢
  omega

/-- The loop from index `i` with fuel beyond the end of the thresholds: it returns the
least hit at or after `i`, and the prior value when there is none. -/
theorem threshold_loop_spec (s : ℚ) (t : List ℚ) (u : Nat) :
    ∀ (fuel i : Nat) (days : Int × Int), t.length < fuel + i →
      (∀ d : Nat, least_threshold_index s t i u d →
        threshold_loop s t u fuel i days = (wrap32 d, wrap32 d)) ∧
      ((∀ d : Nat, i ≤ d → d ≤ u → ∀ x, t[d]? = some x → ¬ s ≤ x) →
        threshold_loop s t u fuel i days = days) := by
  intro fuel
  induction fuel with
  | zero =>
    intro i days hlen
    refine ⟨?_, fun _ => rfl⟩
    rintro d ⟨hid, _, ⟨x, hx, _⟩, _⟩
    have : t[d]? = none := List.getElem?_eq_none (by omega)
    rw [this] at hx; cases hx
  | succ fuel ih =>
    intro i days hlen
    by_cases hiu : i ≤ u
    · by_cases hil : t.length ≤ i
      · simp only [threshold_loop, hiu, if_true, hil, dite_true]
        refine ⟨?_, by simp⟩
        rintro d ⟨hid, _, ⟨x, hx, _⟩, _⟩
        have : t[d]? = none := List.getElem?_eq_none (by omega)
        rw [this] at hx; cases hx
      · have hlt : i < t.length := by omega
        have hget : t[i]? = some t[i] := List.getElem?_eq_getElem hlt
        by_cases hs : s ≤ t[i]
        · simp only [threshold_loop, hiu, if_true, hil, dite_false, hs]
          refine ⟨?_, ?_⟩
          · rintro d ⟨hid, _, _, hmin⟩
            rcases Nat.eq_or_lt_of_le hid with h | h
            · subst h; rfl
            · exact absurd hs (hmin i (le_refl i) h _ hget)
          · intro h
            exact absurd hs (h i (le_refl i) hiu _ hget)
        · simp only [threshold_loop, hiu, if_true, hil, dite_false, hs, if_false]
          obtain ⟨ih1, ih2⟩ := ih (i + 1) days (by omega)
          refine ⟨?_, ?_⟩
          · rintro d ⟨hid, hdu, ⟨x, hx, hsx⟩, hmin⟩
            have hne : i ≠ d := by
              intro h; subst h
              rw [hget] at hx; cases hx
              exact hs hsx
            apply ih1 d
            exact ⟨by omega, hdu, ⟨x, hx, hsx⟩, fun d' h1 h2 => hmin d' (by omega) h2⟩
          · intro h
            apply ih2
            intro d h1 h2
            exact h d (by omega) h2
    · simp only [threshold_loop, hiu, if_false]
      refine ⟨?_, by simp⟩
      rintro d ⟨hid, hdu, _, _⟩
      omega

theorem threshold_bucket_spec (s : ℚ) (t : List ℚ) (m u : Nat) (days : Int × Int) :
    (∀ d : Nat, least_threshold_index s t m u d → d < 2 ^ 31 →
      threshold_bucket s t m u days = ((d : Int), (d : Int))) ∧
    ((∀ d : Nat, m ≤ d → d ≤ u → ∀ x, t[d]? = some x → ¬ s ≤ x) →
      threshold_bucket s t m u days = days) := by
  obtain ⟨h1, h2⟩ := threshold_loop_spec s t u (t.length + 1) m days (by omega)
  refine ⟨?_, h2⟩
  intro d hd hlt
  unfold threshold_bucket
  rw [h1 d hd, wrap32_of_lt d hlt]

end Threshold

/-! ## The eligibility gate and the routing of `AnalyticalDeliveryEstimate` -/

section Gate

open Analytical

theorem gate_false_of_opt_out (st : State) (rq : Request) (h : rq.FnfOptOut ≠ 0) :
    is_analytical_eligible st rq = false := by
  simp [is_analytical_eligible, h]

theorem gate_false_of_category_opt_out (st : State) (rq : Request) (cat : Int)
    (hcat : rq.AllCats.head? = some cat)
    (hmem : (rq.SellerId, cat) ∈ st.category_optouts) :
    is_analytical_eligible st rq = false := by
  obtain ⟨rest, hrest⟩ : ∃ rest, rq.AllCats = cat :: rest := by
    cases hl : rq.AllCats with
    | nil => rw [hl] at hcat; simp at hcat
    | cons a rest => rw [hl] at hcat; simp at hcat; exact ⟨rest, by rw [hcat]⟩
  have hne : st.category_optouts ≠ [] := List.ne_nil_of_mem hmem
  have hcount : 0 < st.category_optouts.count (rq.SellerId, cat) :=
    List.count_pos_iff.mpr hmem
  simp [is_analytical_eligible, hrest, hne, hcount]

theorem gate_false_of_negative_native (st : State) (rq : Request)
    (hlen : rq.NativeDeliveryEstimate.length > nde_working_column)
    (hneg : rq.NativeDeliveryEstimate.getD nde_max_column 0 < 0) :
    is_analytical_eligible st rq = false := by
  simp only [is_analytical_eligible, hlen, hneg, if_true]
  simp

theorem gate_true_imp_predicate (st : State) (rq : Request)
    (h : is_analytical_eligible st rq = true) :
    ∃ p, st.eligibility = some p ∧
      p rq.Ctry rq.ToCtry rq.ToRegion rq.ToZip (normalize_handling_time rq.handling_time)
        rq.Site = true := by
  cases he : st.eligibility with
  | none => simp [is_analytical_eligible, he] at h
  | some p =>
    refine ⟨p, rfl, ?_⟩
    by_contra hp
    simp [is_analytical_eligible, he, hp] at h

theorem run_of_gate_false (c : country) (ext : Externals) (st : State)
    (evaluate : features → ℚ) (rq : Request) (h : is_analytical_eligible st rq = false) :
    AnalyticalDeliveryEstimate_run c ext st evaluate rq = ((-1, -1), []) := by
  simp [AnalyticalDeliveryEstimate_run, h]

theorem run_of_other_country (c : country) (ext : Externals) (st : State)
    (evaluate : features → ℚ) (rq : Request) (hau : rq.ToCtry ≠ c.australia)
    (hus : rq.ToCtry ≠ c.united_states) :
    AnalyticalDeliveryEstimate_run c ext st evaluate rq = ((-1, -1), []) := by
  simp [AnalyticalDeliveryEstimate_run, hau, hus]

theorem run_of_australia (c : country) (ext : Externals) (st : State)
    (evaluate : features → ℚ) (rq : Request) (hne : c.australia ≠ c.united_states)
    (hel : is_analytical_eligible st rq = true) (hau : rq.ToCtry = c.australia) :
    AnalyticalDeliveryEstimate_run c ext st evaluate rq =
      (zip_to_zip_model st (-1, -1) (request_shipping_service rq) (request_to_zip c st rq)
        rq.ToCtry (request_from_zip c st rq) rq.Ctry
        (normalize_handling_time rq.handling_time), [Stage.zip_to_zip]) := by
  simp [AnalyticalDeliveryEstimate_run, hel, hau, hne]

theorem run_of_us_qa (c : country) (ext : Externals) (st : State)
    (evaluate : features → ℚ) (rq : Request) (hne : c.australia ≠ c.united_states)
    (hel : is_analytical_eligible st rq = true) (hus : rq.ToCtry = c.united_states)
    (hqa : rq.sde_model = ['q', 'a']) :
    AnalyticalDeliveryEstimate_run c ext st evaluate rq =
      ((qa_days rq, qa_days rq), [Stage.qa]) := by
  have hne' : c.united_states ≠ c.australia := fun h => hne h.symm
  simp [AnalyticalDeliveryEstimate_run, hel, hus, hqa, hne']

theorem run_of_us_threshold (c : country) (ext : Externals) (st : State)
    (evaluate : features → ℚ) (rq : Request) (hne : c.australia ≠ c.united_states)
    (hel : is_analytical_eligible st rq = true) (hus : rq.ToCtry = c.united_states)
    (hqa : rq.sde_model ≠ ['q', 'a']) :
    AnalyticalDeliveryEstimate_run c ext st evaluate rq =
      (threshold_bucket (model_score c ext st evaluate rq) (request_model st rq).thresholds
        (request_model st rq).min_days_predicted
        (max_model_days (request_model st rq) rq.sde_model) (-1, -1), [Stage.threshold]) := by
  have hne' : c.united_states ≠ c.australia := fun h => hne h.symm
  simp [AnalyticalDeliveryEstimate_run, hel, hus, hqa, hne']

end Gate

namespace Analytical

/-- C3. Threshold bucketing. For an eligible request to the United States outside QA mode,
with score `s`, thresholds `t`, lower bound `m = min_days_predicted` and upper bound `u`
(`max_model_days`): if `d` is the least index with `m <= d <= u`, `d < length t` and
`s <= t[d]`, the macro returns `min_days = max_days = d` (for `d` below `2^31`, the range
of the `int32_t` result), and when no index of the range qualifies the result stays at its
prior value `(-1, -1)`. The same holds of the loop for every score, thresholds list, bounds
and prior value. -/
theorem threshold_bucketing_least_index (c : country) (ext : Externals) (st : State)
    (evaluate : features → ℚ) (rq : Request) (hne : c.australia ≠ c.united_states)
    (hel : is_analytical_eligible st rq = true) (hus : rq.ToCtry = c.united_states)
    (hqa : rq.sde_model ≠ ['q', 'a']) :
    (∀ d : Nat,
      least_threshold_index (model_score c ext st evaluate rq)
        (request_model st rq).thresholds (request_model st rq).min_days_predicted
        (max_model_days (request_model st rq) rq.sde_model) d →
      d < 2 ^ 31 →
      AnalyticalDeliveryEstimate c ext st evaluate rq = ((d : Int), (d : Int))) ∧
    ((∀ d : Nat, (request_model st rq).min_days_predicted ≤ d →
        d ≤ max_model_days (request_model st rq) rq.sde_model →
        ∀ x, (request_model st rq).thresholds[d]? = some x →
          ¬ model_score c ext st evaluate rq ≤ x) →
      AnalyticalDeliveryEstimate c ext st evaluate rq = (-1, -1)) ∧
    (∀ (s : ℚ) (t : List ℚ) (m u : Nat) (days : Int × Int),
      (∀ d : Nat, least_threshold_index s t m u d → d < 2 ^ 31 →
        threshold_bucket s t m u days = ((d : Int), (d : Int))) ∧
      ((∀ d : Nat, m ≤ d → d ≤ u → ∀ x, t[d]? = some x → ¬ s ≤ x) →
        threshold_bucket s t m u days = days)) := by
  have hrun := run_of_us_threshold c ext st evaluate rq hne hel hus hqa
  refine ⟨?_, ?_, fun s t m u days => threshold_bucket_spec s t m u days⟩
  · intro d hd hlt
    unfold AnalyticalDeliveryEstimate
    rw [hrun]
    exact (threshold_bucket_spec _ _ _ _ _).1 d hd hlt
  · intro h
    unfold AnalyticalDeliveryEstimate
    rw [hrun]
    exact (threshold_bucket_spec _ _ _ _ _).2 h

/-- C3, witness. With thresholds `0, 0, 10, 20`, range `[2, 7]` and the score 10 of the
scoring function, the least index is 2 (the score equals the threshold: the boundary is
inclusive) and the macro returns `(2, 2)`. -/
theorem threshold_bucketing_least_index_witness :
    sample_country.australia ≠ sample_country.united_states ∧
      is_analytical_eligible sample_state us_request = true ∧
      us_request.ToCtry = sample_country.united_states ∧
      us_request.sde_model ≠ ['q', 'a'] ∧
      AnalyticalDeliveryEstimate sample_country sample_externals sample_state
        shipping_tree_model_evaluate us_request = (2, 2) :=
  ⟨by decide, by decide, by decide, by decide,
    (threshold_bucketing_least_index sample_country sample_externals sample_state
      shipping_tree_model_evaluate us_request (by decide) (by decide) (by decide)
      (by decide)).1 2
      ⟨by decide, by decide, ⟨10, by decide, by decide⟩, fun d' h1 h2 => by
        have : (2 : Nat) ≤ d' := h1
        omega⟩
      (by norm_num)⟩

/-- C4. If the seller opt-out flag is non-zero, or the pair of the seller and the request's
category (the first entry of `AllCats`) is in the category opt-out set, the eligibility
gate is false, no stage runs and the macro returns `(-1, -1)`, whatever the delegated
predicate, the native estimate and the destination are. -/
theorem opt_out_forces_gate_false (c : country) (ext : Externals) (st : State)
    (evaluate : features → ℚ) (rq : Request)
    (h : rq.FnfOptOut ≠ 0 ∨
      ∃ cat, rq.AllCats.head? = some cat ∧ (rq.SellerId, cat) ∈ st.category_optouts) :
    is_analytical_eligible st rq = false ∧
      AnalyticalDeliveryEstimate c ext st evaluate rq = (-1, -1) ∧
      (AnalyticalDeliveryEstimate_run c ext st evaluate rq).2 = [] := by
  have hg : is_analytical_eligible st rq = false := by
    rcases h with h | ⟨cat, h1, h2⟩
    · exact gate_false_of_opt_out st rq h
    · exact gate_false_of_category_opt_out st rq cat h1 h2
  have hrun := run_of_gate_false c ext st evaluate rq hg
  refine ⟨hg, ?_, ?_⟩
  · unfold AnalyticalDeliveryEstimate; rw [hrun]
  · rw [hrun]

/-- C4, witness. Seller 42 has opted out of category 37908. The request of seller 7 for
that category to the United States, with an accepting predicate and a valid native
estimate, gets `(2, 2)`; the same request from seller 42 gets `(-1, -1)`. -/
theorem opt_out_forces_gate_false_witness :
    AnalyticalDeliveryEstimate sample_country sample_externals sample_state
        shipping_tree_model_evaluate us_request = (2, 2) ∧
      (us_request_opted_out.FnfOptOut ≠ 0 ∨
        ∃ cat, us_request_opted_out.AllCats.head? = some cat ∧
          (us_request_opted_out.SellerId, cat) ∈ sample_state.category_optouts) ∧
      (is_analytical_eligible sample_state us_request_opted_out = false ∧
        AnalyticalDeliveryEstimate sample_country sample_externals sample_state
          shipping_tree_model_evaluate us_request_opted_out = (-1, -1) ∧
        (AnalyticalDeliveryEstimate_run sample_country sample_externals sample_state
          shipping_tree_model_evaluate us_request_opted_out).2 = []) :=
  ⟨by decide, Or.inr ⟨37908, by decide, by decide⟩,
    opt_out_forces_gate_false sample_country sample_externals sample_state
      shipping_tree_model_evaluate us_request_opted_out
      (Or.inr ⟨37908, by decide, by decide⟩)⟩

/-- C5, counterexample. The request has no native estimate (an empty vector), the gate is
true all the same, the threshold estimator runs and the macro returns `(2, 2)`. -/
theorem missing_native_estimate_stays_eligible :
    us_request_no_native.NativeDeliveryEstimate.length < 4 ∧
      is_analytical_eligible sample_state us_request_no_native = true ∧
      AnalyticalDeliveryEstimate_run sample_country sample_externals sample_state
        shipping_tree_model_evaluate us_request_no_native = ((2, 2), [Stage.threshold]) := by
  decide

/-- C5, as amended. If a native estimate is supplied (the vector has its four entries) and
its upper bound is negative, the eligibility gate is false: neither the AU zip-to-zip
model, the QA override nor the threshold estimator runs and the macro returns
`(-1, -1)`. -/
theorem negative_native_forces_gate_false (c : country) (ext : Externals) (st : State)
    (evaluate : features → ℚ) (rq : Request)
    (hlen : 4 ≤ rq.NativeDeliveryEstimate.length)
    (hneg : rq.NativeDeliveryEstimate.getD 1 0 < 0) :
    is_analytical_eligible st rq = false ∧
      AnalyticalDeliveryEstimate c ext st evaluate rq = (-1, -1) ∧
      (AnalyticalDeliveryEstimate_run c ext st evaluate rq).2 = [] := by
  have hg : is_analytical_eligible st rq = false :=
    gate_false_of_negative_native st rq (by unfold nde_working_column; omega) hneg
  have hrun := run_of_gate_false c ext st evaluate rq hg
  refine ⟨hg, ?_, ?_⟩
  · unfold AnalyticalDeliveryEstimate; rw [hrun]
  · rw [hrun]

/-- C5 as amended, witness: the native estimate `(-1, -1, service 19, 65)`. -/
theorem negative_native_forces_gate_false_witness :
    4 ≤ us_request_negative_native.NativeDeliveryEstimate.length ∧
      us_request_negative_native.NativeDeliveryEstimate.getD 1 0 < 0 ∧
      (is_analytical_eligible sample_state us_request_negative_native = false ∧
        AnalyticalDeliveryEstimate sample_country sample_externals sample_state
          shipping_tree_model_evaluate us_request_negative_native = (-1, -1) ∧
        (AnalyticalDeliveryEstimate_run sample_country sample_externals sample_state
          shipping_tree_model_evaluate us_request_negative_native).2 = []) :=
  ⟨by decide, by decide,
    negative_native_forces_gate_false sample_country sample_externals sample_state
      shipping_tree_model_evaluate us_request_negative_native (by decide) (by decide)⟩

/-- C6. Routing, for distinct identifiers of Australia and the United States. If the
delegated predicate is not loaded or returns false, or the destination is neither
Australia nor the United States, no stage runs and the macro returns `(-1, -1)`. With the
gate true, an Australian destination runs only `zip_to_zip_model`, and a US destination
runs exactly one stage: the QA override when the model string is `qa`, the
feature/threshold estimator otherwise. -/
theorem destination_routing (c : country) (ext : Externals) (st : State)
    (evaluate : features → ℚ) (rq : Request) (hne : c.australia ≠ c.united_states) :
    ((st.eligibility = none ∨
        ∃ p, st.eligibility = some p ∧
          p rq.Ctry rq.ToCtry rq.ToRegion rq.ToZip (normalize_handling_time rq.handling_time)
            rq.Site = false) →
      AnalyticalDeliveryEstimate_run c ext st evaluate rq = ((-1, -1), [])) ∧
    ((rq.ToCtry ≠ c.australia ∧ rq.ToCtry ≠ c.united_states) →
      AnalyticalDeliveryEstimate_run c ext st evaluate rq = ((-1, -1), [])) ∧
    (is_analytical_eligible st rq = true → rq.ToCtry = c.australia →
      AnalyticalDeliveryEstimate_run c ext st evaluate rq =
        (zip_to_zip_model st (-1, -1) (request_shipping_service rq) (request_to_zip c st rq)
          rq.ToCtry (request_from_zip c st rq) rq.Ctry
          (normalize_handling_time rq.handling_time), [Stage.zip_to_zip])) ∧
    (is_analytical_eligible st rq = true → rq.ToCtry = c.united_states →
      rq.sde_model = ['q', 'a'] →
      AnalyticalDeliveryEstimate_run c ext st evaluate rq =
        ((qa_days rq, qa_days rq), [Stage.qa])) ∧
    (is_analytical_eligible st rq = true → rq.ToCtry = c.united_states →
      rq.sde_model ≠ ['q', 'a'] →
      AnalyticalDeliveryEstimate_run c ext st evaluate rq =
        (threshold_bucket (model_score c ext st evaluate rq)
          (request_model st rq).thresholds (request_model st rq).min_days_predicted
          (max_model_days (request_model st rq) rq.sde_model) (-1, -1),
          [Stage.threshold])) := by
  refine ⟨?_, ?_, ?_, ?_, ?_⟩
  · intro h
    apply run_of_gate_false
    cases hg : is_analytical_eligible st rq with
    | false => rfl
    | true =>
      exfalso
      obtain ⟨p, hp1, hp2⟩ := gate_true_imp_predicate st rq hg
      rcases h with h | ⟨p', hp1', hp2'⟩
      · rw [h] at hp1; cases hp1
      · rw [hp1] at hp1'
        cases hp1'
        rw [hp2] at hp2'
        cases hp2'
  · rintro ⟨h1, h2⟩
    exact run_of_other_country c ext st evaluate rq h1 h2
  · intro hel hau
    exact run_of_australia c ext st evaluate rq hne hel hau
  · intro hel hus hqa
    exact run_of_us_qa c ext st evaluate rq hne hel hus hqa
  · intro hel hus hqa
    exact run_of_us_threshold c ext st evaluate rq hne hel hus hqa

/-- C6, witness. With the identifiers 15 and 1, the QA request for
`(37908, service 19, 95126, 90067)` runs only the QA stage and returns `(2, 2)`. -/
theorem destination_routing_witness :
    sample_country.australia ≠ sample_country.united_states ∧
      AnalyticalDeliveryEstimate_run sample_country sample_externals sample_state
        shipping_tree_model_evaluate us_request_qa = ((2, 2), [Stage.qa]) :=
  ⟨by decide,
    ((destination_routing sample_country sample_externals sample_state
      shipping_tree_model_evaluate us_request_qa (by decide)).2.2.2.1
      (by decide) (by decide) (by decide)).trans (by decide)⟩

end Analytical

/-! ## `NativeDeliveryEstimate`: the coarse fallback -/

namespace Native

/-- Hours of a cross-border request without a zip-cascade estimate when the cross-border
table is loaded: only the two cross-border lookups count. -/
theorem locals_hours_cbt_loaded (c : country) (cc : Int → Int) (T : Tables) (rq : Request)
    (cm : cbt_map) (hcbt : T.service_cbt_map = some cm)
    (hx : native_shipping_service cc rq ≥ cbt_shipping_service_id ∨
      native_from_country_id cc rq ≠ native_to_country_id cc rq)
    (hz : native_z2z_est c cc T rq = none) :
    ((NativeDeliveryEstimate_locals c cc T rq).min_hours,
      (NativeDeliveryEstimate_locals c cc T rq).max_hours) =
      match cm ⟨native_shipping_service cc rq, native_from_country_id cc rq,
          native_to_country_id cc rq⟩ with
      | some it => (it.min_hours, it.max_hours)
      | none =>
        match cm ⟨native_shipping_service cc rq, native_to_country_id cc rq,
            native_to_country_id cc rq⟩ with
        | some it => (it.min_hours, it.max_hours)
        | none => (-1, -1) := by
  unfold NativeDeliveryEstimate_locals
  simp only [hz, hcbt]
  cases T.service_info_map with
  | none =>
    simp only [hx, ne_eq, not_false_eq_true, not_true_eq_false, and_self, and_true, true_and, false_and,
          if_true, if_false]
    cases cm ⟨native_shipping_service cc rq, native_from_country_id cc rq,
      native_to_country_id cc rq⟩ with
    | some it => rfl
    | none =>
      cases cm ⟨native_shipping_service cc rq, native_to_country_id cc rq,
        native_to_country_id cc rq⟩ <;> rfl
  | some sm =>
    simp only []
    by_cases h0 : native_shipping_service cc rq ≠ 0
    · cases sm (native_shipping_service cc rq) with
      | none =>
        simp only [h0, hx, ne_eq, not_false_eq_true, not_true_eq_false, and_self, and_true, true_and, false_and,
          if_true, if_false]
        cases cm ⟨native_shipping_service cc rq, native_from_country_id cc rq,
          native_to_country_id cc rq⟩ with
        | some it => rfl
        | none =>
          cases cm ⟨native_shipping_service cc rq, native_to_country_id cc rq,
            native_to_country_id cc rq⟩ <;> rfl
      | some e =>
        simp only [h0, hx, ne_eq, not_false_eq_true, not_true_eq_false, and_self, and_true, true_and, false_and,
          if_true, if_false]
        cases cm ⟨native_shipping_service cc rq, native_from_country_id cc rq,
          native_to_country_id cc rq⟩ with
        | some it => rfl
        | none =>
          cases cm ⟨native_shipping_service cc rq, native_to_country_id cc rq,
            native_to_country_id cc rq⟩ <;> rfl
    · simp only [h0, hx, ne_eq, not_false_eq_true, not_true_eq_false, and_self, and_true, true_and, false_and,
          if_true, if_false]
      cases cm ⟨native_shipping_service cc rq, native_from_country_id cc rq,
        native_to_country_id cc rq⟩ with
      | some it => rfl
      | none =>
        cases cm ⟨native_shipping_service cc rq, native_to_country_id cc rq,
          native_to_country_id cc rq⟩ <;> rfl

/-- Hours of a request without a zip-cascade estimate when the cross-border table is not
loaded: the service default table decides. -/
theorem locals_hours_cbt_not_loaded (c : country) (cc : Int → Int) (T : Tables)
    (rq : Request) (hcbt : T.service_cbt_map = none)
    (hz : native_z2z_est c cc T rq = none) :
    ((NativeDeliveryEstimate_locals c cc T rq).min_hours,
      (NativeDeliveryEstimate_locals c cc T rq).max_hours) =
      match T.service_info_map with
      | some sm =>
        if native_shipping_service cc rq ≠ 0 then
          match sm (native_shipping_service cc rq) with
          | some it => (it.min_hours, it.max_hours)
          | none => (-1, -1)
        else (-1, -1)
      | none => (-1, -1) := by
  unfold NativeDeliveryEstimate_locals
  simp only [hz, hcbt]
  cases T.service_info_map with
  | none => simp only []; split <;> rfl
  | some sm =>
    simp only []
    by_cases h0 : native_shipping_service cc rq ≠ 0
    · cases sm (native_shipping_service cc rq) with
      | none => simp only [h0, ne_eq, not_false_eq_true, not_true_eq_false, and_self, and_true, true_and, false_and,
          if_true, if_false]; split <;> rfl
      | some e => simp only [h0, ne_eq, not_false_eq_true, not_true_eq_false, and_self, and_true, true_and, false_and,
          if_true, if_false]; split <;> rfl
    · simp only [h0, ne_eq, not_false_eq_true, not_true_eq_false, and_self, and_true, true_and, false_and,
          if_true, if_false]; split <;> rfl

/-- C11 as amended. For a request whose origin country is the one the macro works with
(77), that is cross-border (the origin differs from the destination, or the service is at
least 50000) and for which the zip cascade reported no estimate: when the cross-border
table is loaded, the hours used are the first hit among the cross-border table at
`(service, origin_country, dest_country)` and at `(service, dest_country, dest_country)`,
and `(-1, -1)` when both miss, whatever the service default table holds; the service
default table supplies the hours only when the cross-border table is not loaded. -/
theorem cbt_fallback_order (c : country) (cc : Int → Int) (T : Tables) (rq : Request)
    (horigin : wrap16 (cc rq.Ctry) = 77)
    (hx : native_shipping_service cc rq ≥ cbt_shipping_service_id ∨
      wrap16 (cc rq.Ctry) ≠ wrap16 (cc rq.ToCtry))
    (hz : native_z2z_est c cc T rq = none) :
    (∀ cm, T.service_cbt_map = some cm →
      ((NativeDeliveryEstimate_locals c cc T rq).min_hours,
        (NativeDeliveryEstimate_locals c cc T rq).max_hours) =
        match cm ⟨native_shipping_service cc rq, wrap16 (cc rq.Ctry),
            wrap16 (cc rq.ToCtry)⟩ with
        | some it => (it.min_hours, it.max_hours)
        | none =>
          match cm ⟨native_shipping_service cc rq, wrap16 (cc rq.ToCtry),
              wrap16 (cc rq.ToCtry)⟩ with
          | some it => (it.min_hours, it.max_hours)
          | none => (-1, -1)) ∧
    (T.service_cbt_map = none →
      ((NativeDeliveryEstimate_locals c cc T rq).min_hours,
        (NativeDeliveryEstimate_locals c cc T rq).max_hours) =
        match T.service_info_map with
        | some sm =>
          if native_shipping_service cc rq ≠ 0 then
            match sm (native_shipping_service cc rq) with
            | some it => (it.min_hours, it.max_hours)
            | none => (-1, -1)
          else (-1, -1)
        | none => (-1, -1)) := by
  have hfrom : native_from_country_id cc rq = wrap16 (cc rq.Ctry) := by
    rw [horigin]; rfl
  have hto : native_to_country_id cc rq = wrap16 (cc rq.ToCtry) := rfl
  refine ⟨?_, ?_⟩
  · intro cm hcbt
    have h := locals_hours_cbt_loaded c cc T rq cm hcbt (by rw [hfrom, hto]; exact hx) hz
    rw [hfrom, hto] at h
    exact h
  · intro hcbt
    exact locals_hours_cbt_not_loaded c cc T rq hcbt hz

/-- C11 as amended, witness. The request from 77 to 1 with service 5 misses
`(5, 77, 1)`, hits the self-pair `(5, 1, 1)` and uses its hours `(72, 96)`. -/
theorem cbt_fallback_order_witness :
    wrap16 (sample_convert_country cbt_request.Ctry) = 77 ∧
      (native_shipping_service sample_convert_country cbt_request ≥ cbt_shipping_service_id ∨
        wrap16 (sample_convert_country cbt_request.Ctry) ≠
          wrap16 (sample_convert_country cbt_request.ToCtry)) ∧
      native_z2z_est sample_country sample_convert_country cbt_self_pair_tables cbt_request =
        none ∧
      ((NativeDeliveryEstimate_locals sample_country sample_convert_country
          cbt_self_pair_tables cbt_request).min_hours,
        (NativeDeliveryEstimate_locals sample_country sample_convert_country
          cbt_self_pair_tables cbt_request).max_hours) = (72, 96) :=
  ⟨by decide, by decide, by decide,
    ((cbt_fallback_order sample_country sample_convert_country cbt_self_pair_tables
      cbt_request (by decide) (by decide) (by decide)).1 self_pair_cbt_map rfl).trans
      (by decide)⟩

/-- C11, counterexample. The request from 77 to 1 with service 5 is cross-border and has
no zip-cascade estimate; both cross-border lookups miss and the service default table holds
`(24, 48)` for service 5, yet the hours used are `(-1, -1)` and the macro returns
`(-1, -1, 5, 65)`. -/
theorem service_default_is_not_a_cbt_fallback :
    native_z2z_est sample_country sample_convert_country cbt_miss_tables cbt_request = none ∧
      wrap16 (sample_convert_country cbt_request.Ctry) ≠
        wrap16 (sample_convert_country cbt_request.ToCtry) ∧
      service5_info_map 5 = some ⟨24, 48, 65⟩ ∧
      ((NativeDeliveryEstimate_locals sample_country sample_convert_country cbt_miss_tables
          cbt_request).min_hours,
        (NativeDeliveryEstimate_locals sample_country sample_convert_country cbt_miss_tables
          cbt_request).max_hours) = (-1, -1) ∧
      NativeDeliveryEstimate sample_country sample_convert_country cbt_miss_tables
        cbt_request = [-1, -1, 5, 65] := by
  decide

end Native

/-! ## Termination and probe bounds of the truncation loops -/

section ScanPos

variable {α : Type}

theorem scan_pos_fuel (b : Int) (hb : 2 ≤ b) (f : Int → Option α) :
    ∀ (n m : Nat) (z : Int), z ≤ n → z ≤ m → scan_pos b f n z = scan_pos b f m z := by
  intro n
  induction n with
  | zero =>
    intro m z hn _
    have hz : ¬ 0 < z := by simpa using hn
    cases m with
    | zero => rfl
    | succ m => simp [scan_pos, hz]
  | succ n ih =>
    intro m z hn hm
    cases m with
    | zero =>
      have hz : ¬ 0 < z := by simpa using hm
      simp [scan_pos, hz]
    | succ m =>
      by_cases hpos : 0 < z
      · have hlt := tdiv_lt_self z b hpos hb
        have h1 : z.tdiv b ≤ (n : Int) := by push_cast at hn; omega
        have h2 : z.tdiv b ≤ (m : Int) := by push_cast at hm; omega
        simp only [scan_pos, hpos, if_true]
        rw [ih m _ h1 h2]
      · simp [scan_pos, hpos]

theorem scan_pos_trace (b : Int) (hb : 2 ≤ b) (f : Int → Option α) :
    ∀ (n : Nat) (z : Int) (j : Nat) (t : Int), (scan_pos b f n z).2[j]? = some t →
      t = z.tdiv (b ^ j) ∧ 0 < t := by
  intro n
  induction n with
  | zero => intro z j t h; simp [scan_pos] at h
  | succ n ih =>
    intro z j t h
    by_cases hpos : 0 < z
    · cases hf : f z with
      | some e =>
        simp only [scan_pos, hpos, if_true, hf] at h
        cases j with
        | zero =>
          simp at h
          subst h
          exact ⟨by simp, hpos⟩
        | succ j => simp at h
      | none =>
        simp only [scan_pos, hpos, if_true, hf] at h
        cases j with
        | zero =>
          simp at h
          subst h
          exact ⟨by simp, hpos⟩
        | succ j =>
          rw [List.getElem?_cons_succ] at h
          rw [tdiv_pow_succ z b (by omega) j]
          exact ih _ j t h
    · simp [scan_pos, hpos] at h

/-- A positive code below `b ^ k` is probed at most `k` times. -/
theorem scan_pos_length_le (b : Int) (hb : 2 ≤ b) (f : Int → Option α) (n : Nat) (z : Int)
    (k : Nat) (hk : z < b ^ k) : (scan_pos b f n z).2.length ≤ k := by
  by_contra hcon
  have hlt : k < (scan_pos b f n z).2.length := by omega
  obtain ⟨ht, hpos⟩ := scan_pos_trace b hb f n z k _ (List.getElem?_eq_getElem hlt)
  rw [ht] at hpos
  have hz : 0 < z := pos_of_tdiv_pow_pos z b (by omega) k hpos
  rw [Int.tdiv_eq_zero_of_lt (le_of_lt hz) hk] at hpos
  exact absurd hpos (by decide)

end ScanPos

section ScanDw

variable {α : Type}

theorem scan_dw_fuel (b : Int) (hb : 2 ≤ b) (f : Int → Option α) :
    ∀ (n m : Nat) (z : Int), z.natAbs < n → z.natAbs < m →
      scan_dw b f n z = scan_dw b f m z := by
  intro n
  induction n with
  | zero => intro m z hn _; omega
  | succ n ih =>
    intro m z hn hm
    cases m with
    | zero => omega
    | succ m =>
      cases hf : f z with
      | some e => simp only [scan_dw, hf]
      | none =>
        by_cases hq : z.tdiv b = 0
        · simp only [scan_dw, hf, hq, if_true]
        · have hz0 : z ≠ 0 := by
            intro h0; apply hq; rw [h0]; simp
          have hlt := natAbs_tdiv_lt z b hz0 hb
          simp only [scan_dw, hf, hq, if_false]
          rw [ih m _ (by omega) (by omega)]

theorem scan_dw_trace (b : Int) (hb : 2 ≤ b) (f : Int → Option α) :
    ∀ (n : Nat) (z : Int) (j : Nat) (t : Int), (scan_dw b f n z).2[j]? = some t →
      t = z.tdiv (b ^ j) ∧ (j = 0 ∨ t ≠ 0) := by
  intro n
  induction n with
  | zero => intro z j t h; simp [scan_dw] at h
  | succ n ih =>
    intro z j t h
    cases hf : f z with
    | some e =>
      simp only [scan_dw, hf] at h
      cases j with
      | zero =>
        simp at h
        subst h
        exact ⟨by simp, Or.inl rfl⟩
      | succ j => simp at h
    | none =>
      by_cases hq : z.tdiv b = 0
      · simp only [scan_dw, hf, hq, if_true] at h
        cases j with
        | zero =>
          simp at h
          subst h
          exact ⟨by simp, Or.inl rfl⟩
        | succ j => simp at h
      · simp only [scan_dw, hf, hq, if_false] at h
        cases j with
        | zero =>
          simp at h
          subst h
          exact ⟨by simp, Or.inl rfl⟩
        | succ j =>
          rw [List.getElem?_cons_succ] at h
          obtain ⟨h1, h2⟩ := ih _ j t h
          rw [tdiv_pow_succ z b (by omega) j]
          refine ⟨h1, Or.inr ?_⟩
          rcases h2 with h2 | h2
          · subst h2
            rw [h1]
            simpa using hq
          · exact h2

theorem tdiv_eq_zero_of_natAbs_lt (z d : Int) (hd : 0 ≤ d) (h : (z.natAbs : Int) < d) :
    z.tdiv d = 0 := by
  apply Int.natAbs_eq_zero.mp
  rw [Int.natAbs_tdiv]
  apply Nat.div_eq_of_lt
  omega

/-- A code of magnitude below `b ^ k` is probed at most `k` times (`k` at least 1: the
code itself is always probed). -/
theorem scan_dw_length_le (b : Int) (hb : 2 ≤ b) (f : Int → Option α) (n : Nat) (z : Int)
    (k : Nat) (hk1 : 1 ≤ k) (hk : (z.natAbs : Int) < b ^ k) :
    (scan_dw b f n z).2.length ≤ k := by
  by_contra hcon
  have hlt : k < (scan_dw b f n z).2.length := by omega
  obtain ⟨ht, hne⟩ := scan_dw_trace b hb f n z k _ (List.getElem?_eq_getElem hlt)
  rcases hne with hne | hne
  · omega
  · apply hne
    rw [ht]
    exact tdiv_eq_zero_of_natAbs_lt z (b ^ k) (pow_nonneg (by omega) k) hk

end ScanDw

section LoopsAreScans

open Native

theorem get_z2z_tozipnull_loop_eq_scan (m : z2z_tozipnull_map) (fc tc svc b : Int) :
    ∀ (n : Nat) (z : Int),
      get_z2z_tozipnull_loop m fc tc svc b n z =
        scan_pos b (fun p => m ⟨fc, tc, p, svc⟩) n z := by
  intro n
  induction n with
  | zero => intro z; rfl
  | succ n ih =>
    intro z
    simp only [get_z2z_tozipnull_loop, scan_pos]
    split
    · cases hf : m ⟨fc, tc, z, svc⟩ with
      | some e => rfl
      | none => simp only [ih]
    · rfl

theorem get_exc_est_loop_eq_scan (m : exc_map) (tc svc b : Int) :
    ∀ (n : Nat) (z : Int),
      get_exc_est_loop m tc svc b n z =
        scan_pos b (fun p => m (exclusion_zip_key.make svc tc p)) n z := by
  intro n
  induction n with
  | zero => intro z; rfl
  | succ n ih =>
    intro z
    simp only [get_exc_est_loop, scan_pos]
    split
    · cases hf : m (exclusion_zip_key.make svc tc z) with
      | some e => rfl
      | none => simp only [ih]
    · rfl

theorem get_z2z_ranges_to_loop_eq_scan (rm : z2z_range_map) (em : z2z_estimate_map)
    (fc tc svc b it_from : Int) :
    ∀ (n : Nat) (z : Int),
      get_z2z_ranges_to_loop rm em fc tc svc b it_from n z =
        scan_pos b (fun p => get_z2z_ranges_probe rm em fc tc svc it_from p) n z := by
  intro n
  induction n with
  | zero => intro z; rfl
  | succ n ih =>
    intro z
    simp only [get_z2z_ranges_to_loop, scan_pos]
    split
    · cases hf : get_z2z_ranges_probe rm em fc tc svc it_from z with
      | some e => rfl
      | none => simp only [ih]
    · rfl

theorem get_z2z_default_to_loop_eq_scan (m : z2z_default_map) (fc tc svc b f : Int) :
    ∀ (n : Nat) (z : Int),
      get_z2z_default_to_loop m fc tc svc b f n z =
        scan_dw b (fun p => m ⟨fc, tc, f, p, svc⟩) n z := by
  intro n
  induction n with
  | zero => intro z; rfl
  | succ n ih =>
    intro z
    simp only [get_z2z_default_to_loop, scan_dw]
    cases hf : m ⟨fc, tc, f, z, svc⟩ with
    | some e => rfl
    | none =>
      simp only []
      split
      · rfl
      · simp only [ih]

theorem get_z2z_default_from_loop_fuel (m : z2z_default_map) (fc tc svc fb tb tz : Int)
    (hfb : 2 ≤ fb) :
    ∀ (n k : Nat) (z : Int), z.natAbs < n → z.natAbs < k →
      get_z2z_default_from_loop m fc tc svc fb tb tz n z =
        get_z2z_default_from_loop m fc tc svc fb tb tz k z := by
  intro n
  induction n with
  | zero => intro k z hn _; omega
  | succ n ih =>
    intro k z hn hk
    cases k with
    | zero => omega
    | succ k =>
      simp only [get_z2z_default_from_loop]
      cases hin : (get_z2z_default_to_loop m fc tc svc tb z (tz.natAbs + 1) tz).1 with
      | some e => rfl
      | none =>
        simp only []
        by_cases hq : z.tdiv fb = 0
        · simp only [hq, if_true]
        · have hz0 : z ≠ 0 := by
            intro h0; apply hq; rw [h0]; simp
          have hlt := natAbs_tdiv_lt z fb hz0 hfb
          simp only [hq, if_false]
          rw [ih k _ (by omega) (by omega)]

theorem get_z2z_default_from_loop_trace (m : z2z_default_map) (fc tc svc fb tb tz : Int)
    (hfb : 2 ≤ fb) :
    ∀ (n : Nat) (z : Int) (i : Nat) (p : Int × List Int),
      (get_z2z_default_from_loop m fc tc svc fb tb tz n z).2[i]? = some p →
        p.1 = z.tdiv (fb ^ i) ∧ (i = 0 ∨ p.1 ≠ 0) ∧
        p.2 = (get_z2z_default_to_loop m fc tc svc tb p.1 (tz.natAbs + 1) tz).2 := by
  intro n
  induction n with
  | zero => intro z i p h; simp [get_z2z_default_from_loop] at h
  | succ n ih =>
    intro z i p h
    simp only [get_z2z_default_from_loop] at h
    cases hin : (get_z2z_default_to_loop m fc tc svc tb z (tz.natAbs + 1) tz).1 with
    | some e =>
      rw [hin] at h
      simp only [] at h
      cases i with
      | zero =>
        simp at h
        subst h
        exact ⟨by simp, Or.inl rfl, rfl⟩
      | succ i => simp at h
    | none =>
      rw [hin] at h
      simp only [] at h
      by_cases hq : z.tdiv fb = 0
      · simp only [hq, if_true] at h
        cases i with
        | zero =>
          simp at h
          subst h
          exact ⟨by simp, Or.inl rfl, rfl⟩
        | succ i => simp at h
      · simp only [hq, if_false] at h
        cases i with
        | zero =>
          simp at h
          subst h
          exact ⟨by simp, Or.inl rfl, rfl⟩
        | succ i =>
          rw [List.getElem?_cons_succ] at h
          obtain ⟨h1, h2, h3⟩ := ih _ i p h
          rw [tdiv_pow_succ z fb (by omega) i]
          refine ⟨h1, Or.inr ?_, h3⟩
          rcases h2 with h2 | h2
          · subst h2
            rw [h1]
            simpa using hq
          · exact h2

theorem get_z2z_ranges_from_loop_fuel (rm : z2z_range_map) (em : z2z_estimate_map)
    (fc tc svc fb tb tz : Int) (hfb : 2 ≤ fb) :
    ∀ (n k : Nat) (z : Int), z ≤ n → z ≤ k →
      get_z2z_ranges_from_loop rm em fc tc svc fb tb tz n z =
        get_z2z_ranges_from_loop rm em fc tc svc fb tb tz k z := by
  intro n
  induction n with
  | zero =>
    intro k z hn _
    have hz : ¬ 0 < z := by simpa using hn
    cases k with
    | zero => rfl
    | succ k => simp [get_z2z_ranges_from_loop, hz]
  | succ n ih =>
    intro k z hn hk
    cases k with
    | zero =>
      have hz : ¬ 0 < z := by simpa using hk
      simp [get_z2z_ranges_from_loop, hz]
    | succ k =>
      by_cases hpos : 0 < z
      · have hlt := tdiv_lt_self z fb hpos hfb
        have h1 : z.tdiv fb ≤ (n : Int) := by push_cast at hn; omega
        have h2 : z.tdiv fb ≤ (k : Int) := by push_cast at hk; omega
        simp only [get_z2z_ranges_from_loop, hpos, if_true]
        rw [ih k _ h1 h2]
      · simp [get_z2z_ranges_from_loop, hpos]

end LoopsAreScans

section ProbeBounds

open Native

theorem two_pow_31_lt_ctry_base_pow (c : country) (country_id : Int) :
    (2 : Int) ^ 31 < ctry_base c country_id ^ 10 := by
  unfold ctry_base uk_zip_base
  split <;> norm_num

theorem sum_lengths_le (l : List (Int × List Int)) (k : Nat)
    (h : ∀ p ∈ l, p.2.length ≤ k) : (l.map (fun p => p.2.length)).sum ≤ l.length * k := by
  induction l with
  | nil => simp
  | cons a l ih =>
    have h1 : a.2.length ≤ k := h a (List.mem_cons_self a l)
    have h2 := ih (fun p hp => h p (List.mem_cons_of_mem a hp))
    simp only [List.map_cons, List.sum_cons, List.length_cons]
    nlinarith

theorem ranges_level_trace_length_le (c : country) (rm : z2z_range_map)
    (em : z2z_estimate_map) (fc tc svc tz f : Int) (htz : tz < 2 ^ 31) :
    (ranges_level_trace rm em fc tc svc (ctry_base c tc) tz f).length ≤ 10 := by
  unfold ranges_level_trace
  cases rm ⟨fc, f⟩ with
  | none => simp
  | some bf =>
    simp only []
    rw [get_z2z_ranges_to_loop_eq_scan]
    exact scan_pos_length_le _ (ctry_base_ge_two c tc) _ _ _ 10
      (lt_trans htz (two_pow_31_lt_ctry_base_pow c tc))

theorem get_z2z_ranges_trace_length_le (c : country) (rm : z2z_range_map)
    (em : z2z_estimate_map) (fc tc fz tz svc : Int) (hfz : fz < 2 ^ 31) :
    (get_z2z_ranges_run c rm em fc tc fz tz svc).2.length ≤ 10 := by
  by_contra hcon
  have hlt : 10 < (get_z2z_ranges_run c rm em fc tc fz tz svc).2.length := by omega
  obtain ⟨h1, h2, _, _⟩ :=
    (ranges_from_loop_trace rm em fc tc svc (ctry_base c fc) (ctry_base c tc) tz
      (ctry_base_ge_two c fc) fz.toNat fz (le_toNat_self fz)).1 10 _
      (List.getElem?_eq_getElem hlt)
  rw [h1] at h2
  have hpos : 0 < fz := pos_of_tdiv_pow_pos fz _ (by have := ctry_base_ge_two c fc; omega) 10 h2
  rw [Int.tdiv_eq_zero_of_lt (le_of_lt hpos)
    (lt_trans hfz (two_pow_31_lt_ctry_base_pow c fc))] at h2
  exact absurd h2 (by decide)

theorem natAbs_lt_ctry_base_pow (c : country) (country_id z : Int)
    (h1 : -2 ^ 31 ≤ z) (h2 : z < 2 ^ 31) :
    (z.natAbs : Int) < ctry_base c country_id ^ 10 := by
  have h3 : (2 : Int) ^ 31 + 1 ≤ ctry_base c country_id ^ 10 := by
    unfold ctry_base uk_zip_base
    split <;> norm_num
  have h4 : (z.natAbs : Int) ≤ 2 ^ 31 := by
    rcases Int.natAbs_eq z with h | h <;> omega
  omega

theorem get_z2z_default_trace_length_le (c : country) (m : z2z_default_map)
    (fc tc fz tz svc : Int) (h1 : -2 ^ 31 ≤ fz) (h2 : fz < 2 ^ 31) :
    (get_z2z_default_run c m fc tc fz tz svc).2.length ≤ 10 := by
  by_contra hcon
  have hlt : 10 < (get_z2z_default_run c m fc tc fz tz svc).2.length := by omega
  obtain ⟨ht, hne, _⟩ :=
    get_z2z_default_from_loop_trace m fc tc svc (ctry_base c fc) (ctry_base c tc) tz
      (ctry_base_ge_two c fc) (fz.natAbs + 1) fz 10 _ (List.getElem?_eq_getElem hlt)
  rcases hne with hne | hne
  · omega
  · apply hne
    rw [ht]
    exact tdiv_eq_zero_of_natAbs_lt fz _
      (pow_nonneg (by have := ctry_base_ge_two c fc; omega) 10)
      (natAbs_lt_ctry_base_pow c fc fz h1 h2)

theorem get_z2z_default_inner_trace_length_le (c : country) (m : z2z_default_map)
    (fc tc fz tz svc : Int) (h1 : -2 ^ 31 ≤ tz) (h2 : tz < 2 ^ 31) :
    ∀ p ∈ (get_z2z_default_run c m fc tc fz tz svc).2, p.2.length ≤ 10 := by
  intro p hp
  obtain ⟨i, hi⟩ := List.getElem?_of_mem hp
  obtain ⟨_, _, h3⟩ :=
    get_z2z_default_from_loop_trace m fc tc svc (ctry_base c fc) (ctry_base c tc) tz
      (ctry_base_ge_two c fc) (fz.natAbs + 1) fz i p hi
  rw [h3, get_z2z_default_to_loop_eq_scan]
  exact scan_dw_length_le _ (ctry_base_ge_two c tc) _ _ _ 10 (by omega)
    (natAbs_lt_ctry_base_pow c tc tz h1 h2)

theorem get_z2z_ranges_inner_trace_length_le (c : country) (rm : z2z_range_map)
    (em : z2z_estimate_map) (fc tc fz tz svc : Int) (h2 : tz < 2 ^ 31) :
    ∀ p ∈ (get_z2z_ranges_run c rm em fc tc fz tz svc).2, p.2.length ≤ 10 := by
  intro p hp
  obtain ⟨i, hi⟩ := List.getElem?_of_mem hp
  obtain ⟨_, _, h3, _⟩ :=
    (ranges_from_loop_trace rm em fc tc svc (ctry_base c fc) (ctry_base c tc) tz
      (ctry_base_ge_two c fc) fz.toNat fz (le_toNat_self fz)).1 i p hi
  rw [h3]
  exact ranges_level_trace_length_le c rm em fc tc svc tz p.1 h2

end ProbeBounds

namespace Native

/-- C12. For 32-bit origin and destination codes, either base and every table state, the
truncation loops terminate. Each truncation of a non-zero value strictly decreases its
magnitude. No loop ever stops for lack of fuel: run with any larger fuel, each loop returns
the same result and the same probes as the function. Each code is probed, hence truncated,
at most 10 times, so `get_z2z_default` probes at most 100 pairs, `get_z2z_ranges` looks up
at most 10 origin values and at most 100 destination values, and `get_z2z_tozipnull` and
`get_exc_est` probe at most 10 keys. -/
theorem truncation_loops_terminate (c : country) (dm : z2z_default_map)
    (rm : z2z_range_map) (em : z2z_estimate_map) (nm : z2z_tozipnull_map) (xm : exc_map)
    (fc tc fz tz svc : Int) (hfz : -2 ^ 31 ≤ fz ∧ fz < 2 ^ 31)
    (htz : -2 ^ 31 ≤ tz ∧ tz < 2 ^ 31) :
    (∀ z : Int, z ≠ 0 →
      (z.tdiv (ctry_base c fc)).natAbs < z.natAbs ∧
      (z.tdiv (ctry_base c tc)).natAbs < z.natAbs) ∧
    (∀ n : Nat, fz.natAbs < n →
      get_z2z_default_from_loop dm fc tc svc (ctry_base c fc) (ctry_base c tc) tz n fz =
        get_z2z_default_run c dm fc tc fz tz svc) ∧
    (∀ (f : Int) (n : Nat), tz.natAbs < n →
      get_z2z_default_to_loop dm fc tc svc (ctry_base c tc) f n tz =
        get_z2z_default_to_loop dm fc tc svc (ctry_base c tc) f (tz.natAbs + 1) tz) ∧
    (∀ n : Nat, fz ≤ n →
      get_z2z_ranges_from_loop rm em fc tc svc (ctry_base c fc) (ctry_base c tc) tz n fz =
        get_z2z_ranges_run c rm em fc tc fz tz svc) ∧
    (∀ (bf : Int) (n : Nat), tz ≤ n →
      get_z2z_ranges_to_loop rm em fc tc svc (ctry_base c tc) bf n tz =
        get_z2z_ranges_to_loop rm em fc tc svc (ctry_base c tc) bf tz.toNat tz) ∧
    (∀ n : Nat, fz ≤ n →
      get_z2z_tozipnull_loop nm fc tc svc (ctry_base c fc) n fz =
        get_z2z_tozipnull_run c nm fc tc fz svc) ∧
    (∀ n : Nat, tz ≤ n →
      get_exc_est_loop xm tc svc (ctry_base c tc) n tz = get_exc_est_run c xm tc tz svc) ∧
    ((get_z2z_default_run c dm fc tc fz tz svc).2.length ≤ 10 ∧
      (∀ p ∈ (get_z2z_default_run c dm fc tc fz tz svc).2, p.2.length ≤ 10) ∧
      ((get_z2z_default_run c dm fc tc fz tz svc).2.map (fun p => p.2.length)).sum ≤ 100) ∧
    ((get_z2z_ranges_run c rm em fc tc fz tz svc).2.length ≤ 10 ∧
      (∀ p ∈ (get_z2z_ranges_run c rm em fc tc fz tz svc).2, p.2.length ≤ 10) ∧
      ((get_z2z_ranges_run c rm em fc tc fz tz svc).2.map (fun p => p.2.length)).sum ≤ 100) ∧
    (get_z2z_tozipnull_run c nm fc tc fz svc).2.length ≤ 10 ∧
    (get_exc_est_run c xm tc tz svc).2.length ≤ 10 := by
  have hfb := ctry_base_ge_two c fc
  have htb := ctry_base_ge_two c tc
  refine ⟨?_, ?_, ?_, ?_, ?_, ?_, ?_, ?_, ?_, ?_, ?_⟩
  · intro z hz
    exact ⟨natAbs_tdiv_lt z _ hz hfb, natAbs_tdiv_lt z _ hz htb⟩
  · intro n hn
    exact get_z2z_default_from_loop_fuel dm fc tc svc _ _ tz hfb n (fz.natAbs + 1) fz hn
      (Nat.lt_succ_self _)
  · intro f n hn
    rw [get_z2z_default_to_loop_eq_scan, get_z2z_default_to_loop_eq_scan]
    exact scan_dw_fuel _ htb _ n (tz.natAbs + 1) tz hn (Nat.lt_succ_self _)
  · intro n hn
    exact get_z2z_ranges_from_loop_fuel rm em fc tc svc _ _ tz hfb n fz.toNat fz hn
      (le_toNat_self fz)
  · intro bf n hn
    rw [get_z2z_ranges_to_loop_eq_scan, get_z2z_ranges_to_loop_eq_scan]
    exact scan_pos_fuel _ htb _ n tz.toNat tz hn (le_toNat_self tz)
  · intro n hn
    unfold get_z2z_tozipnull_run
    rw [get_z2z_tozipnull_loop_eq_scan, get_z2z_tozipnull_loop_eq_scan]
    exact scan_pos_fuel _ hfb _ n fz.toNat fz hn (le_toNat_self fz)
  · intro n hn
    unfold get_exc_est_run
    rw [get_exc_est_loop_eq_scan, get_exc_est_loop_eq_scan]
    exact scan_pos_fuel _ htb _ n tz.toNat tz hn (le_toNat_self tz)
  · have h1 := get_z2z_default_trace_length_le c dm fc tc fz tz svc hfz.1 hfz.2
    have h2 := get_z2z_default_inner_trace_length_le c dm fc tc fz tz svc htz.1 htz.2
    refine ⟨h1, h2, ?_⟩
    have h3 := sum_lengths_le _ 10 h2
    omega
  · have h1 := get_z2z_ranges_trace_length_le c rm em fc tc fz tz svc hfz.2
    have h2 := get_z2z_ranges_inner_trace_length_le c rm em fc tc fz tz svc htz.2
    refine ⟨h1, h2, ?_⟩
    have h3 := sum_lengths_le _ 10 h2
    omega
  · unfold get_z2z_tozipnull_run
    rw [get_z2z_tozipnull_loop_eq_scan]
    exact scan_pos_length_le _ hfb _ _ _ 10
      (lt_trans hfz.2 (two_pow_31_lt_ctry_base_pow c fc))
  · unfold get_exc_est_run
    rw [get_exc_est_loop_eq_scan]
    exact scan_pos_length_le _ htb _ _ _ 10
      (lt_trans htz.2 (two_pow_31_lt_ctry_base_pow c tc))

/-- C12, witness. For the 32-bit extremes `from_zip = -2^31` and `to_zip = 2^31 - 1` and
empty tables, `get_z2z_default` probes 10 origin values and 10 destination values under
each. -/
theorem truncation_loops_terminate_witness :
    (-2 ^ 31 ≤ (-2147483648 : Int) ∧ (-2147483648 : Int) < 2 ^ 31) ∧
      (-2 ^ 31 ≤ (2147483647 : Int) ∧ (2147483647 : Int) < 2 ^ 31) ∧
      (get_z2z_default_run sample_country (fun _ => none) 77 77 (-2147483648) 2147483647
        7712).2.length = 10 ∧
      (get_z2z_default_run sample_country (fun _ => none) 77 77 (-2147483648) 2147483647
        7712).2.length ≤ 10 :=
  ⟨by decide, by decide, by decide,
    (truncation_loops_terminate sample_country (fun _ => none) (fun _ => none)
      (fun _ => none) (fun _ => none) (fun _ => none) 77 77 (-2147483648) 2147483647 7712
      (by decide) (by decide)).2.2.2.2.2.2.2.1.1⟩

end Native

/-! ## Holiday calendar -/

/-- C13. For every calendar and every day number `d` with `d < start_date` or
`d >= start_date + 915`, `is_holiday d` (which is `get_bit d`) is false, and the bitset is
not read: the answer is the same for every bitset. Inside the window the bit read is the
one at index `d - start_date`, an index of the 915-bit set. The subtraction is taken in
the integers. -/
theorem holiday_info.is_holiday_outside_window (h : holiday_info) (d : Int) :
    h.is_holiday d = h.get_bit d ∧
    ((d < h.start_date ∨ d ≥ h.start_date + 915) →
      h.is_holiday d = false ∧
      ∀ bits : Fin 915 → Bool,
        holiday_info.is_holiday { holidays := bits, start_date := h.start_date } d = false) ∧
    ((h.start_date ≤ d ∧ d < h.start_date + 915) →
      ∃ i : Fin 915, (i.val : Int) = d - h.start_date ∧ h.is_holiday d = h.holidays i) := by
  refine ⟨rfl, ?_, ?_⟩
  · intro hout
    have hc : ∀ s : Int, s = h.start_date → (d - s < 0 ∨ d - s ≥ 915) := by
      intro s hs; subst hs; omega
    refine ⟨?_, ?_⟩
    · unfold holiday_info.is_holiday holiday_info.get_bit
      rw [dif_pos (hc _ rfl)]
    · intro bits
      unfold holiday_info.is_holiday holiday_info.get_bit
      rw [dif_pos (hc _ rfl)]
  · intro hin
    have hc : ¬ (d - h.start_date < 0 ∨ d - h.start_date ≥ 915) := by omega
    refine ⟨⟨(d - h.start_date).toNat, by omega⟩, ?_, ?_⟩
    · simp only []
      omega
    · unfold holiday_info.is_holiday holiday_info.get_bit
      rw [dif_neg hc]

/-- C13, witness: the day before the window of a calendar that starts on day 2451545. -/
theorem holiday_info.is_holiday_outside_window_witness :
    ((2451544 : Int) < empty_calendar_2000.start_date ∨
        (2451544 : Int) ≥ empty_calendar_2000.start_date + 915) ∧
      empty_calendar_2000.is_holiday 2451544 = false :=
  ⟨by decide,
    ((holiday_info.is_holiday_outside_window empty_calendar_2000 2451544).2.1
      (by decide)).1⟩

theorem holiday_info.set_bit_in_window (h : holiday_info) (day_number : Int → Int → Int → Int)
    (year month day : Int) (hm : ¬ (month < 1 ∨ month > 12 ∨ day < 1 ∨ day > 31))
    (hw : ¬ (day_number year month day - h.start_date < 0 ∨
      day_number year month day - h.start_date ≥ 915)) :
    h.set_bit day_number year month day =
      { holidays :=
          Function.update h.holidays
            ⟨(day_number year month day - h.start_date).toNat, by omega⟩ true,
        start_date := h.start_date } := by
  unfold holiday_info.set_bit
  rw [if_neg hm]
  simp only []
  rw [dif_neg hw]

/-- C14. For every calendar and every date with `1 <= month <= 12` and `1 <= day <= 31`
whose day number `d` lies in the window: after `set_bit`, `is_holiday d` is true,
`is_holiday d'` is unchanged for every other day and the start date is unchanged. For a
date outside the window, or with the month or the day outside those ranges, `set_bit`
leaves the calendar unchanged. `day_number` is the calendar function of the date
library. -/
theorem holiday_info.set_bit_frame (h : holiday_info) (day_number : Int → Int → Int → Int)
    (year month day : Int) :
    ((1 ≤ month ∧ month ≤ 12 ∧ 1 ≤ day ∧ day ≤ 31) →
      (h.start_date ≤ day_number year month day ∧
        day_number year month day < h.start_date + 915) →
      (h.set_bit day_number year month day).is_holiday (day_number year month day) = true ∧
      (∀ d' : Int, d' ≠ day_number year month day →
        (h.set_bit day_number year month day).is_holiday d' = h.is_holiday d') ∧
      (h.set_bit day_number year month day).start_date = h.start_date) ∧
    ((month < 1 ∨ month > 12 ∨ day < 1 ∨ day > 31 ∨
        day_number year month day < h.start_date ∨
        day_number year month day ≥ h.start_date + 915) →
      h.set_bit day_number year month day = h) := by
  refine ⟨?_, ?_⟩
  · intro hmd hwin
    have hm : ¬ (month < 1 ∨ month > 12 ∨ day < 1 ∨ day > 31) := by omega
    have hw : ¬ (day_number year month day - h.start_date < 0 ∨
        day_number year month day - h.start_date ≥ 915) := by omega
    rw [holiday_info.set_bit_in_window h day_number year month day hm hw]
    refine ⟨?_, ?_, rfl⟩
    · unfold holiday_info.is_holiday holiday_info.get_bit
      simp only []
      rw [dif_neg hw]
      simp
    · intro d' hne
      unfold holiday_info.is_holiday holiday_info.get_bit
      simp only []
      by_cases hd : d' - h.start_date < 0 ∨ d' - h.start_date ≥ 915
      · rw [dif_pos hd, dif_pos hd]
      · rw [dif_neg hd, dif_neg hd]
        apply Function.update_noteq
        intro heq
        apply hne
        have := congrArg Fin.val heq
        simp only [] at this
        omega
  · intro hout
    unfold holiday_info.set_bit
    by_cases hm : month < 1 ∨ month > 12 ∨ day < 1 ∨ day > 31
    · rw [if_pos hm]
    · rw [if_neg hm]
      simp only []
      have hw : day_number year month day - h.start_date < 0 ∨
          day_number year month day - h.start_date ≥ 915 := by omega
      rw [dif_pos hw]

/-- C14, witness: on the empty calendar that starts on 1 January 2000, `set_bit` for
25 December 2000 (day 2451904, inside the window) makes that day a holiday. -/
theorem holiday_info.set_bit_frame_witness :
    gregorian_day_number 2000 12 25 = 2451904 ∧
      (empty_calendar_2000.set_bit gregorian_day_number 2000 12 25).is_holiday
        (gregorian_day_number 2000 12 25) = true :=
  ⟨by decide,
    ((holiday_info.set_bit_frame empty_calendar_2000 gregorian_day_number 2000 12 25).1
      (by decide) (by decide)).1⟩

/-! ## The walk to the next non-working day -/

section Walk

open Analytical

/-- The walk from `day` with counter `acc`: it stops at the first non-working day, and at
7 when there is none before the counter reaches 7. -/
theorem days_from_nonworking_day_loop_spec (nwd : Int → Bool) :
    ∀ (fuel : Nat) (day : Int) (acc : Nat), 7 ≤ acc + fuel → acc < 7 →
      (∀ k : Nat, acc + k < 7 → nwd (day + k) = true →
        (∀ j : Nat, j < k → nwd (day + j) = false) →
        days_from_nonworking_day_loop nwd fuel day acc = ((acc + k : Nat) : Int)) ∧
      ((∀ j : Nat, acc + j < 7 → nwd (day + j) = false) →
        days_from_nonworking_day_loop nwd fuel day acc = 7) := by
  intro fuel
  induction fuel with
  | zero => intro day acc h1 h2; omega
  | succ fuel ih =>
    intro day acc h1 h2
    cases hd : nwd day with
    | true =>
      simp only [days_from_nonworking_day_loop, hd, Bool.not_true, Bool.false_eq_true,
        if_false]
      refine ⟨?_, ?_⟩
      · intro k _ _ hmin
        cases k with
        | zero => simp
        | succ k =>
          have := hmin 0 (by omega)
          simp [hd] at this
      · intro h
        have := h 0 (by omega)
        simp [hd] at this
    | false =>
      simp only [days_from_nonworking_day_loop, hd, Bool.not_false, if_true]
      by_cases h7 : (acc : Int) + 1 ≥ 7
      · rw [if_pos h7]
        have hacc : acc = 6 := by omega
        subst hacc
        refine ⟨?_, fun _ => by norm_num⟩
        intro k hk hnwd _
        have hk0 : k = 0 := by omega
        subst hk0
        simp [hd] at hnwd
      · rw [if_neg h7]
        have hlt : acc + 1 < 7 := by omega
        obtain ⟨ih1, ih2⟩ := ih (day + 1) (acc + 1) (by omega) hlt
        have hcast : (acc : Int) + 1 = ((acc + 1 : Nat) : Int) := by push_cast; rfl
        rw [hcast]
        refine ⟨?_, ?_⟩
        · intro k hk hnwd hmin
          cases k with
          | zero => simp [hd] at hnwd
          | succ k =>
            have e : ∀ j : Nat, day + 1 + (j : Int) = day + ((j + 1 : Nat) : Int) := by
              intro j; push_cast; ring
            rw [ih1 k (by omega) (by rw [e]; exact hnwd)
              (fun j hj => by rw [e]; exact hmin (j + 1) (by omega))]
            congr 1
            omega
        · intro h
          apply ih2
          intro j hj
          have e : day + 1 + (j : Int) = day + ((j + 1 : Nat) : Int) := by push_cast; ring
          rw [e]
          exact h (j + 1) (by omega)

end Walk


section FeatureFrames

open Analytical

theorem features_set_of_ne (f : features) (k j : ship_model) (v : Int) (h : j ≠ k) :
    f.set k v j = f j := by
  simp [features.set, h]

theorem features_set_same (f : features) (k : ship_model) (v : Int) :
    f.set k v k = v := by
  simp [features.set]

theorem set_seller_features_frame (f : features) (dow sid : Int) (model : experiment_model)
    (k : ship_model) (h1 : k ≠ .SELLER_TOTAL_AVERAGE) (h2 : k ≠ .SELLER_DAY_AVERAGE) :
    set_seller_features f dow sid model k = f k := by
  unfold set_seller_features
  cases hm : model.seller_features with
  | none => simp [features.set, h1, h2]
  | some m =>
    cases hs : m sid with
    | none => simp [hs, features.set, h1, h2]
    | some it => simp [hs, features.set, h1, h2]

theorem set_category_features_frame (f : features) (dow cat : Int) (model : experiment_model)
    (k : ship_model) (h1 : k ≠ .CATEGORY_TOTAL_AVERAGE) (h2 : k ≠ .CATEGORY_DAY_AVERAGE) :
    set_category_features f dow cat model k = f k := by
  unfold set_category_features
  cases hm : model.category_features with
  | none => simp [features.set, h1, h2]
  | some m =>
    cases hs : m cat with
    | none => simp [hs, features.set, h1, h2]
    | some it => simp [hs, features.set, h1, h2]

theorem set_shipment_zip_features_frame (f : features) (dow svc tz fz : Int)
    (model : experiment_model) (k : ship_model)
    (h1 : k ≠ .SHIPPING_METHOD_TOTAL_AVERAGE) (h2 : k ≠ .SHIPPING_METHOD_DAY_AVERAGE)
    (h3 : k ≠ .ZIP_TOTAL_AVERAGE) (h4 : k ≠ .ZIP_DAY_AVERAGE)
    (h5 : k ≠ .SHIPPING_METHOD_ZIP_TOTAL_AVERAGE)
    (h6 : k ≠ .SHIPPING_METHOD_ZIP_DAY_AVERAGE) :
    set_shipment_zip_features f dow svc tz fz model k = f k := by
  unfold set_shipment_zip_features
  rcases hA : model.shipping_features with _ | m1 <;>
    rcases hB : model.zip_features with _ | m2 <;>
    rcases hC : model.shipping_zip_features with _ | m3
  all_goals try (rcases hA1 : m1 svc with _ | i1)
  all_goals try (rcases hB1 : m2 ⟨fz, tz⟩ with _ | i2)
  all_goals try (rcases hC1 : m3 ⟨svc, fz, tz⟩ with _ | i3)
  all_goals simp [features.set, *]

/-- The feature `DAYS_FROM_NONWORKING_DAYS` of the macro is the value of the walk from the
payment day, when the request has its start date and the origin country has a calendar. -/
theorem model_features_days_from_nonworking (c : country) (ext : Externals) (st : State)
    (rq : Request) (cal : holiday_info)
    (hlen : rq.DeliveryEstimateStartDate.length > des_column_number_start_time)
    (hcal : ext.get_holidays rq.Ctry st.holiday_info_map = some cal) :
    model_features c ext st rq ship_model.DAYS_FROM_NONWORKING_DAYS =
      wrap32 (days_from_nonworking_day_loop
        (fun day => ext.is_non_working_day day cal (request_non_working_days rq)) 7
        (rq.DeliveryEstimateStartDate.getD des_column_number_start_date 0) 0) := by
  unfold model_features
  simp only [hlen, if_true, hcal]
  rw [set_category_features_frame _ _ _ _ _ (by decide) (by decide),
    set_shipment_zip_features_frame _ _ _ _ _ _ _ (by decide) (by decide) (by decide)
      (by decide) (by decide) (by decide),
    set_seller_features_frame _ _ _ _ _ (by decide) (by decide)]
  simp [features.set]

end FeatureFrames

namespace Analytical

/-- C15 as amended. The value computed for `days_from_nonworking_day` is the number of days
from the anchor day to the next non-working day: the walk keeps stepping forward while the
current day is not a non-working day and stops at the first non-working day, capped at 7.
It is `k` when day `anchor + k` is the first non-working day among the 7 days from the
anchor, and 7 when none of them is non-working; any fuel of at least 7 gives the same
value. The macro stores the value of this walk from the payment day, with
`is_non_working_day` as the test, in the feature `DAYS_FROM_NONWORKING_DAYS`. -/
theorem walk_counts_days_to_next_nonworking_day (nwd : Int → Bool) (anchor : Int)
    (fuel : Nat) (hfuel : 7 ≤ fuel) :
    (∀ k : Nat, k < 7 → nwd (anchor + k) = true →
      (∀ j : Nat, j < k → nwd (anchor + j) = false) →
      days_from_nonworking_day_loop nwd fuel anchor 0 = (k : Int)) ∧
    ((∀ j : Nat, j < 7 → nwd (anchor + j) = false) →
      days_from_nonworking_day_loop nwd fuel anchor 0 = 7) ∧
    (∀ (c : country) (ext : Externals) (st : State) (rq : Request) (cal : holiday_info),
      rq.DeliveryEstimateStartDate.length > des_column_number_start_time →
      ext.get_holidays rq.Ctry st.holiday_info_map = some cal →
      model_features c ext st rq ship_model.DAYS_FROM_NONWORKING_DAYS =
        wrap32 (days_from_nonworking_day_loop
          (fun day => ext.is_non_working_day day cal (request_non_working_days rq)) 7
          (rq.DeliveryEstimateStartDate.getD des_column_number_start_date 0) 0)) := by
  obtain ⟨h1, h2⟩ := days_from_nonworking_day_loop_spec nwd fuel anchor 0 (by omega)
    (by omega)
  refine ⟨?_, ?_, fun c ext st rq cal hlen hcal =>
    model_features_days_from_nonworking c ext st rq cal hlen hcal⟩
  · intro k hk hnwd hmin
    have := h1 k (by omega) hnwd hmin
    simpa using this
  · intro h
    apply h2
    intro j hj
    exact h j (by omega)

/-- C15 as amended, witness: when day `anchor + 2` is the first non-working day the value
is 2. -/
theorem walk_counts_days_to_next_nonworking_day_witness :
    (7 : Nat) ≤ 7 ∧
      days_from_nonworking_day_loop (fun day => decide (day = 2451547)) 7 2451545 0 = 2 :=
  ⟨le_refl 7,
    (walk_counts_days_to_next_nonworking_day (fun day => decide (day = 2451547)) 2451545 7
      (le_refl 7)).1 2 (by decide) (by decide) (fun j hj => by
        have hj' : j = 0 ∨ j = 1 := by omega
        rcases hj' with h | h <;> subst h <;> decide)⟩

/-- C15, counterexample. When no day is a non-working day, the anchor is a working
non-holiday day and the number of consecutive non-working days starting there is 0, but the
walk returns 7 (also as the feature of the macro); when every day is non-working, that
number is 7 and the walk returns 0. -/
theorem walk_is_not_the_nonworking_run :
    consecutive_nonworking_days (fun _ => false) 2451545 = 0 ∧
      days_from_nonworking_day_loop (fun _ => false) 7 2451545 0 = 7 ∧
      model_features sample_country all_working_externals sample_state us_request_dated
        ship_model.DAYS_FROM_NONWORKING_DAYS = 7 ∧
      consecutive_nonworking_days (fun _ => true) 2451545 = 7 ∧
      days_from_nonworking_day_loop (fun _ => true) 7 2451545 0 = 0 := by
  decide

end Analytical

/-! ## Threshold bucketing: bound, monotonicity, iterations -/

section ThresholdMore

open Analytical

theorem exists_least_threshold_index (s : ℚ) (t : List ℚ) (m u d : Nat)
    (h1 : m ≤ d) (h2 : d ≤ u) (h3 : ∃ x, t[d]? = some x ∧ s ≤ x) :
    ∃ d0 : Nat, d0 ≤ d ∧ least_threshold_index s t m u d0 := by
  classical
  have hex : ∃ k : Nat, m ≤ k ∧ k ≤ u ∧ ∃ x, t[k]? = some x ∧ s ≤ x := ⟨d, h1, h2, h3⟩
  refine ⟨Nat.find hex, Nat.find_min' hex ⟨h1, h2, h3⟩, ?_⟩
  obtain ⟨p1, p2, p3⟩ := Nat.find_spec hex
  refine ⟨p1, p2, p3, ?_⟩
  intro d' hd1 hd2 x hx hsx
  exact Nat.find_min hex hd2 ⟨hd1, by omega, x, hx, hsx⟩

theorem least_threshold_index_lt_length (s : ℚ) (t : List ℚ) (m u d : Nat)
    (h : least_threshold_index s t m u d) : d < t.length := by
  obtain ⟨_, _, ⟨x, hx, _⟩, _⟩ := h
  by_contra hcon
  rw [List.getElem?_eq_none (by omega)] at hx
  cases hx

/-- The bucketing either finds the least index and returns it twice, or finds none and
returns the prior value. -/
theorem threshold_bucket_cases (s : ℚ) (t : List ℚ) (m u : Nat) (days : Int × Int) :
    (∃ d : Nat, least_threshold_index s t m u d ∧
      threshold_bucket s t m u days = (wrap32 d, wrap32 d)) ∨
    ((∀ d : Nat, m ≤ d → d ≤ u → ∀ x, t[d]? = some x → ¬ s ≤ x) ∧
      threshold_bucket s t m u days = days) := by
  obtain ⟨h1, h2⟩ := threshold_loop_spec s t u (t.length + 1) m days (by omega)
  by_cases hex : ∃ d : Nat, m ≤ d ∧ d ≤ u ∧ ∃ x, t[d]? = some x ∧ s ≤ x
  · obtain ⟨d, p1, p2, p3⟩ := hex
    obtain ⟨d0, _, hd0⟩ := exists_least_threshold_index s t m u d p1 p2 p3
    exact Or.inl ⟨d0, hd0, h1 d0 hd0⟩
  · right
    have hno : ∀ d : Nat, m ≤ d → d ≤ u → ∀ x, t[d]? = some x → ¬ s ≤ x := by
      intro d p1 p2 x hx hsx
      exact hex ⟨d, p1, p2, x, hx, hsx⟩
    exact ⟨hno, h2 hno⟩

/-- With the macro's prior value `(-1, -1)` and a thresholds list of at most `2^31`
entries, the result `(d, d)` identifies the least index. -/
theorem threshold_bucket_eq_day_iff (s : ℚ) (t : List ℚ) (m u d : Nat)
    (hlen : t.length ≤ 2 ^ 31) :
    threshold_bucket s t m u (-1, -1) = ((d : Int), (d : Int)) ↔
      least_threshold_index s t m u d := by
  constructor
  · intro h
    rcases threshold_bucket_cases s t m u (-1, -1) with ⟨d0, hd0, hres⟩ | ⟨_, hres⟩
    · have hlt := least_threshold_index_lt_length s t m u d0 hd0
      rw [hres, wrap32_of_lt d0 (by omega)] at h
      have : (d0 : Int) = d := congrArg Prod.fst h
      have : d0 = d := by exact_mod_cast this
      subst this
      exact hd0
    · rw [hres] at h
      have : (-1 : Int) = d := congrArg Prod.fst h
      omega
  · intro h
    have hlt := least_threshold_index_lt_length s t m u d h
    exact (threshold_bucket_spec s t m u (-1, -1)).1 d h (by omega)

end ThresholdMore

namespace Analytical

/-- C16 as amended. When the request supplies a `D`+digit model string, the upper bound of
the threshold scan is the digit itself, whether it is smaller or larger than
`max_days_predicted`; without such a string the bound is `max_days_predicted`. A predicted
day is never above the bound in force (for a thresholds list of at most `2^31`
entries). -/
theorem override_digit_replaces_max_days (model : experiment_model) :
    (∀ ch : Char, '0'.toNat ≤ ch.toNat → ch.toNat ≤ '9'.toNat →
      max_model_days model ['D', ch] = ch.toNat - '0'.toNat) ∧
    (∀ sde : List Char,
      (¬ ∃ ch : Char, sde = ['D', ch] ∧ '0'.toNat ≤ ch.toNat ∧ ch.toNat ≤ '9'.toNat) →
      max_model_days model sde = model.max_days_predicted) ∧
    (∀ (s : ℚ) (sde : List Char) (d : Nat), model.thresholds.length ≤ 2 ^ 31 →
      threshold_bucket s model.thresholds model.min_days_predicted
        (max_model_days model sde) (-1, -1) = ((d : Int), (d : Int)) →
      d ≤ max_model_days model sde) := by
  refine ⟨?_, ?_, ?_⟩
  · intro ch h1 h2
    unfold max_model_days
    simp only [true_and]
    rw [if_pos ⟨h1, h2⟩]
  · intro sde hno
    unfold max_model_days
    split
    · rename_i d0 d1
      split
      · rename_i hc
        exfalso
        apply hno
        refine ⟨d1, ?_, hc.2.1, hc.2.2⟩
        rw [hc.1]
      · rfl
    · rfl
  · intro s sde d hlen h
    exact ((threshold_bucket_eq_day_iff s _ _ _ d hlen).mp h).2.1

/-- C16, counterexample. With `max_days_predicted = 7` and the model string `D9`, the bound
is 9, not `min 7 9 = 7`, and the macro predicts day 9. -/
theorem override_digit_exceeds_max_days :
    late_threshold_model.max_days_predicted = 7 ∧
      max_model_days late_threshold_model ['D', '9'] = 9 ∧
      min late_threshold_model.max_days_predicted 9 = 7 ∧
      AnalyticalDeliveryEstimate sample_country sample_externals late_threshold_state
        shipping_tree_model_evaluate us_request_override_9 = (9, 9) := by
  decide

/-- C17. Threshold bucketing is monotone for every thresholds list, sorted or not (of at
most `2^31` entries): for fixed thresholds and bounds, if `s1 <= s2` and `s2` yields day
`d2`, then `s1` yields a day `d1` with `d1 <= d2`. -/
theorem threshold_bucketing_monotone (s1 s2 : ℚ) (t : List ℚ) (m u d2 : Nat)
    (hlen : t.length ≤ 2 ^ 31) (hs : s1 ≤ s2)
    (h2 : threshold_bucket s2 t m u (-1, -1) = ((d2 : Int), (d2 : Int))) :
    ∃ d1 : Nat, d1 ≤ d2 ∧ threshold_bucket s1 t m u (-1, -1) = ((d1 : Int), (d1 : Int)) := by
  obtain ⟨p1, p2, ⟨x, hx, hsx⟩, _⟩ := (threshold_bucket_eq_day_iff s2 t m u d2 hlen).mp h2
  obtain ⟨d1, hle, hd1⟩ :=
    exists_least_threshold_index s1 t m u d2 p1 p2 ⟨x, hx, le_trans hs hsx⟩
  exact ⟨d1, hle, (threshold_bucket_eq_day_iff s1 t m u d1 hlen).mpr hd1⟩

/-- C17, witness: with thresholds `0, 0, 10, 20` and range `[2, 7]`, the score 15 yields
day 3 and the smaller score 10 yields a day that is at most 3. -/
theorem threshold_bucketing_monotone_witness :
    ([0, 0, 10, 20] : List ℚ).length ≤ 2 ^ 31 ∧ (10 : ℚ) ≤ 15 ∧
      threshold_bucket 15 [0, 0, 10, 20] 2 7 (-1, -1) = (3, 3) ∧
      ∃ d1 : Nat, d1 ≤ 3 ∧
        threshold_bucket 10 [0, 0, 10, 20] 2 7 (-1, -1) = ((d1 : Int), (d1 : Int)) :=
  ⟨by decide, by decide, by decide,
    threshold_bucketing_monotone 10 15 [0, 0, 10, 20] 2 7 3 (by decide) (by decide)
      (by decide)⟩

end Analytical

section ThresholdRun

open Analytical

theorem threshold_loop_run_fst (s : ℚ) (t : List ℚ) (u : Nat) :
    ∀ (fuel i : Nat) (days : Int × Int),
      (threshold_loop_run s t u fuel i days).1 = threshold_loop s t u fuel i days := by
  intro fuel
  induction fuel with
  | zero => intro i days; rfl
  | succ fuel ih =>
    intro i days
    simp only [threshold_loop_run, threshold_loop]
    split
    · split
      · rfl
      · split
        · rfl
        · exact ih _ _
    · rfl

theorem threshold_loop_run_fuel (s : ℚ) (t : List ℚ) (u : Nat) :
    ∀ (fuel fuel' i : Nat) (days : Int × Int), 0 < fuel → 0 < fuel' →
      t.length < fuel + i → t.length < fuel' + i →
      threshold_loop_run s t u fuel i days = threshold_loop_run s t u fuel' i days := by
  intro fuel
  induction fuel with
  | zero => intro fuel' i days h0; omega
  | succ fuel ih =>
    intro fuel' i days _ h0 h1 h2
    cases fuel' with
    | zero => omega
    | succ fuel' =>
      simp only [threshold_loop_run]
      split
      · split
        · rfl
        · split
          · rfl
          · rw [ih fuel' (i + 1) days (by omega) (by omega) (by omega) (by omega)]
      · rfl

theorem threshold_loop_run_trace (s : ℚ) (t : List ℚ) (u : Nat) :
    ∀ (fuel i : Nat) (days : Int × Int) (j : Nat) (p : Nat × Bool),
      (threshold_loop_run s t u fuel i days).2[j]? = some p →
        p.1 = i + j ∧ p.1 ≤ u ∧ (p.2 = true → p.1 < t.length) := by
  intro fuel
  induction fuel with
  | zero => intro i days j p h; simp [threshold_loop_run] at h
  | succ fuel ih =>
    intro i days j p h
    simp only [threshold_loop_run] at h
    split at h
    · rename_i hiu
      split at h
      · cases j with
        | zero =>
          simp at h
          subst h
          exact ⟨rfl, hiu, fun hc => by cases hc⟩
        | succ j => simp at h
      · rename_i hil
        split at h
        · cases j with
          | zero =>
            simp at h
            subst h
            exact ⟨rfl, hiu, fun _ => by omega⟩
          | succ j => simp at h
        · cases j with
          | zero =>
            simp at h
            subst h
            exact ⟨rfl, hiu, fun _ => by omega⟩
          | succ j =>
            rw [List.getElem?_cons_succ] at h
            obtain ⟨h1, h2, h3⟩ := ih (i + 1) days j p h
            exact ⟨by omega, h2, h3⟩
    · simp at h

end ThresholdRun

namespace Analytical

/-- C18. For every thresholds list, bounds `m = min_days_predicted` and `u` (the model's
maximum or an override digit) and prior value, the bucketing loop terminates and is
memory-safe: run with any positive fuel above `length - m` it gives the same result and
the same iterations;
its `j`-th iteration is at index `m + j`, within the bound `u`, and it reads `thresholds`
only at an index strictly below the length of the list; it executes at most `u + 1 - m`
iterations (`u - m + 1` when `m <= u`, none otherwise). -/
theorem threshold_loop_reads_in_bounds (s : ℚ) (t : List ℚ) (m u : Nat)
    (days : Int × Int) :
    (threshold_loop_run s t u (t.length + 1) m days).1 = threshold_bucket s t m u days ∧
    (∀ fuel : Nat, 0 < fuel → t.length < fuel + m →
      threshold_loop_run s t u fuel m days =
        threshold_loop_run s t u (t.length + 1) m days) ∧
    (∀ (j : Nat) (p : Nat × Bool),
      (threshold_loop_run s t u (t.length + 1) m days).2[j]? = some p →
        p.1 = m + j ∧ p.1 ≤ u ∧ (p.2 = true → p.1 < t.length)) ∧
    (threshold_loop_run s t u (t.length + 1) m days).2.length ≤ u + 1 - m ∧
    (m ≤ u →
      (((threshold_loop_run s t u (t.length + 1) m days).2.length : Nat) : Int) ≤
        (u : Int) - (m : Int) + 1) := by
  have htr := threshold_loop_run_trace s t u (t.length + 1) m days
  have hlen : (threshold_loop_run s t u (t.length + 1) m days).2.length ≤ u + 1 - m := by
    by_contra hcon
    have hlt : u + 1 - m < (threshold_loop_run s t u (t.length + 1) m days).2.length := by
      omega
    obtain ⟨h1, h2, _⟩ := htr (u + 1 - m) _ (List.getElem?_eq_getElem hlt)
    omega
  refine ⟨?_, ?_, htr, hlen, ?_⟩
  · rw [threshold_loop_run_fst]
    rfl
  · intro fuel h0 hf
    exact threshold_loop_run_fuel s t u fuel (t.length + 1) m days h0 (by omega) hf
      (by omega)
  · intro hmu
    omega

/-- The iterations of the loop at concrete inputs: with 4 thresholds and range `[2, 7]` a
score above every threshold reads indices 2 and 3 and stops at index 4 without reading;
with an empty list the only iteration reads nothing. -/
theorem threshold_loop_run_samples :
    threshold_loop_run 30 [0, 0, 10, 20] 7 5 2 (-1, -1) =
        ((-1, -1), [(2, true), (3, true), (4, false)]) ∧
      threshold_loop_run 30 [] 7 1 2 (-1, -1) = ((-1, -1), [(2, false)]) := by
  decide

end Analytical

section ZipTranslation

open Analytical

theorem wrap16_of_range (x : Int) (h0 : -32768 ≤ x) (h1 : x < 32768) : wrap16 x = x := by
  unfold wrap16 wrap
  norm_num
  omega

theorem translate_to_zip_other (c : country) (z cid : Int) (h1 : cid ≠ c.united_states)
    (h2 : cid ≠ c.germany) (h3 : cid ≠ c.australia) :
    translate_to_zip c z cid = wrap16 z := by
  simp [translate_to_zip, h1, h2, h3]

theorem translate_to_zip_us_germany (c : country) (z cid : Int)
    (h : cid = c.united_states ∨ cid = c.germany) :
    translate_to_zip c z cid = wrap16 (z.tdiv 100) := by
  simp [translate_to_zip, h]

theorem translate_to_zip_australia (c : country) (z cid : Int) (h1 : cid ≠ c.united_states)
    (h2 : cid ≠ c.germany) (h3 : cid = c.australia) :
    translate_to_zip c z cid = wrap16 z := by
  have h1' : ¬ c.australia = c.united_states := by rw [← h3]; exact h1
  have h2' : ¬ c.australia = c.germany := by rw [← h3]; exact h2
  simp [translate_to_zip, h3, h1', h2']

end ZipTranslation

namespace Analytical

/-- C19. Evaluation of `translate_to_zip` at the five-digit destination value 12345 for
the United Kingdom, a country that is neither the US, Germany nor Australia: the value is
at least 10000, the claimed result is `12345 / 100 = 123`, and the code returns 12345
unchanged, because its third branch compares the local result variable (still 0) with
10000 rather than the argument. -/
theorem translate_to_zip_keeps_five_digit_code :
    sample_country.united_kingdom ≠ sample_country.united_states ∧
      sample_country.united_kingdom ≠ sample_country.germany ∧
      sample_country.united_kingdom ≠ sample_country.australia ∧
      (10000 : Int) ≤ 12345 ∧ (12345 : Int) / 100 = 123 ∧
      translate_to_zip sample_country 12345 sample_country.united_kingdom = 12345 := by
  decide

end Analytical

section FromZip

open Analytical

theorem translate_from_zip_loop_eq_fold (c : country) (fc : Int) :
    ∀ (l : List Char) (i : Nat) (acc : Int), i ≤ from_zip_width c fc →
      translate_from_zip_loop c fc l i acc =
        ((l.take (from_zip_width c fc - i)).takeWhile spec_is_digit).foldl
          (fun acc ch => acc * 10 + (ch.toNat : Int) - ('0'.toNat : Int)) acc := by
  intro l
  induction l with
  | nil => intro i acc _; simp [translate_from_zip_loop]
  | cons ch rest ih =>
    intro i acc hi
    have hw : from_zip_width c fc = 3 ∨ from_zip_width c fc = 4 := by
      unfold from_zip_width
      split
      · exact Or.inr rfl
      · exact Or.inl rfl
    have hw3 : fc ≠ c.australia → from_zip_width c fc = 3 := by
      intro h
      unfold from_zip_width
      rw [if_neg h]
    have hw4 : fc = c.australia → from_zip_width c fc = 4 := by
      intro h
      unfold from_zip_width
      rw [if_pos h]
    rcases Nat.lt_or_ge i (from_zip_width c fc) with hlt | hge
    · obtain ⟨k, hk⟩ : ∃ k, from_zip_width c fc - i = k + 1 := ⟨from_zip_width c fc - i - 1, by omega⟩
      have hk' : from_zip_width c fc - (i + 1) = k := by omega
      have hi4 : i < 4 := by omega
      have hthird : ¬ (fc ≠ c.australia ∧ i ≥ 3) := by
        rintro ⟨h1, h2⟩
        have := hw3 h1
        omega
      rw [hk, List.take_succ_cons, List.takeWhile_cons]
      simp only [translate_from_zip_loop, if_pos hi4]
      by_cases hd : spec_is_digit ch = true
      · have hd' : '0'.toNat ≤ ch.toNat ∧ ch.toNat ≤ '9'.toNat := by
          simpa [spec_is_digit] using hd
        have hcond : ¬ (ch.toNat < '0'.toNat ∨ ch.toNat > '9'.toNat ∨
            (fc ≠ c.australia ∧ i ≥ 3)) := by
          rintro (h | h | h)
          · omega
          · omega
          · exact hthird h
        rw [if_neg hcond, if_pos hd, List.foldl_cons, ih (i + 1) _ (by omega), hk']
      · have hd' : ¬ ('0'.toNat ≤ ch.toNat ∧ ch.toNat ≤ '9'.toNat) := by
          simpa [spec_is_digit] using hd
        have hcond : ch.toNat < '0'.toNat ∨ ch.toNat > '9'.toNat ∨
            (fc ≠ c.australia ∧ i ≥ 3) := by
          by_cases h0 : ch.toNat < '0'.toNat
          · exact Or.inl h0
          · refine Or.inr (Or.inl ?_)
            by_contra h9
            exact hd' ⟨by omega, by omega⟩
        rw [if_pos hcond, if_neg hd]
        rfl
    · have hz : from_zip_width c fc - i = 0 := by omega
      rw [hz]
      simp only [List.take_zero, List.takeWhile_nil, List.foldl_nil, translate_from_zip_loop]
      split
      · rename_i hi4
        have hne : fc ≠ c.australia := by
          intro h
          have := hw4 h
          omega
        have h3 := hw3 hne
        rw [if_pos (Or.inr (Or.inr ⟨hne, by omega⟩))]
      · rfl

theorem translate_from_zip_loop_bound (c : country) (fc : Int) :
    ∀ (l : List Char) (i : Nat) (acc : Int), 0 ≤ acc → i ≤ 4 →
      0 ≤ translate_from_zip_loop c fc l i acc ∧
        translate_from_zip_loop c fc l i acc < (acc + 1) * 10 ^ (4 - i) := by
  intro l
  induction l with
  | nil =>
    intro i acc h0 _
    simp only [translate_from_zip_loop]
    refine ⟨h0, ?_⟩
    have : (1 : Int) ≤ 10 ^ (4 - i) := one_le_pow₀ (by norm_num)
    nlinarith
  | cons ch rest ih =>
    intro i acc h0 hi
    have hpow : (1 : Int) ≤ 10 ^ (4 - i) := one_le_pow₀ (by norm_num)
    have hacc : 0 ≤ acc ∧ acc < (acc + 1) * 10 ^ (4 - i) := ⟨h0, by nlinarith⟩
    simp only [translate_from_zip_loop]
    split
    · rename_i hi4
      split
      · exact hacc
      · rename_i hcond
        have hd : '0'.toNat ≤ ch.toNat ∧ ch.toNat ≤ '9'.toNat := by
          constructor
          · by_contra h
            exact hcond (Or.inl (by omega))
          · by_contra h
            exact hcond (Or.inr (Or.inl (by omega)))
        have h48 : '0'.toNat = 48 := by decide
        have h57 : '9'.toNat = 57 := by decide
        rw [h48, h57] at hd
        have hacc' : 0 ≤ acc * 10 + (ch.toNat : Int) - (('0'.toNat : Nat) : Int) := by
          rw [h48]
          push_cast
          omega
        obtain ⟨hlo, hhi⟩ := ih (i + 1) _ hacc' (by omega)
        refine ⟨hlo, lt_of_lt_of_le hhi ?_⟩
        have hsplit : 4 - i = (4 - (i + 1)) + 1 := by omega
        rw [hsplit, pow_succ, ← mul_assoc]
        have hp : (0 : Int) ≤ 10 ^ (4 - (i + 1)) := by positivity
        have hstep : acc * 10 + (ch.toNat : Int) - (('0'.toNat : Nat) : Int) + 1 ≤
            (acc + 1) * 10 := by
          rw [h48]
          push_cast
          omega
        calc (acc * 10 + (ch.toNat : Int) - (('0'.toNat : Nat) : Int) + 1) *
              10 ^ (4 - (i + 1))
            ≤ ((acc + 1) * 10) * 10 ^ (4 - (i + 1)) := mul_le_mul_of_nonneg_right hstep hp
          _ = (acc + 1) * 10 ^ (4 - (i + 1)) * 10 := by ring
    · exact hacc

end FromZip

namespace Analytical

/-- C20, amended. For every non-empty raw origin code and every origin country,
`translate_from_zip` returns the decimal value of the longest run of leading digit
characters within the first 4 characters of the code when the origin is Australia and
within the first 3 characters for every other origin; it returns 0 when the first
character is not a digit. -/
theorem translate_from_zip_reads_leading_digits (c : country) (blob : List Char)
    (rest : List (List Char)) (from_country_id : Int) (hne : blob ≠ []) :
    translate_from_zip c (blob :: rest) from_country_id =
        spec_decimal_value
          (spec_leading_digits (if from_country_id = c.australia then 4 else 3) blob) ∧
      (∀ (ch : Char) (tail : List Char), blob = ch :: tail → spec_is_digit ch = false →
        translate_from_zip c (blob :: rest) from_country_id = 0) := by
  have hlen : blob.length > 0 := List.length_pos.mpr hne
  have hb := translate_from_zip_loop_bound c from_country_id blob 0 0 le_rfl (by omega)
  have hval : translate_from_zip c (blob :: rest) from_country_id =
      spec_decimal_value
        (spec_leading_digits (if from_country_id = c.australia then 4 else 3) blob) := by
    have hfold := translate_from_zip_loop_eq_fold c from_country_id blob 0 0 (by omega)
    simp only [translate_from_zip, if_pos hlen]
    rw [wrap16_of_range _ (by omega) (by norm_num at hb; omega), hfold]
    rfl
  refine ⟨hval, ?_⟩
  intro ch tail hblob hd
  rw [hval, hblob]
  have hpos : ∀ n : Nat, 0 < n → spec_leading_digits n (ch :: tail) = [] := by
    intro n hn
    obtain ⟨k, rfl⟩ : ∃ k, n = k + 1 := ⟨n - 1, by omega⟩
    simp [spec_leading_digits, List.take_succ_cons, List.takeWhile_cons, hd]
  rw [hpos _ (by split <;> omega)]
  rfl

/-- C20, witness: the US origin code "95126". -/
theorem translate_from_zip_reads_leading_digits_witness :
    ['9', '5', '1', '2', '6'] ≠ [] ∧
      translate_from_zip sample_country [['9', '5', '1', '2', '6']]
          sample_country.united_states =
        spec_decimal_value
          (spec_leading_digits
            (if sample_country.united_states = sample_country.australia then 4 else 3)
            ['9', '5', '1', '2', '6']) :=
  ⟨by decide,
    (translate_from_zip_reads_leading_digits sample_country ['9', '5', '1', '2', '6'] []
      sample_country.united_states (by decide)).1⟩

/-- C20, counterexample to the claim as stated: for the US origin code "95126" the longest
run of leading digits within the first 4 characters is "9512", of value 9512, while
`translate_from_zip` returns 951. -/
theorem translate_from_zip_reads_three_characters :
    sample_country.united_states ≠ sample_country.australia ∧
      spec_decimal_value (spec_leading_digits 4 ['9', '5', '1', '2', '6']) = 9512 ∧
      translate_from_zip sample_country [['9', '5', '1', '2', '6']]
          sample_country.united_states = 951 := by
  decide

end Analytical

namespace Analytical

/-- C16 as amended, witness: for the model with `max_days_predicted = 7` the string `D9`
gives the bound 9 and the empty string gives the bound 7. -/
theorem override_digit_replaces_max_days_witness :
    max_model_days late_threshold_model ['D', '9'] = '9'.toNat - '0'.toNat ∧
      max_model_days late_threshold_model [] = late_threshold_model.max_days_predicted :=
  ⟨(override_digit_replaces_max_days late_threshold_model).1 '9' (by decide) (by decide),
    (override_digit_replaces_max_days late_threshold_model).2.1 [] (by simp)⟩

/-- C18, witness: with thresholds `0, 0, 10, 20`, range `[2, 7]` and score 30 the loop
executes at most `7 + 1 - 2 = 6` iterations, and fuel 9 gives the run of fuel 5. -/
theorem threshold_loop_reads_in_bounds_witness :
    (threshold_loop_run 30 [0, 0, 10, 20] 7 5 2 (-1, -1)).2.length ≤ 7 + 1 - 2 ∧
      threshold_loop_run 30 [0, 0, 10, 20] 7 9 2 (-1, -1) =
        threshold_loop_run 30 [0, 0, 10, 20] 7 5 2 (-1, -1) :=
  ⟨(threshold_loop_reads_in_bounds 30 [0, 0, 10, 20] 2 7 (-1, -1)).2.2.2.1,
    (threshold_loop_reads_in_bounds 30 [0, 0, 10, 20] 2 7 (-1, -1)).2.1 9 (by decide)
      (by decide)⟩

end Analytical

/-! ## `translate_from_zip_big` and the sentinels of the origin code -/

section FromZipBig

theorem translate_from_zip_big_loop_same :
    ∀ (l : List Char) (i : Nat) (acc : Int),
      Analytical.translate_from_zip_big_loop l i acc =
        Native.translate_from_zip_big_loop l i acc := by
  intro l
  induction l with
  | nil => intro i acc; rfl
  | cons ch rest ih =>
    intro i acc
    simp only [Analytical.translate_from_zip_big_loop, Native.translate_from_zip_big_loop, ih]

theorem translate_from_zip_big_same (s : List (List Char)) :
    Analytical.translate_from_zip_big s = Native.translate_from_zip_big s := by
  cases s with
  | nil => rfl
  | cons blob rest =>
    simp only [Analytical.translate_from_zip_big, Native.translate_from_zip_big,
      translate_from_zip_big_loop_same]

theorem translate_from_zip_big_loop_eq_fold :
    ∀ (l : List Char) (i : Nat) (acc : Int), i ≤ 9 →
      Native.translate_from_zip_big_loop l i acc =
        ((l.take (9 - i)).takeWhile spec_is_digit).foldl
          (fun acc ch => acc * 10 + (ch.toNat : Int) - ('0'.toNat : Int)) acc := by
  intro l
  induction l with
  | nil => intro i acc _; simp [Native.translate_from_zip_big_loop]
  | cons ch rest ih =>
    intro i acc hi
    rcases Nat.lt_or_ge i 9 with hlt | hge
    · obtain ⟨k, hk⟩ : ∃ k, 9 - i = k + 1 := ⟨9 - i - 1, by omega⟩
      have hk' : 9 - (i + 1) = k := by omega
      rw [hk, List.take_succ_cons, List.takeWhile_cons]
      simp only [Native.translate_from_zip_big_loop, if_pos hlt]
      by_cases hd : spec_is_digit ch = true
      · have hd' : '0'.toNat ≤ ch.toNat ∧ ch.toNat ≤ '9'.toNat := by
          simpa [spec_is_digit] using hd
        have hcond : ¬ (ch.toNat < '0'.toNat ∨ ch.toNat > '9'.toNat) := by
          rintro (h | h) <;> omega
        rw [if_neg hcond, if_pos hd, List.foldl_cons, ih (i + 1) _ (by omega), hk']
      · have hd' : ¬ ('0'.toNat ≤ ch.toNat ∧ ch.toNat ≤ '9'.toNat) := by
          simpa [spec_is_digit] using hd
        have hcond : ch.toNat < '0'.toNat ∨ ch.toNat > '9'.toNat := by
          by_cases h0 : ch.toNat < '0'.toNat
          · exact Or.inl h0
          · refine Or.inr ?_
            by_contra h9
            exact hd' ⟨by omega, by omega⟩
        rw [if_pos hcond, if_neg hd]
        rfl
    · have hz : 9 - i = 0 := by omega
      have hi9 : ¬ i < 9 := by omega
      rw [hz]
      simp only [List.take_zero, List.takeWhile_nil, List.foldl_nil,
        Native.translate_from_zip_big_loop, if_neg hi9]

theorem translate_from_zip_big_loop_bound :
    ∀ (l : List Char) (i : Nat) (acc : Int), 0 ≤ acc → i ≤ 9 →
      acc ≤ Native.translate_from_zip_big_loop l i acc ∧
        Native.translate_from_zip_big_loop l i acc < (acc + 1) * 10 ^ (9 - i) := by
  intro l
  induction l with
  | nil =>
    intro i acc h0 _
    simp only [Native.translate_from_zip_big_loop]
    refine ⟨le_refl _, ?_⟩
    have : (1 : Int) ≤ 10 ^ (9 - i) := one_le_pow₀ (by norm_num)
    nlinarith
  | cons ch rest ih =>
    intro i acc h0 hi
    have hpow : (1 : Int) ≤ 10 ^ (9 - i) := one_le_pow₀ (by norm_num)
    have hacc : acc ≤ acc ∧ acc < (acc + 1) * 10 ^ (9 - i) := ⟨le_refl _, by nlinarith⟩
    simp only [Native.translate_from_zip_big_loop]
    split
    · rename_i hi9
      split
      · exact hacc
      · rename_i hcond
        have hd : '0'.toNat ≤ ch.toNat ∧ ch.toNat ≤ '9'.toNat := by
          constructor
          · by_contra h
            exact hcond (Or.inl (by omega))
          · by_contra h
            exact hcond (Or.inr (by omega))
        have h48 : '0'.toNat = 48 := by decide
        have h57 : '9'.toNat = 57 := by decide
        rw [h48, h57] at hd
        have hacc' : acc ≤ acc * 10 + (ch.toNat : Int) - (('0'.toNat : Nat) : Int) := by
          rw [h48]
          push_cast
          omega
        obtain ⟨hlo, hhi⟩ := ih (i + 1) _ (le_trans h0 hacc') (by omega)
        refine ⟨le_trans hacc' hlo, lt_of_lt_of_le hhi ?_⟩
        have hsplit : 9 - i = (9 - (i + 1)) + 1 := by omega
        rw [hsplit, pow_succ, ← mul_assoc]
        have hp : (0 : Int) ≤ 10 ^ (9 - (i + 1)) := by positivity
        have hstep : acc * 10 + (ch.toNat : Int) - (('0'.toNat : Nat) : Int) + 1 ≤
            (acc + 1) * 10 := by
          rw [h48]
          push_cast
          omega
        calc (acc * 10 + (ch.toNat : Int) - (('0'.toNat : Nat) : Int) + 1) *
              10 ^ (9 - (i + 1))
            ≤ ((acc + 1) * 10) * 10 ^ (9 - (i + 1)) := mul_le_mul_of_nonneg_right hstep hp
          _ = (acc + 1) * 10 ^ (9 - (i + 1)) * 10 := by ring
    · exact hacc

theorem translate_from_zip_big_values_range :
    ∀ (l : List Char) (i : Nat) (acc : Int), 0 ≤ acc → acc < 10 ^ i →
      ∀ v ∈ translate_from_zip_big_values l i acc, 0 ≤ v ∧ v < 2 ^ 31 := by
  intro l
  induction l with
  | nil => intro i acc _ _ v hv; simp [translate_from_zip_big_values] at hv
  | cons ch rest ih =>
    intro i acc h0 hacc v hv
    simp only [translate_from_zip_big_values] at hv
    split at hv
    · rename_i hi9
      split at hv
      · simp at hv
      · rename_i hcond
        have h48 : '0'.toNat = 48 := by decide
        have h57 : '9'.toNat = 57 := by decide
        have hd : 48 ≤ ch.toNat ∧ ch.toNat ≤ 57 := by
          rw [h48, h57] at hcond
          constructor
          · by_contra h
            exact hcond (Or.inl (by omega))
          · by_contra h
            exact hcond (Or.inr (by omega))
        have hpow : (10 : Int) ^ i ≤ 10 ^ 8 :=
          pow_le_pow_right₀ (by norm_num) (by omega)
        have hpow8 : (10 : Int) ^ 8 = 100000000 := by norm_num
        have hnext : acc * 10 + (ch.toNat : Int) - (('0'.toNat : Nat) : Int) < 10 ^ (i + 1) := by
          rw [h48, pow_succ]
          push_cast
          omega
        have hnext0 : 0 ≤ acc * 10 + (ch.toNat : Int) - (('0'.toNat : Nat) : Int) := by
          rw [h48]
          push_cast
          omega
        simp only [List.mem_cons] at hv
        rcases hv with hv | hv | hv | hv
        · subst hv
          norm_num
          omega
        · subst hv
          norm_num
          omega
        · subst hv
          rw [h48]
          push_cast
          norm_num
          omega
        · exact ih (i + 1) _ hnext0 hnext v hv
    · simp at hv

end FromZipBig

section FromZipSentinels

theorem decimal_fold_nonneg :
    ∀ (d : List Char) (acc : Int), 0 ≤ acc → (∀ ch ∈ d, spec_is_digit ch = true) →
      acc ≤ d.foldl (fun acc ch => acc * 10 + (ch.toNat : Int) - ('0'.toNat : Int)) acc := by
  intro d
  induction d with
  | nil => intro acc _ _; exact le_refl _
  | cons ch rest ih =>
    intro acc h0 hd
    have hch : '0'.toNat ≤ ch.toNat ∧ ch.toNat ≤ '9'.toNat := by
      simpa [spec_is_digit] using hd ch (List.mem_cons_self _ _)
    have h48 : '0'.toNat = 48 := by decide
    rw [h48] at hch
    have hstep : acc ≤ acc * 10 + (ch.toNat : Int) - (('0'.toNat : Nat) : Int) := by
      rw [h48]
      push_cast
      omega
    rw [List.foldl_cons]
    exact le_trans hstep
      (ih _ (le_trans h0 hstep) (fun x hx => hd x (List.mem_cons_of_mem _ hx)))

theorem decimal_fold_eq_zero_iff :
    ∀ (d : List Char) (acc : Int), 0 ≤ acc → (∀ ch ∈ d, spec_is_digit ch = true) →
      (d.foldl (fun acc ch => acc * 10 + (ch.toNat : Int) - ('0'.toNat : Int)) acc = 0 ↔
        acc = 0 ∧ ∀ ch ∈ d, ch = '0') := by
  intro d
  induction d with
  | nil => intro acc _ _; simp
  | cons ch rest ih =>
    intro acc h0 hd
    have hch : '0'.toNat ≤ ch.toNat ∧ ch.toNat ≤ '9'.toNat := by
      simpa [spec_is_digit] using hd ch (List.mem_cons_self _ _)
    have h48 : '0'.toNat = 48 := by decide
    rw [h48] at hch
    have hstep0 : 0 ≤ acc * 10 + (ch.toNat : Int) - (('0'.toNat : Nat) : Int) := by
      rw [h48]
      push_cast
      omega
    rw [List.foldl_cons, ih _ hstep0 (fun x hx => hd x (List.mem_cons_of_mem _ hx))]
    constructor
    · rintro ⟨h1, h2⟩
      rw [h48] at h1
      push_cast at h1
      have hacc : acc = 0 := by omega
      have hc : ch.toNat = 48 := by omega
      have hc0 : ch = '0' := by
        apply Char.ext
        apply UInt32.ext
        exact hc
      refine ⟨hacc, ?_⟩
      intro x hx
      rcases List.mem_cons.mp hx with h | h
      · rw [h]; exact hc0
      · exact h2 x h
    · rintro ⟨h1, h2⟩
      have hc0 : ch = '0' := h2 ch (List.mem_cons_self _ _)
      refine ⟨?_, fun x hx => h2 x (List.mem_cons_of_mem _ hx)⟩
      rw [h1, hc0]
      decide

theorem spec_leading_digits_are_digits (n : Nat) (code : List Char) :
    ∀ ch ∈ spec_leading_digits n code, spec_is_digit ch = true := by
  intro ch hch
  exact (List.mem_takeWhile_imp hch)

theorem translate_from_zip_big_eq_spec (s : List (List Char)) :
    Native.translate_from_zip_big s =
      spec_decimal_value (spec_leading_digits 9 (s.headD [])) := by
  cases s with
  | nil => rfl
  | cons blob rest =>
    cases blob with
    | nil => rfl
    | cons ch tail =>
      have hfold := translate_from_zip_big_loop_eq_fold (ch :: tail) 0 0 (by omega)
      simp only [Native.translate_from_zip_big, List.length_cons, gt_iff_lt,
        Nat.zero_lt_succ, if_true]
      rw [hfold]
      rfl

theorem translate_from_zip_big_range (s : List (List Char)) :
    0 ≤ Native.translate_from_zip_big s ∧ Native.translate_from_zip_big s ≤ 999999999 := by
  cases s with
  | nil => exact ⟨by decide, by decide⟩
  | cons blob rest =>
    have hb := translate_from_zip_big_loop_bound blob 0 0 le_rfl (by omega)
    simp only [Native.translate_from_zip_big]
    split
    · norm_num at hb
      omega
    · exact ⟨by decide, by decide⟩

theorem truncate_zip_iterate (b : Int) (hb : 0 ≤ b) :
    ∀ (n : Nat) (z : Int), (truncate_zip b)^[n] z = z.tdiv (b ^ n) := by
  intro n
  induction n with
  | zero => intro z; simp
  | succ n ih =>
    intro z
    rw [Function.iterate_succ_apply, ih, tdiv_pow_succ z b hb n]
    rfl

theorem truncate_zip_iterate_eq_zero (b : Int) (hb : 10 ≤ b) (k n : Nat) (hkn : k ≤ n)
    (z : Int) (h0 : 0 ≤ z) (hz : z < 10 ^ k) : (truncate_zip b)^[n] z = 0 := by
  rw [truncate_zip_iterate b (by omega)]
  apply Int.tdiv_eq_zero_of_lt h0
  have h1 : (10 : Int) ^ k ≤ 10 ^ n := pow_le_pow_right₀ (by norm_num) hkn
  have h2 : (10 : Int) ^ n ≤ b ^ n := pow_le_pow_left₀ (by norm_num) hb n
  omega

end FromZipSentinels

namespace Native

/-- C21. For every raw origin code, `translate_from_zip_big` (both copies, of
`nativeCodeRev.cpp` and of `analytical.cpp`) returns the decimal value of the longest run of
leading digit characters within the first 9 characters (of the first blob; 0 for a missing
code); the result lies in `[0, 999999999]`, and every value the accumulator expression
takes lies in `[0, 2^31)`, so the 32-bit accumulator never overflows. -/
theorem translate_from_zip_big_reads_leading_digits (from_zip_string : List (List Char)) :
    translate_from_zip_big from_zip_string =
        spec_decimal_value (spec_leading_digits 9 (from_zip_string.headD [])) ∧
      Analytical.translate_from_zip_big from_zip_string =
        translate_from_zip_big from_zip_string ∧
      0 ≤ translate_from_zip_big from_zip_string ∧
      translate_from_zip_big from_zip_string ≤ 999999999 ∧
      ∀ v ∈ translate_from_zip_big_values (from_zip_string.headD []) 0 0,
        0 ≤ v ∧ v < 2 ^ 31 :=
  ⟨translate_from_zip_big_eq_spec from_zip_string,
    translate_from_zip_big_same from_zip_string,
    (translate_from_zip_big_range from_zip_string).1,
    (translate_from_zip_big_range from_zip_string).2,
    translate_from_zip_big_values_range _ 0 0 le_rfl (by norm_num)⟩

/-- C21, witness: the ten-digit code "1234567890" gives 123456789 and the last value of the
accumulator expression is within 32 bits. -/
theorem translate_from_zip_big_reads_leading_digits_witness :
    translate_from_zip_big [['1', '2', '3', '4', '5', '6', '7', '8', '9', '0']] ≤ 999999999 ∧
      (0 ≤ (123456789 : Int) ∧ (123456789 : Int) < 2 ^ 31) :=
  ⟨(translate_from_zip_big_reads_leading_digits
      [['1', '2', '3', '4', '5', '6', '7', '8', '9', '0']]).2.2.2.1,
    (translate_from_zip_big_reads_leading_digits
      [['1', '2', '3', '4', '5', '6', '7', '8', '9', '0']]).2.2.2.2 123456789 (by decide)⟩

/-- Values of `translate_from_zip_big` on sample codes: a ten-digit code, a ZIP+4 code, a
code that starts with a letter, an empty blob and a missing code. -/
theorem translate_from_zip_big_samples :
    translate_from_zip_big [['1', '2', '3', '4', '5', '6', '7', '8', '9', '0']] = 123456789 ∧
      translate_from_zip_big [['9', '5', '1', '2', '6', '-', '1', '2', '3', '4']] = 95126 ∧
      translate_from_zip_big [['S', 'W', '1', 'A']] = 0 ∧
      translate_from_zip_big [[]] = 0 ∧ translate_from_zip_big [] = 0 := by
  decide

end Native

namespace Analytical

/-- C22. `translate_from_zip` returns the sentinel -1 if and only if the origin postal code
is missing (empty vector) or empty (first blob of size 0); for every non-empty code,
whatever its characters, the result lies in `[0, 9999]` and equals the 32-bit accumulator,
so it fits the 16-bit return type. -/
theorem translate_from_zip_sentinel (c : country) (from_zip_string : List (List Char))
    (from_country_id : Int) :
    (translate_from_zip c from_zip_string from_country_id = -1 ↔
      (from_zip_string = [] ∨ ∃ rest, from_zip_string = [] :: rest)) ∧
    (∀ (blob : List Char) (rest : List (List Char)), from_zip_string = blob :: rest →
      blob ≠ [] →
      0 ≤ translate_from_zip c from_zip_string from_country_id ∧
      translate_from_zip c from_zip_string from_country_id ≤ 9999 ∧
      translate_from_zip c from_zip_string from_country_id =
        translate_from_zip_loop c from_country_id blob 0 0 ∧
      -2 ^ 15 ≤ translate_from_zip_loop c from_country_id blob 0 0 ∧
      translate_from_zip_loop c from_country_id blob 0 0 < 2 ^ 15) := by
  have hm1 : wrap16 (-1) = -1 := by decide
  have hne : ∀ (blob : List Char) (rest : List (List Char)), blob ≠ [] →
      translate_from_zip c (blob :: rest) from_country_id =
        translate_from_zip_loop c from_country_id blob 0 0 ∧
      0 ≤ translate_from_zip_loop c from_country_id blob 0 0 ∧
      translate_from_zip_loop c from_country_id blob 0 0 ≤ 9999 := by
    intro blob rest hb
    have hlen : blob.length > 0 := List.length_pos.mpr hb
    have hbd := translate_from_zip_loop_bound c from_country_id blob 0 0 le_rfl (by omega)
    norm_num at hbd
    simp only [translate_from_zip, if_pos hlen]
    rw [wrap16_of_range _ (by omega) (by omega)]
    exact ⟨rfl, hbd.1, by omega⟩
  refine ⟨?_, ?_⟩
  · cases from_zip_string with
    | nil => simp [translate_from_zip, hm1]
    | cons blob rest =>
      cases blob with
      | nil => simp [translate_from_zip, hm1]
      | cons ch tail =>
        obtain ⟨h1, h2, _⟩ := hne (ch :: tail) rest (by simp)
        constructor
        · intro h
          rw [h1] at h
          omega
        · rintro (h | ⟨r, h⟩)
          · cases h
          · cases h
  · intro blob rest hs hb
    subst hs
    obtain ⟨h1, h2, h3⟩ := hne blob rest hb
    refine ⟨by rw [h1]; exact h2, by rw [h1]; exact h3, h1, by omega, by omega⟩

/-- C22, witness: the missing code gives -1, and the code "9512" from Australia (country 15)
gives a value in `[0, 9999]`. -/
theorem translate_from_zip_sentinel_witness :
    translate_from_zip sample_country [] 15 = -1 ∧
      (0 ≤ translate_from_zip sample_country [['9', '5', '1', '2']] 15 ∧
        translate_from_zip sample_country [['9', '5', '1', '2']] 15 ≤ 9999) :=
  ⟨(translate_from_zip_sentinel sample_country [] 15).1.mpr (Or.inl rfl),
    ((translate_from_zip_sentinel sample_country [['9', '5', '1', '2']] 15).2
      ['9', '5', '1', '2'] [] rfl (by decide)).1,
    ((translate_from_zip_sentinel sample_country [['9', '5', '1', '2']] 15).2
      ['9', '5', '1', '2'] [] rfl (by decide)).2.1⟩

end Analytical

namespace Native

/-- C23 as amended. `translate_from_zip_big` yields 0 for a missing or empty origin postal
code, and 0 is not distinguishable from every non-empty code: a non-empty code yields 0
exactly when its run of leading digits within the first 9 characters is empty or made of
`'0'` characters only; every other non-empty code yields a positive value. -/
theorem translate_from_zip_big_zero_iff (from_zip_string : List (List Char)) :
    ((from_zip_string = [] ∨ ∃ rest, from_zip_string = [] :: rest) →
      translate_from_zip_big from_zip_string = 0) ∧
    (∀ (blob : List Char) (rest : List (List Char)), from_zip_string = blob :: rest →
      blob ≠ [] →
      (translate_from_zip_big from_zip_string = 0 ↔
        ∀ ch ∈ spec_leading_digits 9 blob, ch = '0') ∧
      ((∃ ch ∈ spec_leading_digits 9 blob, ch ≠ '0') →
        0 < translate_from_zip_big from_zip_string)) := by
  refine ⟨?_, ?_⟩
  · rintro (h | ⟨rest, h⟩) <;> subst h <;> rfl
  · intro blob rest hs _
    subst hs
    have hiff : translate_from_zip_big (blob :: rest) = 0 ↔
        ∀ ch ∈ spec_leading_digits 9 blob, ch = '0' := by
      rw [translate_from_zip_big_eq_spec]
      unfold spec_decimal_value
      rw [decimal_fold_eq_zero_iff _ 0 le_rfl (spec_leading_digits_are_digits 9 _)]
      simp
    refine ⟨hiff, ?_⟩
    rintro ⟨ch, hch, hne⟩
    have h0 := (translate_from_zip_big_range (blob :: rest)).1
    have hnz : translate_from_zip_big (blob :: rest) ≠ 0 := by
      intro h
      exact hne (hiff.mp h ch hch)
    omega

/-- C23 as amended, witness: the code "SW1A" has no leading digit and yields 0. -/
theorem translate_from_zip_big_zero_iff_witness :
    translate_from_zip_big [['S', 'W', '1', 'A']] = 0 :=
  ((translate_from_zip_big_zero_iff [['S', 'W', '1', 'A']]).2 ['S', 'W', '1', 'A'] [] rfl
    (by decide)).1.mpr (by decide)

/-- C23, counterexample. The value returned for a missing and for an empty origin code is 0,
and the non-empty codes "SW1A", "0" and "00000" return 0 as well. -/
theorem translate_from_zip_big_zero_is_shared :
    translate_from_zip_big [] = 0 ∧ translate_from_zip_big [[]] = 0 ∧
      ['S', 'W', '1', 'A'] ≠ [] ∧ translate_from_zip_big [['S', 'W', '1', 'A']] = 0 ∧
      ['0'] ≠ [] ∧ translate_from_zip_big [['0']] = 0 ∧
      translate_from_zip_big [['0', '0', '0', '0', '0']] = 0 := by
  decide

end Native

namespace Analytical

/-- C24. For every raw origin postal code and either truncation base (10 or 36, the two
values of `ctry_base`): the non-sentinel value produced by `translate_from_zip` is 0 after
4 truncations and after any larger number of them, and the value produced by
`translate_from_zip_big` (either copy) is 0 after 9 truncations and after any larger number
of them. -/
theorem origin_code_truncations_reach_zero (c : country) (from_zip_string : List (List Char))
    (from_country_id : Int) (b : Int) (hb : b = 10 ∨ b = 36) :
    (translate_from_zip c from_zip_string from_country_id ≠ -1 →
      ∀ n : Nat, 4 ≤ n →
        (truncate_zip b)^[n] (translate_from_zip c from_zip_string from_country_id) = 0) ∧
    (∀ n : Nat, 9 ≤ n →
      (truncate_zip b)^[n] (translate_from_zip_big from_zip_string) = 0) ∧
    (∀ n : Nat, 9 ≤ n →
      (truncate_zip b)^[n] (Native.translate_from_zip_big from_zip_string) = 0) ∧
    (∀ country_id : Int,
      Native.ctry_base c country_id = 10 ∨ Native.ctry_base c country_id = 36) := by
  have hb10 : 10 ≤ b := by rcases hb with h | h <;> omega
  have hbig : ∀ n : Nat, 9 ≤ n →
      (truncate_zip b)^[n] (Native.translate_from_zip_big from_zip_string) = 0 := by
    intro n hn
    have hr := translate_from_zip_big_range from_zip_string
    exact truncate_zip_iterate_eq_zero b hb10 9 n hn _ hr.1 (by norm_num; omega)
  refine ⟨?_, ?_, hbig, ?_⟩
  · intro hns n hn
    cases hs : from_zip_string with
    | nil =>
      rw [hs] at hns
      exact absurd (by decide : wrap16 (-1) = -1) hns
    | cons blob rest =>
      cases hblob : blob with
      | nil =>
        rw [hs, hblob] at hns
        exact absurd (by decide : wrap16 (-1) = -1) hns
      | cons ch tail =>
        have hlen : (ch :: tail).length > 0 := by simp
        have hbd := translate_from_zip_loop_bound c from_country_id (ch :: tail) 0 0 le_rfl
          (by omega)
        norm_num at hbd
        have hval : translate_from_zip c ((ch :: tail) :: rest) from_country_id =
            translate_from_zip_loop c from_country_id (ch :: tail) 0 0 := by
          simp only [translate_from_zip, if_pos hlen]
          exact wrap16_of_range _ (by omega) (by omega)
        rw [hval]
        exact truncate_zip_iterate_eq_zero b hb10 4 n hn _ hbd.1 (by norm_num; omega)
  · intro n hn
    rw [translate_from_zip_big_same]
    exact hbig n hn
  · intro country_id
    unfold Native.ctry_base Native.uk_zip_base
    split
    · exact Or.inr rfl
    · exact Or.inl rfl

/-- C24, witness: the Australian code "9512" truncated 4 times in base 10, and the code
"1234567890" truncated 9 times in base 36. -/
theorem origin_code_truncations_reach_zero_witness :
    ((10 : Int) = 10 ∨ (10 : Int) = 36) ∧
      (truncate_zip 10)^[4] (translate_from_zip sample_country [['9', '5', '1', '2']] 15) = 0 ∧
      (truncate_zip 36)^[9]
        (translate_from_zip_big [['1', '2', '3', '4', '5', '6', '7', '8', '9', '0']]) = 0 :=
  ⟨Or.inl rfl,
    (origin_code_truncations_reach_zero sample_country [['9', '5', '1', '2']] 15 10
      (Or.inl rfl)).1 (by decide) 4 (le_refl 4),
    (origin_code_truncations_reach_zero sample_country
      [['1', '2', '3', '4', '5', '6', '7', '8', '9', '0']] 15 36 (Or.inr rfl)).2.1 9
      (le_refl 9)⟩

/-- Truncation counts on sample values: 9999 needs 4 truncations in base 10 and 3 in base
36; 999999999 needs 9 truncations in base 10 and 6 in base 36. -/
theorem truncate_zip_samples :
    (truncate_zip 10)^[3] 9999 = 9 ∧ (truncate_zip 10)^[4] 9999 = 0 ∧
      (truncate_zip 36)^[2] 9999 = 7 ∧ (truncate_zip 36)^[3] 9999 = 0 ∧
      (truncate_zip 10)^[8] 999999999 = 9 ∧ (truncate_zip 10)^[9] 999999999 = 0 ∧
      (truncate_zip 36)^[5] 999999999 = 16 ∧ (truncate_zip 36)^[6] 999999999 = 0 := by
  decide

end Analytical

/-! ## `convert_zip_to_hash`: base-36 keys and decimal keys -/

section ZipHash

open FileCreation

theorem wrap32_of_range (x : Int) (h0 : -2147483648 ≤ x) (h1 : x < 2147483648) :
    wrap32 x = x := by
  unfold wrap32 wrap
  norm_num
  omega

theorem power_uk_base (n : Nat) (hn : n ≤ 4) :
    power UK_ZIP_BASE (n : Int) = some (36 ^ n) := by
  interval_cases n <;> decide

theorem is_number_iff (str : List Char) :
    is_number str = true ↔ str ≠ [] ∧ ∀ ch ∈ str, isdigit ch = true := by
  unfold is_number
  cases str with
  | nil => simp
  | cons ch rest =>
    simp only [List.isEmpty_cons, Bool.not_false, Bool.true_and, List.isEmpty_eq_true,
      List.dropWhile_eq_nil_iff, ne_eq, reduceCtorEq, not_false_eq_true, true_and]

theorem spec_base36_fold (l : List Char) :
    ∀ acc : Int,
      l.foldl (fun value ch => value * 36 + spec_base36_digit ch) acc =
        acc * 36 ^ l.length + spec_base36_value l := by
  induction l with
  | nil => intro acc; simp [spec_base36_value]
  | cons ch rest ih =>
    intro acc
    unfold spec_base36_value
    rw [List.foldl_cons, List.foldl_cons, ih, ih (0 * 36 + spec_base36_digit ch),
      List.length_cons, pow_succ]
    ring

theorem spec_base36_value_cons (ch : Char) (rest : List Char) :
    spec_base36_value (ch :: rest) =
      spec_base36_digit ch * 36 ^ rest.length + spec_base36_value rest := by
  unfold spec_base36_value
  rw [List.foldl_cons, spec_base36_fold]
  unfold spec_base36_value
  ring

theorem spec_base36_value_append (s : List Char) (ch : Char) :
    spec_base36_value (s ++ [ch]) = spec_base36_value s * 36 + spec_base36_digit ch := by
  unfold spec_base36_value
  rw [List.foldl_append]
  rfl

theorem spec_base36_digit_range (ch : Char)
    (h : spec_is_digit ch = true ∨ spec_is_upper ch = true) :
    0 ≤ spec_base36_digit ch ∧ spec_base36_digit ch ≤ 35 := by
  unfold spec_base36_digit
  have h48 : '0'.toNat = 48 := by decide
  have h57 : '9'.toNat = 57 := by decide
  have h65 : 'A'.toNat = 65 := by decide
  have h90 : 'Z'.toNat = 90 := by decide
  by_cases hd : spec_is_digit ch = true
  · rw [if_pos hd]
    have hd' : '0'.toNat ≤ ch.toNat ∧ ch.toNat ≤ '9'.toNat := by
      simpa [spec_is_digit] using hd
    rw [h48, h57] at hd'
    omega
  · rw [if_neg hd]
    rcases h with h | h
    · exact absurd h hd
    · have hu : 'A'.toNat ≤ ch.toNat ∧ ch.toNat ≤ 'Z'.toNat := by
        simpa [spec_is_upper] using h
      rw [h65, h90] at hu
      omega

theorem spec_base36_value_range (l : List Char)
    (hl : ∀ ch ∈ l, spec_is_digit ch = true ∨ spec_is_upper ch = true) :
    0 ≤ spec_base36_value l ∧ spec_base36_value l < 36 ^ l.length := by
  induction l with
  | nil => simp [spec_base36_value]
  | cons ch rest ih =>
    obtain ⟨h1, h2⟩ := ih (fun x hx => hl x (List.mem_cons_of_mem _ hx))
    obtain ⟨d0, d35⟩ := spec_base36_digit_range ch (hl ch (List.mem_cons_self _ _))
    have hP : (0 : Int) < 36 ^ rest.length := by positivity
    rw [spec_base36_value_cons, List.length_cons, pow_succ]
    constructor
    · have := mul_nonneg d0 (le_of_lt hP)
      linarith
    · have := mul_le_mul_of_nonneg_right d35 (le_of_lt hP)
      linarith

end ZipHash

section ZipHashLoop

open FileCreation

theorem convert_zip_to_hash_loop_eq :
    ∀ (l : List Char) (h : Int), l.length ≤ 5 →
      (∀ ch ∈ l, spec_is_digit ch = true ∨ spec_is_upper ch = true) → 0 ≤ h →
      h + 36 ^ l.length ≤ 2 ^ 31 →
      convert_zip_to_hash_loop l (l.length : Int) h = some (h + spec_base36_value l) := by
  intro l
  induction l with
  | nil => intro h _ _ _ _; simp [convert_zip_to_hash_loop, spec_base36_value]
  | cons ch rest ih =>
    intro h hlen hl h0 hbound
    have hn : rest.length ≤ 4 := by
      rw [List.length_cons] at hlen
      omega
    have hcounter : wrap32 ((((ch :: rest).length : Nat) : Int) - 1) = (rest.length : Int) := by
      rw [List.length_cons]
      push_cast
      rw [wrap32_of_range _ (by omega) (by omega)]
      ring
    obtain ⟨d0, d35⟩ := spec_base36_digit_range ch (hl ch (List.mem_cons_self _ _))
    have hP : (0 : Int) < 36 ^ rest.length := by positivity
    have hb : h + 36 ^ rest.length * 36 ≤ 2147483648 := by
      rw [List.length_cons, pow_succ] at hbound
      norm_num at hbound
      exact hbound
    have hdP0 : 0 ≤ spec_base36_digit ch * 36 ^ rest.length := mul_nonneg d0 (le_of_lt hP)
    have hdP : spec_base36_digit ch * 36 ^ rest.length ≤ 35 * 36 ^ rest.length :=
      mul_le_mul_of_nonneg_right d35 (le_of_lt hP)
    have hstep : convert_zip_to_hash_loop (ch :: rest) (((ch :: rest).length : Nat) : Int) h =
        convert_zip_to_hash_loop rest (rest.length : Int)
          (h + spec_base36_digit ch * 36 ^ rest.length) := by
      simp only [convert_zip_to_hash_loop, hcounter, power_uk_base rest.length hn]
      have hw : ∀ d : Int, d = spec_base36_digit ch →
          wrap32 (h + wrap32 (wrap32 d * 36 ^ rest.length)) =
            h + spec_base36_digit ch * 36 ^ rest.length := by
        intro d hd
        rw [hd, wrap32_of_range (spec_base36_digit ch) (by omega) (by omega),
          wrap32_of_range (spec_base36_digit ch * 36 ^ rest.length) (by linarith)
            (by linarith),
          wrap32_of_range (h + spec_base36_digit ch * 36 ^ rest.length) (by linarith)
            (by linarith)]
      by_cases hd : spec_is_digit ch = true
      · have hd' : isdigit ch = true := hd
        rw [if_pos hd', hw _ (by unfold spec_base36_digit; rw [if_pos hd]; rfl)]
      · have hd' : ¬ isdigit ch = true := hd
        rw [if_neg hd', hw _ (by unfold spec_base36_digit UK_ZIP_VAR; rw [if_neg hd])]
    rw [hstep, ih _ (by omega) (fun x hx => hl x (List.mem_cons_of_mem _ hx)) (by linarith)
      (by linarith), spec_base36_value_cons]
    congr 1
    ring

theorem convert_zip_to_hash_of_letter (s : List Char) (hlen : s.length ≤ 5)
    (hs : ∀ ch ∈ s, spec_is_digit ch = true ∨ spec_is_upper ch = true)
    (hletter : ∃ ch ∈ s, spec_is_digit ch = false) :
    convert_zip_to_hash s = some (spec_base36_value s) := by
  have hnum : ¬ is_number s = true := by
    rw [is_number_iff]
    rintro ⟨_, hall⟩
    obtain ⟨ch, hch, hnd⟩ := hletter
    have : spec_is_digit ch = true := hall ch hch
    rw [hnd] at this
    exact absurd this (by decide)
  have hpow : (36 : Int) ^ s.length ≤ 36 ^ 5 := pow_le_pow_right₀ (by norm_num) hlen
  unfold convert_zip_to_hash
  rw [if_neg hnum, wrap32_of_range _ (by omega) (by omega),
    convert_zip_to_hash_loop_eq s 0 hlen hs le_rfl (by norm_num at hpow ⊢; omega)]
  simp

theorem spec_leading_digits_of_digits (s : List Char) (hlen : s.length ≤ 9)
    (hs : ∀ ch ∈ s, spec_is_digit ch = true) : spec_leading_digits 9 s = s := by
  unfold spec_leading_digits
  rw [List.take_of_length_le hlen]
  exact List.takeWhile_eq_self_iff.mpr hs

theorem convert_zip_to_hash_of_digits (s : List Char) (hne : s ≠ []) (hlen : s.length ≤ 9)
    (hs : ∀ ch ∈ s, spec_is_digit ch = true) :
    convert_zip_to_hash s = some (spec_decimal_value s) := by
  have hnum : is_number s = true := (is_number_iff s).mpr ⟨hne, hs⟩
  have hr := translate_from_zip_big_range [s]
  rw [translate_from_zip_big_eq_spec] at hr
  simp only [List.headD_cons] at hr
  rw [spec_leading_digits_of_digits s hlen hs] at hr
  unfold convert_zip_to_hash lexical_cast_int32
  rw [if_pos hnum]
  have hlt : spec_decimal_value s < 2 ^ 31 := by
    norm_num
    omega
  have hlt' : List.foldl (fun acc ch => acc * 10 + (ch.toNat : Int) - ('0'.toNat : Int)) 0 s <
      2 ^ 31 := hlt
  simp only []
  rw [if_pos hlt']
  rfl

end ZipHashLoop

section ZipHashLetters

theorem not_digit_of_upper (ch : Char) (h : spec_is_upper ch = true) :
    spec_is_digit ch = false := by
  have h57 : '9'.toNat = 57 := by decide
  have h65 : 'A'.toNat = 65 := by decide
  have hu : 'A'.toNat ≤ ch.toNat ∧ ch.toNat ≤ 'Z'.toNat := by
    simpa [spec_is_upper] using h
  rw [h65] at hu
  cases hd : spec_is_digit ch with
  | false => rfl
  | true =>
    have hd' : '0'.toNat ≤ ch.toNat ∧ ch.toNat ≤ '9'.toNat := by
      simpa [spec_is_digit] using hd
    rw [h57] at hd'
    omega

end ZipHashLetters

namespace FileCreation

/-- C25 as amended. For every postal code `s` of 1 to 5 characters over digits and
upper-case letters: when `s` contains at least one letter, `convert_zip_to_hash s` is the
value obtained by reading `s` left to right and accumulating `value = value * 36 + digit`,
where `'0'..'9'` map to 0..9 and `'A'..'Z'` to 10..35 (character code minus 55); when `s`
is made only of digits, it is the decimal value of `s`. -/
theorem convert_zip_to_hash_base36_or_decimal (s : List Char) (h1 : 1 ≤ s.length)
    (h5 : s.length ≤ 5)
    (hs : ∀ ch ∈ s, spec_is_digit ch = true ∨ spec_is_upper ch = true) :
    ((∃ ch ∈ s, spec_is_upper ch = true) →
      convert_zip_to_hash s = some (spec_base36_value s)) ∧
    ((∀ ch ∈ s, spec_is_digit ch = true) →
      convert_zip_to_hash s = some (spec_decimal_value s)) := by
  refine ⟨?_, ?_⟩
  · rintro ⟨ch, hch, hu⟩
    exact convert_zip_to_hash_of_letter s h5 hs ⟨ch, hch, not_digit_of_upper ch hu⟩
  · intro hd
    have hne : s ≠ [] := by
      intro h
      rw [h] at h1
      simp at h1
    exact convert_zip_to_hash_of_digits s hne (by omega) hd

/-- C25 as amended, witness: the code "SW1A" is read in base 36 and the code "95126" in
base 10. -/
theorem convert_zip_to_hash_base36_or_decimal_witness :
    convert_zip_to_hash ['S', 'W', '1', 'A'] = some (spec_base36_value ['S', 'W', '1', 'A']) ∧
      convert_zip_to_hash ['9', '5', '1', '2', '6'] =
        some (spec_decimal_value ['9', '5', '1', '2', '6']) :=
  ⟨(convert_zip_to_hash_base36_or_decimal ['S', 'W', '1', 'A'] (by decide) (by decide)
      (by decide)).1 ⟨'S', by decide, by decide⟩,
    (convert_zip_to_hash_base36_or_decimal ['9', '5', '1', '2', '6'] (by decide) (by decide)
      (by decide)).2 (by decide)⟩

/-- C25, counterexample. The code "12" is made only of digits; `convert_zip_to_hash` gives
its decimal value 12, while the base-36 accumulation gives `1 * 36 + 2 = 38`. -/
theorem convert_zip_to_hash_digits_are_decimal :
    is_number ['1', '2'] = true ∧ convert_zip_to_hash ['1', '2'] = some 12 ∧
      spec_base36_value ['1', '2'] = 38 := by
  decide

/-- Values of `convert_zip_to_hash` and of the base-36 reading on sample codes. -/
theorem convert_zip_to_hash_samples :
    convert_zip_to_hash ['S', 'W', '1', 'A'] = some 1347886 ∧
      spec_base36_value ['S', 'W', '1', 'A'] = 1347886 ∧
      convert_zip_to_hash ['Z', 'Z', 'Z', 'Z', 'Z'] = some 60466175 ∧
      convert_zip_to_hash ['9', '5', '1', '2', '6'] = some 95126 ∧
      convert_zip_to_hash ['7'] = some 7 ∧ spec_base36_value ['7'] = 7 := by
  decide

/-- C26 as amended. For every code `s` over digits and upper-case letters that contains at
least one letter, and every such character `c` with `s` followed by `c` at most 5
characters long: `convert_zip_to_hash (s c) / 36 = convert_zip_to_hash s`, so one base-36
truncation of the key (the truncation the lookups do for the United Kingdom) is the key of
the prefix that is one character shorter. -/
theorem convert_zip_to_hash_truncates_to_shorter_code (s : List Char) (c : Char)
    (hlen : (s ++ [c]).length ≤ 5)
    (hs : ∀ ch ∈ s, spec_is_digit ch = true ∨ spec_is_upper ch = true)
    (hc : spec_is_digit c = true ∨ spec_is_upper c = true)
    (hletter : ∃ ch ∈ s, spec_is_upper ch = true) :
    ∃ v w : Int, convert_zip_to_hash s = some v ∧ convert_zip_to_hash (s ++ [c]) = some w ∧
      w / 36 = v ∧ w.tdiv UK_ZIP_BASE = v ∧
      ∀ cty : country, truncate_zip (Native.ctry_base cty cty.united_kingdom) w = v := by
  obtain ⟨ch, hch, hu⟩ := hletter
  have hlen' : s.length ≤ 5 := by
    rw [List.length_append] at hlen
    simp at hlen
    omega
  have hs' : ∀ x ∈ s ++ [c], spec_is_digit x = true ∨ spec_is_upper x = true := by
    intro x hx
    rcases List.mem_append.mp hx with h | h
    · exact hs x h
    · rw [List.mem_singleton.mp h]
      exact hc
  have hv := convert_zip_to_hash_of_letter s hlen' hs ⟨ch, hch, not_digit_of_upper ch hu⟩
  have hw := convert_zip_to_hash_of_letter (s ++ [c]) hlen hs'
    ⟨ch, List.mem_append_left _ hch, not_digit_of_upper ch hu⟩
  obtain ⟨d0, d35⟩ := spec_base36_digit_range c hc
  have hv0 := (spec_base36_value_range s hs).1
  have hdiv : (spec_base36_value s * 36 + spec_base36_digit c) / 36 = spec_base36_value s := by
    omega
  have htdiv : (spec_base36_value s * 36 + spec_base36_digit c).tdiv 36 =
      spec_base36_value s := by
    rw [Int.tdiv_eq_ediv (by omega) (by omega)]
    exact hdiv
  refine ⟨_, _, hv, hw, ?_, ?_, ?_⟩
  · rw [spec_base36_value_append]
    exact hdiv
  · rw [spec_base36_value_append]
    exact htdiv
  · intro cty
    rw [spec_base36_value_append]
    unfold truncate_zip Native.ctry_base Native.uk_zip_base
    rw [if_pos rfl]
    exact htdiv

/-- C26 as amended, witness: the key of "SW1A" truncated once in base 36 is the key of
"SW1". -/
theorem convert_zip_to_hash_truncates_to_shorter_code_witness :
    ∃ v w : Int, convert_zip_to_hash ['S', 'W', '1'] = some v ∧
      convert_zip_to_hash (['S', 'W', '1'] ++ ['A']) = some w ∧ w / 36 = v :=
  (convert_zip_to_hash_truncates_to_shorter_code ['S', 'W', '1'] 'A' (by decide) (by decide)
    (by decide)
    ⟨'S', by decide, by decide⟩).imp
    (fun _ hv => hv.imp (fun _ hw => ⟨hw.1, hw.2.1, hw.2.2.1⟩))

/-- C26, counterexample. For the code "12" and the character '3' the key of "123" is 123,
whose base-36 truncation is 3, while the key of "12" is 12; for the character 'A' the key
of "12A" is 1378, whose truncation is 38. -/
theorem convert_zip_to_hash_prefix_fails_on_digits :
    convert_zip_to_hash ['1', '2'] = some 12 ∧
      convert_zip_to_hash (['1', '2'] ++ ['3']) = some 123 ∧ (123 : Int) / 36 = 3 ∧
      convert_zip_to_hash (['1', '2'] ++ ['A']) = some 1378 ∧ (1378 : Int) / 36 = 38 := by
  decide

end FileCreation

/-! ## Calendar, price and distance features -/

section ScalarFeatures

open Analytical

theorem model_features_day_of_week (c : country) (ext : Externals) (st : State)
    (rq : Request) :
    model_features c ext st rq ship_model.DAY_OF_WEEK = wrap32 (request_day_of_week rq) := by
  unfold model_features request_day_of_week
  rw [set_category_features_frame _ _ _ _ _ (by decide) (by decide),
    set_shipment_zip_features_frame _ _ _ _ _ _ _ (by decide) (by decide) (by decide)
      (by decide) (by decide) (by decide),
    set_seller_features_frame _ _ _ _ _ (by decide) (by decide)]
  by_cases hlen : rq.DeliveryEstimateStartDate.length > des_column_number_start_time
  · cases hcal : ext.get_holidays rq.Ctry st.holiday_info_map with
    | none =>
      simp only [hlen, if_true, hcal]
      simp [features.set]
    | some cal =>
      simp only [hlen, if_true, hcal]
      simp [features.set]
  · simp only [hlen, if_false]
    simp [features.set]

theorem model_features_shipping_fee (c : country) (ext : Externals) (st : State)
    (rq : Request) :
    model_features c ext st rq ship_model.SHIPPING_FEE =
      (wrap32 (request_shipping_price rq + 99)).tdiv 100 := by
  unfold model_features request_shipping_price
  rw [set_category_features_frame _ _ _ _ _ (by decide) (by decide),
    set_shipment_zip_features_frame _ _ _ _ _ _ _ (by decide) (by decide) (by decide)
      (by decide) (by decide) (by decide),
    set_seller_features_frame _ _ _ _ _ (by decide) (by decide)]
  simp [features.set]

theorem model_features_item_price (c : country) (ext : Externals) (st : State)
    (rq : Request) :
    model_features c ext st rq ship_model.ITEM_PRICE = (rq.item_price + 99).tdiv 100 := by
  unfold model_features
  rw [set_category_features_frame _ _ _ _ _ (by decide) (by decide),
    set_shipment_zip_features_frame _ _ _ _ _ _ _ (by decide) (by decide) (by decide)
      (by decide) (by decide) (by decide),
    set_seller_features_frame _ _ _ _ _ (by decide) (by decide)]
  simp [features.set]

theorem model_features_distance (c : country) (ext : Externals) (st : State)
    (rq : Request) :
    model_features c ext st rq ship_model.DISTANCE = wrap32 (request_distance c st rq) := by
  unfold model_features
  rw [set_category_features_frame _ _ _ _ _ (by decide) (by decide),
    set_shipment_zip_features_frame _ _ _ _ _ _ _ (by decide) (by decide) (by decide)
      (by decide) (by decide) (by decide),
    set_seller_features_frame _ _ _ _ _ (by decide) (by decide)]
  simp [features.set]

theorem request_day_of_week_eq (rq : Request) (D : Int) (hD : 0 ≤ D)
    (hlen : rq.DeliveryEstimateStartDate.length > des_column_number_start_time)
    (hd : rq.DeliveryEstimateStartDate.getD des_column_number_start_date 0 = D) :
    request_day_of_week rq = (D + 1) % 7 + 1 := by
  unfold request_day_of_week
  rw [if_pos hlen, hd, Int.tmod_eq_emod (by omega) (by omega)]

theorem ceil_hundred (p : Int) (hp : 0 ≤ p) :
    100 * (p + 99).tdiv 100 ≥ p ∧ ∀ n : Int, 100 * n ≥ p → (p + 99).tdiv 100 ≤ n := by
  rw [Int.tdiv_eq_ediv (by omega) (by omega)]
  constructor
  · omega
  · intro n hn
    omega

end ScalarFeatures

namespace Analytical

/-- C27. Day-of-week is periodic with period 7: for every julian day number `D >= 0`, the
value `(D + 1) mod 7 + 1` the macro computes for a request paid on day `D` equals the
value it computes for a request paid on day `D + 7`, as the local `day_of_week` and as the
feature `DAY_OF_WEEK`. -/
theorem day_of_week_period_seven (c : country) (ext : Externals) (st : State)
    (rq rq7 : Request) (D : Int) (hD : 0 ≤ D)
    (hlen : rq.DeliveryEstimateStartDate.length > des_column_number_start_time)
    (hlen7 : rq7.DeliveryEstimateStartDate.length > des_column_number_start_time)
    (hd : rq.DeliveryEstimateStartDate.getD des_column_number_start_date 0 = D)
    (hd7 : rq7.DeliveryEstimateStartDate.getD des_column_number_start_date 0 = D + 7) :
    request_day_of_week rq = (D + 1) % 7 + 1 ∧
      request_day_of_week rq7 = request_day_of_week rq ∧
      model_features c ext st rq7 ship_model.DAY_OF_WEEK =
        model_features c ext st rq ship_model.DAY_OF_WEEK := by
  have h1 := request_day_of_week_eq rq D hD hlen hd
  have h2 := request_day_of_week_eq rq7 (D + 7) (by omega) hlen7 hd7
  have h3 : request_day_of_week rq7 = request_day_of_week rq := by
    rw [h1, h2]
    omega
  exact ⟨h1, h3, by rw [model_features_day_of_week, model_features_day_of_week, h3]⟩

/-- C27, witness: the requests paid on day 2451545 and on day 2451552. -/
theorem day_of_week_period_seven_witness :
    request_day_of_week { us_request with DeliveryEstimateStartDate := [2451552, 0, 3600] } =
      request_day_of_week us_request_dated :=
  (day_of_week_period_seven sample_country sample_externals sample_state us_request_dated
    { us_request with DeliveryEstimateStartDate := [2451552, 0, 3600] } 2451545 (by decide)
    (by decide) (by decide) rfl rfl).2.1

/-- C28. Sunday = 1 convention: for every julian day number `D >= 0` the `day_of_week` the
macro computes for a request paid on day `D` lies in `[1, 7]`, equals 1 exactly when `D` is
a Sunday (`D mod 7 = 6`) and 7 exactly when `D` is a Saturday (`D mod 7 = 5`), and is the
value of the feature `DAY_OF_WEEK`. -/
theorem day_of_week_sunday_is_one (c : country) (ext : Externals) (st : State)
    (rq : Request) (D : Int) (hD : 0 ≤ D)
    (hlen : rq.DeliveryEstimateStartDate.length > des_column_number_start_time)
    (hd : rq.DeliveryEstimateStartDate.getD des_column_number_start_date 0 = D) :
    1 ≤ request_day_of_week rq ∧ request_day_of_week rq ≤ 7 ∧
      (request_day_of_week rq = 1 ↔ D % 7 = 6) ∧
      (request_day_of_week rq = 7 ↔ D % 7 = 5) ∧
      model_features c ext st rq ship_model.DAY_OF_WEEK = request_day_of_week rq := by
  have h1 := request_day_of_week_eq rq D hD hlen hd
  refine ⟨by omega, by omega, by omega, by omega, ?_⟩
  rw [model_features_day_of_week, wrap32_of_range _ (by omega) (by omega)]

/-- C28, witness: `D = 2451546` (Sunday 2 January 2000) gives 1 and `D = 2451545`
(Saturday 1 January 2000) gives 7. -/
theorem day_of_week_sunday_is_one_witness :
    request_day_of_week us_request_sunday = 1 ∧ request_day_of_week us_request_dated = 7 :=
  ⟨(day_of_week_sunday_is_one sample_country sample_externals sample_state us_request_sunday
      2451546 (by decide) (by decide) rfl).2.2.1.mpr (by decide),
    (day_of_week_sunday_is_one sample_country sample_externals sample_state us_request_dated
      2451545 (by decide) (by decide) rfl).2.2.2.1.mpr (by decide)⟩

/-- The day numbers of the two reference dates, by the Gregorian day-number formula, and
the feature the macro computes for them. -/
theorem day_of_week_reference_dates :
    gregorian_day_number 2000 1 1 = 2451545 ∧ gregorian_day_number 2000 1 2 = 2451546 ∧
      model_features sample_country sample_externals sample_state us_request_dated
        ship_model.DAY_OF_WEEK = 7 ∧
      model_features sample_country sample_externals sample_state us_request_sunday
        ship_model.DAY_OF_WEEK = 1 := by
  decide

/-- C29. Monetary features round up to whole currency units: for every non-negative
shipping price `p` with `p + 99` within 32-bit range the feature `SHIPPING_FEE` is the
ceiling of `p / 100`, the least integer `n` with `100 * n >= p`, and for every such item
price the feature `ITEM_PRICE` is. The shipping price is the low-cost column of the
ShipCalc response when the response has it and reports no error. -/
theorem monetary_features_round_up (c : country) (ext : Externals) (st : State)
    (rq : Request) :
    (0 ≤ request_shipping_price rq → request_shipping_price rq + 99 < 2 ^ 31 →
      model_features c ext st rq ship_model.SHIPPING_FEE =
          (request_shipping_price rq + 99) / 100 ∧
        100 * model_features c ext st rq ship_model.SHIPPING_FEE ≥ request_shipping_price rq ∧
        ∀ n : Int, 100 * n ≥ request_shipping_price rq →
          model_features c ext st rq ship_model.SHIPPING_FEE ≤ n) ∧
    (0 ≤ rq.item_price → rq.item_price + 99 < 2 ^ 31 →
      model_features c ext st rq ship_model.ITEM_PRICE = (rq.item_price + 99) / 100 ∧
        100 * model_features c ext st rq ship_model.ITEM_PRICE ≥ rq.item_price ∧
        ∀ n : Int, 100 * n ≥ rq.item_price →
          model_features c ext st rq ship_model.ITEM_PRICE ≤ n) ∧
    (rq.CalculatedShippingCost.length > shipcalc_column_number_low_cost →
      rq.CalculatedShippingCost.getD shipcalc_column_number_error 0 = 0 →
      request_shipping_price rq =
        rq.CalculatedShippingCost.getD shipcalc_column_number_low_cost 0) := by
  refine ⟨?_, ?_, ?_⟩
  · intro h0 h1
    rw [model_features_shipping_fee, wrap32_of_range _ (by omega) (by norm_num at h1; omega)]
    exact ⟨Int.tdiv_eq_ediv (by omega) (by omega), ceil_hundred _ h0⟩
  · intro h0 _
    rw [model_features_item_price]
    exact ⟨Int.tdiv_eq_ediv (by omega) (by omega), ceil_hundred _ h0⟩
  · intro h1 h2
    unfold request_shipping_price
    rw [if_pos ⟨h1, h2⟩]

/-- C29, witness: the shipping price 1250 gives the fee 13 and the item price 1999 gives
20. -/
theorem monetary_features_round_up_witness :
    model_features sample_country sample_externals sample_state us_request_priced
        ship_model.SHIPPING_FEE = (request_shipping_price us_request_priced + 99) / 100 ∧
      model_features sample_country sample_externals sample_state us_request_priced
        ship_model.ITEM_PRICE = (us_request_priced.item_price + 99) / 100 :=
  ⟨((monetary_features_round_up sample_country sample_externals sample_state
      us_request_priced).1 (by decide) (by decide)).1,
    ((monetary_features_round_up sample_country sample_externals sample_state
      us_request_priced).2.1 (by decide) (by decide)).1⟩

/-- Values of the monetary features for the shipping price 1250 and the item price 1999,
and for a price that is a multiple of 100. -/
theorem monetary_features_samples :
    request_shipping_price us_request_priced = 1250 ∧
      model_features sample_country sample_externals sample_state us_request_priced
        ship_model.SHIPPING_FEE = 13 ∧
      model_features sample_country sample_externals sample_state us_request_priced
        ship_model.ITEM_PRICE = 20 ∧
      model_features sample_country sample_externals sample_state us_request
        ship_model.ITEM_PRICE = 10 ∧
      model_features sample_country sample_externals sample_state us_request
        ship_model.SHIPPING_FEE = 1 := by
  decide

end Analytical

namespace Analytical

/-- C30 as amended. Distance bucketing rounds to the nearest 55 km bucket: for every
non-negative distance in miles `m` of at most 73406836925, the largest distance whose
bucket fits the 32-bit feature (origin zip not the sentinel), the feature `DISTANCE` is
`b = (m * 1609 + 27500) / 55000`, it satisfies
`55000 * b - 27500 <= 1609 * m < 55000 * b + 27500`, and it is non-decreasing in `m`. -/
theorem distance_bucket_nearest (c : country) (ext : Externals) (st : State) (rq : Request)
    (hm : 0 ≤ rq.dist_val) (hmax : rq.dist_val ≤ 73406836925)
    (hfz : request_from_zip c st rq ≠ -1) :
    model_features c ext st rq ship_model.DISTANCE = (rq.dist_val * 1609 + 27500) / 55000 ∧
      55000 * model_features c ext st rq ship_model.DISTANCE - 27500 ≤ 1609 * rq.dist_val ∧
      1609 * rq.dist_val < 55000 * model_features c ext st rq ship_model.DISTANCE + 27500 ∧
      ∀ rq2 : Request, rq.dist_val ≤ rq2.dist_val → rq2.dist_val ≤ 73406836925 →
        request_from_zip c st rq2 ≠ -1 →
        model_features c ext st rq ship_model.DISTANCE ≤
          model_features c ext st rq2 ship_model.DISTANCE := by
  have hval : ∀ r : Request, 0 ≤ r.dist_val → r.dist_val ≤ 73406836925 →
      request_from_zip c st r ≠ -1 →
      model_features c ext st r ship_model.DISTANCE = (r.dist_val * 1609 + 27500) / 55000 := by
    intro r h0 h1 h2
    rw [model_features_distance]
    unfold request_distance
    rw [if_neg h2, Int.tdiv_eq_ediv (by omega) (by omega),
      wrap32_of_range _ (by omega) (by omega)]
  have h1 := hval rq hm hmax hfz
  refine ⟨h1, by omega, by omega, ?_⟩
  intro rq2 hle hmax2 hfz2
  rw [h1, hval rq2 (by omega) hmax2 hfz2]
  omega

/-- C30 as amended, witness: the request at 300 miles has the bucket 9. -/
theorem distance_bucket_nearest_witness :
    model_features sample_country sample_externals sample_state us_request
        ship_model.DISTANCE = (us_request.dist_val * 1609 + 27500) / 55000 :=
  (distance_bucket_nearest sample_country sample_externals sample_state us_request
    (by decide) (by decide) (by decide)).1

/-- C30, counterexample. At the non-negative distance 73406836926 (origin zip 951, not the
sentinel) the bucket `(m * 1609 + 27500) / 55000` is `2^31` and the feature `DISTANCE`,
stored as a 32-bit integer, is `-2^31`: the bound `1609 * m < 55000 * b + 27500` fails for
it, and it is below the feature 9 of the smaller distance 300. -/
theorem distance_feature_wraps :
    (0 : Int) ≤ us_request_far.dist_val ∧
      request_from_zip sample_country sample_state us_request_far = 951 ∧
      (us_request_far.dist_val * 1609 + 27500) / 55000 = 2147483648 ∧
      model_features sample_country sample_externals sample_state us_request_far
        ship_model.DISTANCE = -2147483648 ∧
      ¬ (1609 * us_request_far.dist_val <
        55000 * model_features sample_country sample_externals sample_state us_request_far
          ship_model.DISTANCE + 27500) ∧
      us_request.dist_val ≤ us_request_far.dist_val ∧
      model_features sample_country sample_externals sample_state us_request
        ship_model.DISTANCE = 9 := by
  decide

end Analytical

/-! ## Constant behaviours: `get_z2z_est` and the scoring function -/

namespace Native

/-- C37. `get_z2z_est` does not depend on its five arguments: for any two argument tuples
and the same table state it returns the same result, namely the service-set test and the
cascade evaluated at the constants `from_country_id = 77`, `to_country_id = 77`,
`from_zip = 9545`, `to_zip = 7575`, `shipping_service = 7712` that overwrite the parameters
on entry. -/
theorem get_z2z_est_constant_in_arguments (c : country) (T : Tables)
    (services : z2z_services_set)
    (from_country_id to_country_id from_zip to_zip shipping_service : Int)
    (from_country_id2 to_country_id2 from_zip2 to_zip2 shipping_service2 : Int) :
    get_z2z_est c T services from_country_id to_country_id from_zip to_zip shipping_service =
        get_z2z_est c T services from_country_id2 to_country_id2 from_zip2 to_zip2
          shipping_service2 ∧
      get_z2z_est c T services from_country_id to_country_id from_zip to_zip
          shipping_service =
        if services ⟨77, 77, 7712⟩ then z2z_cascade c T 77 77 9545 7575 7712 else none :=
  ⟨rfl, rfl⟩

end Native

namespace Analytical

/-- C39. The scoring function is constant: `shipping_tree_model::evaluate` returns 10.0 for
every feature vector, so two eligible non-QA requests to the United States with the same
model string (hence the same model and override) get the same output, whatever their
features: the least `d` in range with `10.0 <= thresholds[d]`, or `(-1, -1)` when there is
none. -/
theorem scoring_function_is_constant (c : country) (ext : Externals) (st : State)
    (rq rq2 : Request) (hne : c.australia ≠ c.united_states)
    (hel : is_analytical_eligible st rq = true) (hel2 : is_analytical_eligible st rq2 = true)
    (hus : rq.ToCtry = c.united_states) (hus2 : rq2.ToCtry = c.united_states)
    (hqa : rq.sde_model ≠ ['q', 'a']) (hsde : rq2.sde_model = rq.sde_model) :
    (∀ f : features, shipping_tree_model_evaluate f = 10) ∧
      AnalyticalDeliveryEstimate c ext st shipping_tree_model_evaluate rq2 =
        AnalyticalDeliveryEstimate c ext st shipping_tree_model_evaluate rq ∧
      (∀ d : Nat,
        least_threshold_index 10 (request_model st rq).thresholds
          (request_model st rq).min_days_predicted
          (max_model_days (request_model st rq) rq.sde_model) d →
        d < 2 ^ 31 →
        AnalyticalDeliveryEstimate c ext st shipping_tree_model_evaluate rq =
          ((d : Int), (d : Int))) ∧
      ((∀ d : Nat, (request_model st rq).min_days_predicted ≤ d →
          d ≤ max_model_days (request_model st rq) rq.sde_model →
          ∀ x, (request_model st rq).thresholds[d]? = some x → ¬ (10 : ℚ) ≤ x) →
        AnalyticalDeliveryEstimate c ext st shipping_tree_model_evaluate rq = (-1, -1)) := by
  have hqa2 : rq2.sde_model ≠ ['q', 'a'] := by rw [hsde]; exact hqa
  have hm : request_model st rq2 = request_model st rq := by
    unfold request_model
    rw [hsde]
  have h1 : AnalyticalDeliveryEstimate c ext st shipping_tree_model_evaluate rq =
      threshold_bucket 10 (request_model st rq).thresholds
        (request_model st rq).min_days_predicted
        (max_model_days (request_model st rq) rq.sde_model) (-1, -1) := by
    unfold AnalyticalDeliveryEstimate
    rw [run_of_us_threshold c ext st _ rq hne hel hus hqa]
    rfl
  have h2 : AnalyticalDeliveryEstimate c ext st shipping_tree_model_evaluate rq2 =
      threshold_bucket 10 (request_model st rq2).thresholds
        (request_model st rq2).min_days_predicted
        (max_model_days (request_model st rq2) rq2.sde_model) (-1, -1) := by
    unfold AnalyticalDeliveryEstimate
    rw [run_of_us_threshold c ext st _ rq2 hne hel2 hus2 hqa2]
    rfl
  refine ⟨fun _ => rfl, ?_, ?_, ?_⟩
  · rw [h1, h2, hm, hsde]
  · intro d hd hlt
    rw [h1]
    exact (threshold_bucket_spec _ _ _ _ _).1 d hd hlt
  · intro hnone
    rw [h1]
    exact (threshold_bucket_spec _ _ _ _ _).2 hnone

/-- C39, witness: the request `us_request` and the same request with another seller, item
price and distance get the same output. -/
theorem scoring_function_is_constant_witness :
    AnalyticalDeliveryEstimate sample_country sample_externals sample_state
        shipping_tree_model_evaluate
        { us_request with SellerId := 8, item_price := 5, dist_val := 2000 } =
      AnalyticalDeliveryEstimate sample_country sample_externals sample_state
        shipping_tree_model_evaluate us_request :=
  (scoring_function_is_constant sample_country sample_externals sample_state us_request
    { us_request with SellerId := 8, item_price := 5, dist_val := 2000 } (by decide)
    (by decide) (by decide) rfl rfl (by decide) rfl).2.1

end Analytical

/-! ## The QA override table -/

section QaTable

open Analytical

theorem shipping_qa_model_evaluate_miss (category service from_zip to_zip : Int)
    (h : ∀ kv ∈ qa_model_map, kv.1 ≠ ⟨category, service, from_zip, to_zip⟩) :
    shipping_qa_model_evaluate category service from_zip to_zip = -1 := by
  unfold shipping_qa_model_evaluate
  have hnone : qa_model_map.find?
      (fun kv => decide (kv.1 = ⟨category, service, from_zip, to_zip⟩)) = none := by
    rw [List.find?_eq_none]
    intro kv hkv
    simpa using h kv hkv
  rw [hnone]

theorem shipping_qa_model_evaluate_mem_or_miss (category service from_zip to_zip : Int) :
    (∃ kv ∈ qa_model_map, kv.1 = ⟨category, service, from_zip, to_zip⟩ ∧
      shipping_qa_model_evaluate category service from_zip to_zip = kv.2) ∨
    ((∀ kv ∈ qa_model_map, kv.1 ≠ ⟨category, service, from_zip, to_zip⟩) ∧
      shipping_qa_model_evaluate category service from_zip to_zip = -1) := by
  by_cases h : ∀ kv ∈ qa_model_map, kv.1 ≠ ⟨category, service, from_zip, to_zip⟩
  · exact Or.inr ⟨h, shipping_qa_model_evaluate_miss _ _ _ _ h⟩
  · left
    unfold shipping_qa_model_evaluate
    cases hf : qa_model_map.find?
        (fun kv => decide (kv.1 = ⟨category, service, from_zip, to_zip⟩)) with
    | none =>
      exfalso
      apply h
      intro kv hkv
      have := List.find?_eq_none.mp hf kv hkv
      simpa using this
    | some kv =>
      refine ⟨kv, List.mem_of_find?_eq_some hf, ?_, rfl⟩
      have := List.find?_some hf
      simpa using this

set_option maxRecDepth 100000 in
theorem qa_model_map_keys_nodup : (qa_model_map.map Prod.fst).Nodup := by
  decide

set_option maxRecDepth 100000 in
theorem qa_model_map_values_range : ∀ kv ∈ qa_model_map, 1 ≤ kv.2 ∧ kv.2 ≤ 11 := by
  decide

set_option maxRecDepth 100000 in
theorem qa_model_map_lookup :
    ∀ kv ∈ qa_model_map,
      shipping_qa_model_evaluate kv.1.category kv.1.service kv.1.from_zip kv.1.to_zip =
        kv.2 := by
  decide

end QaTable

namespace Analytical

/-- C32. QA override: `shipping_qa_model::evaluate` returns the day count listed for the key
in the 52-entry static table, whose keys are pairwise distinct, and -1 for every other key,
so the result is -1 or in `[1, 11]`; in QA mode (an eligible request to the United States
with the model string `qa`) the macro returns `min_days = max_days =` that value, for the
first leaf category, the service, the full origin zip and the destination zip of the
request. `evaluate(37908, 19, 95126, 90067) = 2` and
`evaluate(37908, 19, 95126, 90068) = -1`. -/
theorem qa_override_is_table_lookup :
    qa_model_map.length = 52 ∧ (qa_model_map.map Prod.fst).Nodup ∧
    (∀ kv ∈ qa_model_map,
      shipping_qa_model_evaluate kv.1.category kv.1.service kv.1.from_zip kv.1.to_zip =
        kv.2) ∧
    (∀ category service from_zip to_zip : Int,
      (∀ kv ∈ qa_model_map, kv.1 ≠ ⟨category, service, from_zip, to_zip⟩) →
      shipping_qa_model_evaluate category service from_zip to_zip = -1) ∧
    (∀ category service from_zip to_zip : Int,
      shipping_qa_model_evaluate category service from_zip to_zip = -1 ∨
      (1 ≤ shipping_qa_model_evaluate category service from_zip to_zip ∧
        shipping_qa_model_evaluate category service from_zip to_zip ≤ 11)) ∧
    (∀ (c : country) (ext : Externals) (st : State) (evaluate : features → ℚ)
      (rq : Request), is_analytical_eligible st rq = true → rq.ToCtry = c.united_states →
      rq.sde_model = ['q', 'a'] →
      AnalyticalDeliveryEstimate c ext st evaluate rq =
        (shipping_qa_model_evaluate (wrap32 (request_leaf_category rq))
            (request_shipping_service rq) (translate_from_zip_big rq.FromZip) rq.ToZip,
          shipping_qa_model_evaluate (wrap32 (request_leaf_category rq))
            (request_shipping_service rq) (translate_from_zip_big rq.FromZip) rq.ToZip)) ∧
    shipping_qa_model_evaluate 37908 19 95126 90067 = 2 ∧
    shipping_qa_model_evaluate 37908 19 95126 90068 = -1 := by
  refine ⟨rfl, qa_model_map_keys_nodup, qa_model_map_lookup,
    shipping_qa_model_evaluate_miss, ?_, ?_, by decide, by decide⟩
  · intro category service from_zip to_zip
    rcases shipping_qa_model_evaluate_mem_or_miss category service from_zip to_zip with
      ⟨kv, hkv, _, hv⟩ | ⟨_, hv⟩
    · right
      rw [hv]
      exact qa_model_map_values_range kv hkv
    · exact Or.inl hv
  · intro c ext st evaluate rq hel hus hqa
    unfold AnalyticalDeliveryEstimate AnalyticalDeliveryEstimate_run
    simp only [hel, hus, hqa, and_self, and_true, true_and, if_true]
    rfl

/-- C32, witness: the QA request for category 37908, service 19, origin 95126 and
destination 90067 returns `(2, 2)`. -/
theorem qa_override_is_table_lookup_witness :
    AnalyticalDeliveryEstimate sample_country sample_externals sample_state
        shipping_tree_model_evaluate us_request_qa = (2, 2) :=
  (qa_override_is_table_lookup.2.2.2.2.2.1 sample_country sample_externals sample_state
    shipping_tree_model_evaluate us_request_qa (by decide) rfl rfl).trans (by decide)

end Analytical

/-! ## Historical-average features -/

section HistoricalFeatures

open Analytical

theorem get_day_in_range (a : analytical_info) (d : Int) (h : 1 ≤ d ∧ d ≤ 7) :
    ∃ i : Fin 8, (i.val : Int) = d ∧ a.get_day d = a.data i := by
  have hc : ¬ (d < 1 ∨ d > 7) := by omega
  refine ⟨⟨d.toNat, by omega⟩, by simp only []; omega, ?_⟩
  unfold analytical_info.get_day
  simp only [if_neg hc]
  rw [dif_pos ⟨by omega, by omega⟩]

theorem get_day_out_of_range (a : analytical_info) (d : Int) (h : ¬ (1 ≤ d ∧ d ≤ 7)) :
    a.get_day d = a.data 1 := by
  have hc : d < 1 ∨ d > 7 := by omega
  unfold analytical_info.get_day
  simp only [if_pos hc]
  rfl

theorem set_seller_features_values (f : features) (dow sid : Int) (model : experiment_model) :
    set_seller_features f dow sid model ship_model.SELLER_TOTAL_AVERAGE =
        (match model.seller_features.bind (fun m => m sid) with
          | some it => it.get_total
          | none => -1) ∧
      set_seller_features f dow sid model ship_model.SELLER_DAY_AVERAGE =
        (match model.seller_features.bind (fun m => m sid) with
          | some it => it.get_day dow
          | none => -1) := by
  unfold set_seller_features
  cases hm : model.seller_features with
  | none => simp [features.set]
  | some m =>
    cases hs : m sid with
    | none => simp [hs, features.set]
    | some it => simp [hs, features.set]

theorem set_category_features_values (f : features) (dow cat : Int)
    (model : experiment_model) :
    set_category_features f dow cat model ship_model.CATEGORY_TOTAL_AVERAGE =
        (match model.category_features.bind (fun m => m cat) with
          | some it => it.get_total
          | none => -1) ∧
      set_category_features f dow cat model ship_model.CATEGORY_DAY_AVERAGE =
        (match model.category_features.bind (fun m => m cat) with
          | some it => it.get_day dow
          | none => -1) := by
  unfold set_category_features
  cases hm : model.category_features with
  | none => simp [features.set]
  | some m =>
    cases hs : m cat with
    | none => simp [hs, features.set]
    | some it => simp [hs, features.set]

theorem set_shipment_zip_features_values (f : features) (dow svc tz fz : Int)
    (model : experiment_model) :
    (set_shipment_zip_features f dow svc tz fz model ship_model.SHIPPING_METHOD_TOTAL_AVERAGE =
        (match model.shipping_features.bind (fun m => m svc) with
          | some it => it.get_total
          | none => -1) ∧
      set_shipment_zip_features f dow svc tz fz model ship_model.SHIPPING_METHOD_DAY_AVERAGE =
        (match model.shipping_features.bind (fun m => m svc) with
          | some it => it.get_day dow
          | none => -1)) ∧
    (set_shipment_zip_features f dow svc tz fz model ship_model.ZIP_TOTAL_AVERAGE =
        (match model.zip_features.bind (fun m => m ⟨fz, tz⟩) with
          | some it => it.get_total
          | none => -1) ∧
      set_shipment_zip_features f dow svc tz fz model ship_model.ZIP_DAY_AVERAGE =
        (match model.zip_features.bind (fun m => m ⟨fz, tz⟩) with
          | some it => it.get_day dow
          | none => -1)) ∧
    (set_shipment_zip_features f dow svc tz fz model
          ship_model.SHIPPING_METHOD_ZIP_TOTAL_AVERAGE =
        (match model.shipping_zip_features.bind (fun m => m ⟨svc, fz, tz⟩) with
          | some it => it.get_total
          | none => -1) ∧
      set_shipment_zip_features f dow svc tz fz model
          ship_model.SHIPPING_METHOD_ZIP_DAY_AVERAGE =
        (match model.shipping_zip_features.bind (fun m => m ⟨svc, fz, tz⟩) with
          | some it => it.get_day dow
          | none => -1)) := by
  unfold set_shipment_zip_features
  rcases hA : model.shipping_features with _ | m1 <;>
    rcases hB : model.zip_features with _ | m2 <;>
    rcases hC : model.shipping_zip_features with _ | m3
  all_goals try (rcases hA1 : m1 svc with _ | i1)
  all_goals try (rcases hB1 : m2 ⟨fz, tz⟩ with _ | i2)
  all_goals try (rcases hC1 : m3 ⟨svc, fz, tz⟩ with _ | i3)
  all_goals simp [features.set, *]

end HistoricalFeatures

namespace Analytical

/-- C31. Historical-average features: for each of the five tables (seller, leaf category,
shipping method, zip pair, shipping-method+zip pair), when the table is not loaded or the
key is absent both the total and the day feature are -1; when the key is present the
total is `record[0]` and the day feature is `record[d]` for the day-of-week `d` if
`1 <= d <= 7` and `record[1]` (Sunday) for every other `d`, so `get_day` always reads
inside the 8-element record; each setter leaves every feature slot other than its own
unchanged. -/
theorem historical_average_features (f : features) (dow : Int) (model : experiment_model) :
    (∀ (a : analytical_info) (d : Int),
      a.get_total = a.data 0 ∧
      (1 ≤ d ∧ d ≤ 7 → ∃ i : Fin 8, (i.val : Int) = d ∧ a.get_day d = a.data i) ∧
      (¬ (1 ≤ d ∧ d ≤ 7) → a.get_day d = a.data 1)) ∧
    (∀ sid : Int,
      set_seller_features f dow sid model ship_model.SELLER_TOTAL_AVERAGE =
        (match model.seller_features.bind (fun m => m sid) with
          | some it => it.get_total
          | none => -1) ∧
      set_seller_features f dow sid model ship_model.SELLER_DAY_AVERAGE =
        (match model.seller_features.bind (fun m => m sid) with
          | some it => it.get_day dow
          | none => -1) ∧
      ∀ k : ship_model, k ≠ .SELLER_TOTAL_AVERAGE → k ≠ .SELLER_DAY_AVERAGE →
        set_seller_features f dow sid model k = f k) ∧
    (∀ cat : Int,
      set_category_features f dow cat model ship_model.CATEGORY_TOTAL_AVERAGE =
        (match model.category_features.bind (fun m => m cat) with
          | some it => it.get_total
          | none => -1) ∧
      set_category_features f dow cat model ship_model.CATEGORY_DAY_AVERAGE =
        (match model.category_features.bind (fun m => m cat) with
          | some it => it.get_day dow
          | none => -1) ∧
      ∀ k : ship_model, k ≠ .CATEGORY_TOTAL_AVERAGE → k ≠ .CATEGORY_DAY_AVERAGE →
        set_category_features f dow cat model k = f k) ∧
    (∀ svc tz fz : Int,
      (set_shipment_zip_features f dow svc tz fz model
            ship_model.SHIPPING_METHOD_TOTAL_AVERAGE =
          (match model.shipping_features.bind (fun m => m svc) with
            | some it => it.get_total
            | none => -1) ∧
        set_shipment_zip_features f dow svc tz fz model
            ship_model.SHIPPING_METHOD_DAY_AVERAGE =
          (match model.shipping_features.bind (fun m => m svc) with
            | some it => it.get_day dow
            | none => -1)) ∧
      (set_shipment_zip_features f dow svc tz fz model ship_model.ZIP_TOTAL_AVERAGE =
          (match model.zip_features.bind (fun m => m ⟨fz, tz⟩) with
            | some it => it.get_total
            | none => -1) ∧
        set_shipment_zip_features f dow svc tz fz model ship_model.ZIP_DAY_AVERAGE =
          (match model.zip_features.bind (fun m => m ⟨fz, tz⟩) with
            | some it => it.get_day dow
            | none => -1)) ∧
      (set_shipment_zip_features f dow svc tz fz model
            ship_model.SHIPPING_METHOD_ZIP_TOTAL_AVERAGE =
          (match model.shipping_zip_features.bind (fun m => m ⟨svc, fz, tz⟩) with
            | some it => it.get_total
            | none => -1) ∧
        set_shipment_zip_features f dow svc tz fz model
            ship_model.SHIPPING_METHOD_ZIP_DAY_AVERAGE =
          (match model.shipping_zip_features.bind (fun m => m ⟨svc, fz, tz⟩) with
            | some it => it.get_day dow
            | none => -1)) ∧
      ∀ k : ship_model, k ≠ .SHIPPING_METHOD_TOTAL_AVERAGE →
        k ≠ .SHIPPING_METHOD_DAY_AVERAGE → k ≠ .ZIP_TOTAL_AVERAGE → k ≠ .ZIP_DAY_AVERAGE →
        k ≠ .SHIPPING_METHOD_ZIP_TOTAL_AVERAGE → k ≠ .SHIPPING_METHOD_ZIP_DAY_AVERAGE →
        set_shipment_zip_features f dow svc tz fz model k = f k) := by
  refine ⟨?_, ?_, ?_, ?_⟩
  · intro a d
    exact ⟨rfl, get_day_in_range a d, get_day_out_of_range a d⟩
  · intro sid
    exact ⟨(set_seller_features_values f dow sid model).1,
      (set_seller_features_values f dow sid model).2,
      fun k h1 h2 => set_seller_features_frame f dow sid model k h1 h2⟩
  · intro cat
    exact ⟨(set_category_features_values f dow cat model).1,
      (set_category_features_values f dow cat model).2,
      fun k h1 h2 => set_category_features_frame f dow cat model k h1 h2⟩
  · intro svc tz fz
    obtain ⟨h1, h2, h3⟩ := set_shipment_zip_features_values f dow svc tz fz model
    exact ⟨h1, h2, h3, fun k k1 k2 k3 k4 k5 k6 =>
      set_shipment_zip_features_frame f dow svc tz fz model k k1 k2 k3 k4 k5 k6⟩

/-- C31, witness: for the day-of-week 9, outside `[1, 7]`, the day feature of a record is
its Sunday entry. -/
theorem historical_average_features_witness :
    sample_history.get_day 9 = sample_history.data 1 :=
  ((historical_average_features (fun _ => 0) 9 history_model).1 sample_history 9).2.2
    (by decide)

/-- Values of the seller features for the seller 7, whose record is total 10, Sunday 11, …,
Saturday 17, on Tuesday (3), on the day-of-week 0 and on 9, and for an unknown seller. -/
theorem historical_average_samples :
    set_seller_features (fun _ => 0) 3 7 history_model ship_model.SELLER_TOTAL_AVERAGE = 10 ∧
      set_seller_features (fun _ => 0) 3 7 history_model ship_model.SELLER_DAY_AVERAGE = 13 ∧
      set_seller_features (fun _ => 0) 0 7 history_model ship_model.SELLER_DAY_AVERAGE = 11 ∧
      set_seller_features (fun _ => 0) 9 7 history_model ship_model.SELLER_DAY_AVERAGE = 11 ∧
      set_seller_features (fun _ => 0) 3 8 history_model ship_model.SELLER_TOTAL_AVERAGE = -1 ∧
      set_seller_features (fun _ => 0) 3 8 history_model ship_model.SELLER_DAY_AVERAGE = -1 ∧
      set_seller_features (fun _ => 0) 3 7 sample_model ship_model.SELLER_DAY_AVERAGE = -1 := by
  decide

end Analytical

/-! ## The holiday walk: iterations and range -/

section WalkRun

open Analytical

theorem days_from_nonworking_day_run_fst (nwd : Int → Bool) :
    ∀ (fuel : Nat) (day n : Int),
      (days_from_nonworking_day_run nwd fuel day n).1 =
        days_from_nonworking_day_loop nwd fuel day n := by
  intro fuel
  induction fuel with
  | zero => intro day n; rfl
  | succ fuel ih =>
    intro day n
    simp only [days_from_nonworking_day_run, days_from_nonworking_day_loop]
    split
    · split
      · rfl
      · exact ih _ _
    · rfl

theorem days_from_nonworking_day_run_fuel (nwd : Int → Bool) :
    ∀ (fuel fuel2 : Nat) (day n : Int), n < 7 → 7 ≤ n + fuel → 7 ≤ n + fuel2 →
      days_from_nonworking_day_run nwd fuel day n =
        days_from_nonworking_day_run nwd fuel2 day n := by
  intro fuel
  induction fuel with
  | zero => intro fuel2 day n h0 h1 _; omega
  | succ fuel ih =>
    intro fuel2 day n h0 h1 h2
    cases fuel2 with
    | zero => omega
    | succ fuel2 =>
      simp only [days_from_nonworking_day_run]
      split
      · split
        · rfl
        · rw [ih fuel2 (day + 1) (n + 1) (by omega) (by push_cast at h1; omega)
            (by push_cast at h2; omega)]
      · rfl

theorem days_from_nonworking_day_run_trace (nwd : Int → Bool) :
    ∀ (fuel : Nat) (day n : Int), 0 ≤ n → n < 7 →
      (days_from_nonworking_day_run nwd fuel day n).1 =
          n + ((days_from_nonworking_day_run nwd fuel day n).2.length : Int) ∧
        (days_from_nonworking_day_run nwd fuel day n).1 ≤ 7 ∧
        (∀ (j : Nat) (d : Int),
          (days_from_nonworking_day_run nwd fuel day n).2[j]? = some d →
            d = day + j ∧ nwd d = false) ∧
        ((days_from_nonworking_day_run nwd fuel day n).1 = n ↔
          (fuel = 0 ∨ nwd day = true)) := by
  intro fuel
  induction fuel with
  | zero =>
    intro day n h0 h7
    simp [days_from_nonworking_day_run]
    omega
  | succ fuel ih =>
    intro day n h0 h7
    simp only [days_from_nonworking_day_run]
    cases hn : nwd day with
    | true =>
      simp
      omega
    | false =>
      simp only [Bool.not_false, if_true]
      split
      · rename_i h
        refine ⟨by simp, by omega, ?_, ?_⟩
        · intro j d hj
          cases j with
          | zero =>
            simp at hj
            subst hj
            exact ⟨by simp, hn⟩
          | succ j => simp at hj
        · simp
      · rename_i h
        obtain ⟨h1, h2, h3, _⟩ := ih (day + 1) (n + 1) (by omega) (by omega)
        refine ⟨?_, h2, ?_, ?_⟩
        · rw [h1]
          simp only [List.length_cons]
          push_cast
          ring
        · intro j d hj
          cases j with
          | zero =>
            simp at hj
            subst hj
            exact ⟨by simp, hn⟩
          | succ j =>
            rw [List.getElem?_cons_succ] at hj
            obtain ⟨e1, e2⟩ := h3 j d hj
            exact ⟨by rw [e1]; push_cast; ring, e2⟩
        · constructor
          · intro he
            rw [h1] at he
            exfalso
            omega
          · intro he
            simp at he

theorem model_features_days_from_nonworking_none (c : country) (ext : Externals)
    (st : State) (rq : Request)
    (hcal : ext.get_holidays rq.Ctry st.holiday_info_map = none) :
    model_features c ext st rq ship_model.DAYS_FROM_NONWORKING_DAYS = 0 := by
  unfold model_features
  rw [set_category_features_frame _ _ _ _ _ (by decide) (by decide),
    set_shipment_zip_features_frame _ _ _ _ _ _ _ (by decide) (by decide) (by decide)
      (by decide) (by decide) (by decide),
    set_seller_features_frame _ _ _ _ _ (by decide) (by decide)]
  by_cases hlen : rq.DeliveryEstimateStartDate.length > des_column_number_start_time
  · simp only [hlen, if_true, hcal]
    simp [features.set]
    decide
  · simp only [hlen, if_false]
    simp [features.set]
    decide

end WalkRun

namespace Analytical

/-- C35. For every anchor day, calendar and working-day flags (through the test `nwd` they
define), the holiday walk executes its loop body at most 7 times, on the days
`anchor, anchor + 1, …`, and never stops for lack of fuel; the resulting
`days_from_nonworking_day` is the number of executions and lies in `[0, 7]`; it is 0
exactly when the loop condition already fails on the anchor day; and the feature stays 0
when the origin country has no calendar. -/
theorem holiday_walk_is_capped (nwd : Int → Bool) (anchor : Int) (fuel : Nat)
    (hfuel : 7 ≤ fuel) :
    days_from_nonworking_day_run nwd fuel anchor 0 =
        days_from_nonworking_day_run nwd 7 anchor 0 ∧
      (days_from_nonworking_day_run nwd 7 anchor 0).1 =
        days_from_nonworking_day_loop nwd 7 anchor 0 ∧
      (days_from_nonworking_day_run nwd 7 anchor 0).2.length ≤ 7 ∧
      (((days_from_nonworking_day_run nwd 7 anchor 0).2.length : Nat) : Int) =
        days_from_nonworking_day_loop nwd 7 anchor 0 ∧
      (∀ (j : Nat) (d : Int),
        (days_from_nonworking_day_run nwd 7 anchor 0).2[j]? = some d → d = anchor + j) ∧
      0 ≤ days_from_nonworking_day_loop nwd 7 anchor 0 ∧
      days_from_nonworking_day_loop nwd 7 anchor 0 ≤ 7 ∧
      (days_from_nonworking_day_loop nwd 7 anchor 0 = 0 ↔ nwd anchor = true) ∧
      (∀ (c : country) (ext : Externals) (st : State) (rq : Request),
        ext.get_holidays rq.Ctry st.holiday_info_map = none →
        model_features c ext st rq ship_model.DAYS_FROM_NONWORKING_DAYS = 0) := by
  obtain ⟨h1, h2, h3, h4⟩ := days_from_nonworking_day_run_trace nwd 7 anchor 0 le_rfl
    (by omega)
  have hfst := days_from_nonworking_day_run_fst nwd 7 anchor 0
  rw [hfst] at h1 h2 h4
  refine ⟨days_from_nonworking_day_run_fuel nwd fuel 7 anchor 0 (by omega)
    (by omega) (by omega), hfst, by omega, by omega,
    fun j d hj => (h3 j d hj).1, by omega, h2, ?_,
    fun c ext st rq hcal => model_features_days_from_nonworking_none c ext st rq hcal⟩
  rw [h4]
  simp

/-- C35, witness: when day `anchor + 2` is the first non-working day the loop body runs on
the two days before it, with fuel 7 as with fuel 20. -/
theorem holiday_walk_is_capped_witness :
    days_from_nonworking_day_run (fun day => decide (day = 2451547)) 20 2451545 0 =
      days_from_nonworking_day_run (fun day => decide (day = 2451547)) 7 2451545 0 :=
  (holiday_walk_is_capped (fun day => decide (day = 2451547)) 2451545 20 (by decide)).1

/-- Runs of the walk: two working days before a non-working day, a non-working anchor day,
and no non-working day at all. -/
theorem holiday_walk_samples :
    days_from_nonworking_day_run (fun day => decide (day = 2451547)) 7 2451545 0 =
        (2, [2451545, 2451546]) ∧
      days_from_nonworking_day_run (fun _ => true) 7 2451545 0 = (0, []) ∧
      days_from_nonworking_day_run (fun _ => false) 7 2451545 0 =
        (7, [2451545, 2451546, 2451547, 2451548, 2451549, 2451550, 2451551]) := by
  decide

end Analytical

/-! ## The Australian zip-to-zip model -/

section ZipToZip

open Analytical

theorem zip_to_zip_model_of_hit (st : State) (days : Int × Int)
    (svc tz tc fz fc ht : Int) (est : shipping_service_est)
    (h : zip_to_zip_hit st svc tz tc fz fc est) :
    zip_to_zip_model st days svc tz tc fz fc ht =
      (est.min_hours.tdiv 24 + ht, est.max_hours.tdiv 24 + ht) := by
  obtain ⟨bs, zr, ze, base, bt, bf, h1, h2, h3, h4, h5, h6, h7, h8, h9, h10, h11, h12, h13⟩ := h
  unfold zip_to_zip_model
  simp only [h1, h2, h3]
  rw [if_pos ⟨h4, h5, h6, h7, h8⟩]
  simp only [h9, h10, h11, h12]
  rw [if_pos (by omega)]

theorem zip_to_zip_model_cases (st : State) (days : Int × Int) (svc tz tc fz fc ht : Int) :
    (∃ est, zip_to_zip_hit st svc tz tc fz fc est ∧
      zip_to_zip_model st days svc tz tc fz fc ht =
        (est.min_hours.tdiv 24 + ht, est.max_hours.tdiv 24 + ht)) ∨
    ((¬ ∃ est, zip_to_zip_hit st svc tz tc fz fc est) ∧
      zip_to_zip_model st days svc tz tc fz fc ht = days) := by
  by_cases hex : ∃ est, zip_to_zip_hit st svc tz tc fz fc est
  · obtain ⟨est, hest⟩ := hex
    exact Or.inl ⟨est, hest, zip_to_zip_model_of_hit st days svc tz tc fz fc ht est hest⟩
  · refine Or.inr ⟨hex, ?_⟩
    unfold zip_to_zip_model
    cases h1 : st.base_services with
    | none => rfl
    | some bs =>
      cases h2 : st.zip_ranges with
      | none => rfl
      | some zr =>
        cases h3 : st.zip_estimates with
        | none => rfl
        | some ze =>
          simp only []
          split
          · rename_i hc
            cases h9 : bs ⟨wrap16 fc, svc⟩ with
            | none => rfl
            | some base =>
              simp only []
              cases h10 : zr ⟨wrap16 tc, tz⟩ with
              | none => rfl
              | some bt =>
                cases h11 : zr ⟨wrap16 fc, fz⟩ with
                | none => rfl
                | some bf =>
                  simp only []
                  cases h12 : ze ⟨base, bt, bf⟩ with
                  | none => rfl
                  | some est =>
                    simp only []
                    split
                    · rename_i hm
                      exfalso
                      exact hex ⟨est, bs, zr, ze, base, bt, bf, h1, h2, h3, hc.1, hc.2.1,
                        hc.2.2.1, hc.2.2.2.1, hc.2.2.2.2, h9, h10, h11, h12, by omega⟩
                    · rfl
          · rfl

end ZipToZip

namespace Analytical

/-- C38. `zip_to_zip_model` changes `(min_days, max_days)` only when all three tables are
loaded, `to_zip`, `from_zip` and the service are non-zero, `from_country = to_country` and
non-zero, a base service exists for `(from_country, service)`, both zips have a range
bucket, and the estimate table holds an entry with `max_hours >= 0` under the key
`(base_service, bucket(to_zip), bucket(from_zip))`, whose origin slot is the destination's
bucket and whose destination slot is the origin's bucket; it then sets
`min_days = min_hours / 24 + handling_time` and `max_days = max_hours / 24 + handling_time`,
and in every other case it leaves both unchanged. -/
theorem zip_to_zip_model_changes_only_on_hit (st : State) (days : Int × Int)
    (shipping_service to_zip to_country_id from_zip from_country_id handling_time : Int) :
    (∀ est : shipping_service_est,
      zip_to_zip_hit st shipping_service to_zip to_country_id from_zip from_country_id est →
      zip_to_zip_model st days shipping_service to_zip to_country_id from_zip
          from_country_id handling_time =
        (est.min_hours.tdiv 24 + handling_time, est.max_hours.tdiv 24 + handling_time)) ∧
    ((¬ ∃ est : shipping_service_est,
        zip_to_zip_hit st shipping_service to_zip to_country_id from_zip from_country_id
          est) →
      zip_to_zip_model st days shipping_service to_zip to_country_id from_zip
          from_country_id handling_time = days) ∧
    (zip_to_zip_model st days shipping_service to_zip to_country_id from_zip
          from_country_id handling_time ≠ days →
      ∃ est : shipping_service_est,
        zip_to_zip_hit st shipping_service to_zip to_country_id from_zip from_country_id
          est) := by
  refine ⟨fun est h => zip_to_zip_model_of_hit st days _ _ _ _ _ _ est h, ?_, ?_⟩
  · intro hno
    rcases zip_to_zip_model_cases st days shipping_service to_zip to_country_id from_zip
      from_country_id handling_time with ⟨est, h, _⟩ | ⟨_, h⟩
    · exact absurd ⟨est, h⟩ hno
    · exact h
  · intro hne
    rcases zip_to_zip_model_cases st days shipping_service to_zip to_country_id from_zip
      from_country_id handling_time with ⟨est, h, _⟩ | ⟨_, h⟩
    · exact ⟨est, h⟩
    · exact absurd h hne

/-- C38, witness: from zip 2000 to zip 3000 with service 19 and handling time 1 the entry
read is `(24, 72)`, stored under origin 3000 and destination 2000, and the result is
`(2, 4)`. -/
theorem zip_to_zip_model_changes_only_on_hit_witness :
    zip_to_zip_model au_state (-1, -1) 19 3000 15 2000 15 1 = (2, 4) :=
  ((zip_to_zip_model_changes_only_on_hit au_state (-1, -1) 19 3000 15 2000 15 1).1 ⟨24, 72⟩
    ⟨_, _, _, 100, 3000, 2000, rfl, rfl, rfl, by decide, by decide, by decide, rfl,
      by decide, by decide, by decide, by decide, by decide, by decide⟩).trans (by decide)

/-- Values of `zip_to_zip_model` on `au_state`: the hit above, the reverse direction, which
reads the entry stored under origin 2000 and destination 3000, and the calls that leave
the pair unchanged (a zip without bucket, the service 0, different countries). -/
theorem zip_to_zip_model_samples :
    zip_to_zip_model au_state (-1, -1) 19 3000 15 2000 15 1 = (2, 4) ∧
      zip_to_zip_model au_state (-1, -1) 19 2000 15 3000 15 1 = (3, 6) ∧
      zip_to_zip_model au_state (-1, -1) 19 3001 15 2000 15 1 = (-1, -1) ∧
      zip_to_zip_model au_state (-1, -1) 0 3000 15 2000 15 1 = (-1, -1) ∧
      zip_to_zip_model au_state (-1, -1) 19 3000 15 2000 1 1 = (-1, -1) := by
  decide

end Analytical

/-! ## Day conversion and the output sentinels -/

section DayConversion

open Native

theorem NativeDeliveryEstimate_eq (c : country) (cc : Int → Int) (T : Tables)
    (rq : Native.Request) :
    NativeDeliveryEstimate c cc T rq =
      [if (NativeDeliveryEstimate_locals c cc T rq).min_hours ≥ 0 ∧
            native_handling_time rq > 0 then
          (NativeDeliveryEstimate_locals c cc T rq).min_hours.tdiv 24 +
            native_handling_time rq
        else -1,
        if (NativeDeliveryEstimate_locals c cc T rq).max_hours ≥ 0 ∧
            native_handling_time rq > 0 then
          (NativeDeliveryEstimate_locals c cc T rq).max_hours.tdiv 24 +
            native_handling_time rq
        else -1,
        (NativeDeliveryEstimate_locals c cc T rq).shipping_service,
        (NativeDeliveryEstimate_locals c cc T rq).working_days] := rfl

theorem native_day_eq_sentinel_iff (h t : Int) :
    (if h ≥ 0 ∧ t > 0 then h.tdiv 24 + t else -1) = -1 ↔ (h < 0 ∨ t ≤ 0) := by
  split
  · rename_i hc
    have := Int.tdiv_nonneg hc.1 (by decide : (0 : Int) ≤ 24)
    constructor
    · intro he
      omega
    · intro he
      omega
  · rename_i hc
    constructor
    · intro _
      omega
    · intro _
      rfl

theorem NativeDeliveryEstimate_locals_handling_time (c : country) (cc : Int → Int)
    (T : Tables) (rq : Native.Request) (t : Int) :
    NativeDeliveryEstimate_locals c cc T { rq with handling_time := t } =
      NativeDeliveryEstimate_locals c cc T rq := rfl

end DayConversion

section AnalyticalOutputs

open Analytical

theorem analytical_output_cases (c : country) (ext : Externals) (st : State)
    (evaluate : features → ℚ) (rq : Request) :
    AnalyticalDeliveryEstimate c ext st evaluate rq = (-1, -1) ∨
    (∃ d : Int, AnalyticalDeliveryEstimate c ext st evaluate rq = (d, d)) ∨
    (∃ est : shipping_service_est,
      zip_to_zip_hit st (request_shipping_service rq) (request_to_zip c st rq) rq.ToCtry
        (request_from_zip c st rq) rq.Ctry est ∧
      AnalyticalDeliveryEstimate c ext st evaluate rq =
        (est.min_hours.tdiv 24 + normalize_handling_time rq.handling_time,
          est.max_hours.tdiv 24 + normalize_handling_time rq.handling_time)) := by
  have hr : ∀ r : Int × Int,
      r = (-1, -1) ∨
        r = zip_to_zip_model st (-1, -1) (request_shipping_service rq) (request_to_zip c st rq)
          rq.ToCtry (request_from_zip c st rq) rq.Ctry
          (normalize_handling_time rq.handling_time) →
      r = (-1, -1) ∨
      (∃ est : shipping_service_est,
        zip_to_zip_hit st (request_shipping_service rq) (request_to_zip c st rq) rq.ToCtry
          (request_from_zip c st rq) rq.Ctry est ∧
        r = (est.min_hours.tdiv 24 + normalize_handling_time rq.handling_time,
          est.max_hours.tdiv 24 + normalize_handling_time rq.handling_time)) := by
    intro r h
    rcases h with h | h
    · exact Or.inl h
    · rcases zip_to_zip_model_cases st (-1, -1) (request_shipping_service rq)
        (request_to_zip c st rq) rq.ToCtry (request_from_zip c st rq) rq.Ctry
        (normalize_handling_time rq.handling_time) with ⟨est, h1, h2⟩ | ⟨_, h2⟩
      · exact Or.inr ⟨est, h1, by rw [h, h2]⟩
      · exact Or.inl (by rw [h, h2])
  unfold AnalyticalDeliveryEstimate AnalyticalDeliveryEstimate_run
  simp only []
  by_cases hau : is_analytical_eligible st rq = true ∧ rq.ToCtry = c.australia
  · rw [if_pos hau]
    by_cases hqa : is_analytical_eligible st rq = true ∧ rq.ToCtry = c.united_states ∧
        rq.sde_model = ['q', 'a']
    · rw [if_pos hqa]
      exact Or.inr (Or.inl ⟨_, rfl⟩)
    · rw [if_neg hqa]
      by_cases hus : is_analytical_eligible st rq = true ∧ rq.ToCtry = c.united_states
      · rw [if_pos hus]
        simp only []
        rcases threshold_bucket_cases (model_score c ext st evaluate rq)
          (request_model st rq).thresholds (request_model st rq).min_days_predicted
          (max_model_days (request_model st rq) rq.sde_model)
          (zip_to_zip_model st (-1, -1) (request_shipping_service rq) (request_to_zip c st rq)
            rq.ToCtry (request_from_zip c st rq) rq.Ctry
            (normalize_handling_time rq.handling_time)) with ⟨d, _, h⟩ | ⟨_, h⟩
        · exact Or.inr (Or.inl ⟨wrap32 d, h⟩)
        · rw [h]
          rcases hr _ (Or.inr rfl) with h1 | h1
          · exact Or.inl h1
          · exact Or.inr (Or.inr h1)
      · rw [if_neg hus]
        simp only []
        rcases hr _ (Or.inr rfl) with h1 | h1
        · exact Or.inl h1
        · exact Or.inr (Or.inr h1)
  · rw [if_neg hau]
    by_cases hqa : is_analytical_eligible st rq = true ∧ rq.ToCtry = c.united_states ∧
        rq.sde_model = ['q', 'a']
    · rw [if_pos hqa]
      exact Or.inr (Or.inl ⟨_, rfl⟩)
    · rw [if_neg hqa]
      by_cases hus : is_analytical_eligible st rq = true ∧ rq.ToCtry = c.united_states
      · rw [if_pos hus]
        simp only []
        rcases threshold_bucket_cases (model_score c ext st evaluate rq)
          (request_model st rq).thresholds (request_model st rq).min_days_predicted
          (max_model_days (request_model st rq) rq.sde_model) (-1, -1) with
          ⟨d, _, h⟩ | ⟨_, h⟩
        · exact Or.inr (Or.inl ⟨wrap32 d, h⟩)
        · exact Or.inl h
      · rw [if_neg hus]
        exact Or.inl rfl

theorem analytical_handling_zero_one (c : country) (ext : Externals) (st : State)
    (evaluate : features → ℚ) (rq : Request) (h : rq.handling_time = 0) :
    AnalyticalDeliveryEstimate c ext st evaluate { rq with handling_time := 1 } =
      AnalyticalDeliveryEstimate c ext st evaluate rq := by
  obtain ⟨ht, site, ctry, fromzip, seller, leaf, allcats, price, toctry, toregion, tozip, sde,
    cost, nde, start, dist, optout⟩ := rq
  simp only at h
  subst h
  rfl

end AnalyticalOutputs

namespace Native

/-- C33 as amended. For every request and table state, `NativeDeliveryEstimate` sets each
component on its own hours: `min_days = -1` exactly when the `min_hours` used are negative
or the handling time is negative, and `max_days = -1` exactly when the `max_hours` used
are negative or the handling time is negative; so `min_days = -1` if and only if
`max_days = -1` whenever the two hours are both negative or both non-negative. The pair
returned by `AnalyticalDeliveryEstimate` is `(-1, -1)`, or a pair of equal days (QA and
threshold paths), or the pair `(min_hours / 24 + t, max_hours / 24 + t)` that
`zip_to_zip_model` writes from an entry with `max_hours >= 0`, both of whose components
are at least 1 when `min_hours >= 0` and the handling time is non-negative. -/
theorem output_sentinels_follow_components (c : country) (cc : Int → Int) (T : Tables)
    (rq : Request) :
    (∃ min_days max_days : Int,
      NativeDeliveryEstimate c cc T rq =
        [min_days, max_days, (NativeDeliveryEstimate_locals c cc T rq).shipping_service,
          (NativeDeliveryEstimate_locals c cc T rq).working_days] ∧
      (min_days = -1 ↔
        ((NativeDeliveryEstimate_locals c cc T rq).min_hours < 0 ∨ rq.handling_time < 0)) ∧
      (max_days = -1 ↔
        ((NativeDeliveryEstimate_locals c cc T rq).max_hours < 0 ∨ rq.handling_time < 0)) ∧
      (((NativeDeliveryEstimate_locals c cc T rq).min_hours < 0 ↔
          (NativeDeliveryEstimate_locals c cc T rq).max_hours < 0) →
        (min_days = -1 ↔ max_days = -1))) ∧
    (∀ (ca : country) (ext : Analytical.Externals) (st : Analytical.State)
      (evaluate : Analytical.features → ℚ) (rqa : Analytical.Request),
      Analytical.AnalyticalDeliveryEstimate ca ext st evaluate rqa = (-1, -1) ∨
      (∃ d : Int, Analytical.AnalyticalDeliveryEstimate ca ext st evaluate rqa = (d, d)) ∨
      (∃ est : shipping_service_est,
        zip_to_zip_hit st (Analytical.request_shipping_service rqa)
          (Analytical.request_to_zip ca st rqa) rqa.ToCtry
          (Analytical.request_from_zip ca st rqa) rqa.Ctry est ∧
        Analytical.AnalyticalDeliveryEstimate ca ext st evaluate rqa =
          (est.min_hours.tdiv 24 + Analytical.normalize_handling_time rqa.handling_time,
            est.max_hours.tdiv 24 + Analytical.normalize_handling_time rqa.handling_time) ∧
        (0 ≤ est.min_hours → 0 ≤ rqa.handling_time →
          1 ≤ est.min_hours.tdiv 24 + Analytical.normalize_handling_time rqa.handling_time ∧
          1 ≤ est.max_hours.tdiv 24 +
            Analytical.normalize_handling_time rqa.handling_time))) := by
  have ht : native_handling_time rq ≤ 0 ↔ rq.handling_time < 0 := by
    unfold native_handling_time
    split <;> omega
  have hmin := native_day_eq_sentinel_iff (NativeDeliveryEstimate_locals c cc T rq).min_hours
    (native_handling_time rq)
  have hmax := native_day_eq_sentinel_iff (NativeDeliveryEstimate_locals c cc T rq).max_hours
    (native_handling_time rq)
  rw [ht] at hmin hmax
  refine ⟨⟨_, _, NativeDeliveryEstimate_eq c cc T rq, hmin, hmax, ?_⟩, ?_⟩
  · intro hsame
    rw [hmin, hmax, hsame]
  · intro ca ext st evaluate rqa
    rcases analytical_output_cases ca ext st evaluate rqa with h | h | ⟨est, h1, h2⟩
    · exact Or.inl h
    · exact Or.inr (Or.inl h)
    · refine Or.inr (Or.inr ⟨est, h1, h2, ?_⟩)
      intro hm hh
      obtain ⟨_, _, _, _, _, _, _, _, _, _, _, _, _, _, _, _, _, _, hmaxh⟩ := h1
      have h24 : (0 : Int) ≤ 24 := by decide
      have a1 := Int.tdiv_nonneg hm h24
      have a2 := Int.tdiv_nonneg hmaxh h24
      have a3 : 1 ≤ Analytical.normalize_handling_time rqa.handling_time := by
        unfold Analytical.normalize_handling_time
        split <;> omega
      exact ⟨by omega, by omega⟩

/-- C33 as amended, witness: for the domestic request with the service default `(24, 48)`
both hours are non-negative and neither day count is -1. -/
theorem output_sentinels_follow_components_witness :
    ∃ min_days max_days : Int,
      NativeDeliveryEstimate sample_country sample_convert_country cbt_miss_tables
          domestic_request =
        [min_days, max_days,
          (NativeDeliveryEstimate_locals sample_country sample_convert_country
            cbt_miss_tables domestic_request).shipping_service,
          (NativeDeliveryEstimate_locals sample_country sample_convert_country
            cbt_miss_tables domestic_request).working_days] ∧
      (min_days = -1 ↔ max_days = -1) :=
  (output_sentinels_follow_components sample_country sample_convert_country cbt_miss_tables
    domestic_request).1.imp
    (fun _ h => h.imp (fun _ h2 => ⟨h2.1, h2.2.2.2 (by decide)⟩))

/-- C33, counterexample. With the service default entry `(-1, 48)` of service 5 (lower
bound unknown) the domestic request gets `min_days = -1` and `max_days = 48 / 24 + 1 = 3`:
the pair is neither `(-1, -1)` nor free of -1. -/
theorem min_days_sentinel_without_max_days :
    NativeDeliveryEstimate sample_country sample_convert_country min_unknown_tables
        domestic_request = [-1, 3, 5, 65] ∧
      (NativeDeliveryEstimate_locals sample_country sample_convert_country
          min_unknown_tables domestic_request).min_hours = -1 ∧
      (NativeDeliveryEstimate_locals sample_country sample_convert_country
          min_unknown_tables domestic_request).max_hours = 48 := by
  decide

end Native

namespace Native

/-- C34 as amended. Handling-time normalisation and day conversion: in
`NativeDeliveryEstimate`, for hours `h >= 0` and a non-negative handling time the day count
is `h / 24` (integer division) `+ t`, where `t` is the handling time with 0 replaced by 1,
and for a negative handling time both day counts are -1; hence a request with handling time
0 and the same request with handling time 1 produce identical outputs in both
`NativeDeliveryEstimate` and `AnalyticalDeliveryEstimate`, and whenever
`0 <= min_hours <= max_hours` the result satisfies `min_days <= max_days`. -/
theorem handling_time_day_conversion (c : country) (cc : Int → Int) (T : Tables)
    (rq : Request) :
    (∃ min_days max_days : Int,
      NativeDeliveryEstimate c cc T rq =
        [min_days, max_days, (NativeDeliveryEstimate_locals c cc T rq).shipping_service,
          (NativeDeliveryEstimate_locals c cc T rq).working_days] ∧
      (0 ≤ rq.handling_time → 0 ≤ (NativeDeliveryEstimate_locals c cc T rq).min_hours →
        min_days =
          (NativeDeliveryEstimate_locals c cc T rq).min_hours / 24 + native_handling_time rq) ∧
      (0 ≤ rq.handling_time → 0 ≤ (NativeDeliveryEstimate_locals c cc T rq).max_hours →
        max_days =
          (NativeDeliveryEstimate_locals c cc T rq).max_hours / 24 + native_handling_time rq) ∧
      (rq.handling_time < 0 → min_days = -1 ∧ max_days = -1) ∧
      (0 ≤ (NativeDeliveryEstimate_locals c cc T rq).min_hours →
        (NativeDeliveryEstimate_locals c cc T rq).min_hours ≤
          (NativeDeliveryEstimate_locals c cc T rq).max_hours →
        min_days ≤ max_days)) ∧
    (native_handling_time rq = if rq.handling_time = 0 then 1 else rq.handling_time) ∧
    (rq.handling_time = 0 →
      NativeDeliveryEstimate c cc T { rq with handling_time := 1 } =
        NativeDeliveryEstimate c cc T rq) ∧
    (∀ (ca : country) (ext : Analytical.Externals) (st : Analytical.State)
      (evaluate : Analytical.features → ℚ) (rqa : Analytical.Request),
      rqa.handling_time = 0 →
      Analytical.AnalyticalDeliveryEstimate ca ext st evaluate
          { rqa with handling_time := 1 } =
        Analytical.AnalyticalDeliveryEstimate ca ext st evaluate rqa) := by
  have h24 : (0 : Int) ≤ 24 := by decide
  refine ⟨⟨_, _, NativeDeliveryEstimate_eq c cc T rq, ?_, ?_, ?_, ?_⟩, rfl, ?_,
    fun ca ext st evaluate rqa h => analytical_handling_zero_one ca ext st evaluate rqa h⟩
  · intro h0 hm
    have ht : native_handling_time rq > 0 := by
      unfold native_handling_time
      split <;> omega
    rw [if_pos ⟨hm, ht⟩, Int.tdiv_eq_ediv hm h24]
  · intro h0 hm
    have ht : native_handling_time rq > 0 := by
      unfold native_handling_time
      split <;> omega
    rw [if_pos ⟨hm, ht⟩, Int.tdiv_eq_ediv hm h24]
  · intro hneg
    have ht : ¬ native_handling_time rq > 0 := by
      unfold native_handling_time
      split <;> omega
    exact ⟨if_neg (fun h => ht h.2), if_neg (fun h => ht h.2)⟩
  · intro hm hle
    by_cases ht : native_handling_time rq > 0
    · rw [if_pos ⟨hm, ht⟩, if_pos ⟨by omega, ht⟩, Int.tdiv_eq_ediv hm h24,
        Int.tdiv_eq_ediv (by omega) h24]
      omega
    · rw [if_neg (fun h => ht h.2), if_neg (fun h => ht h.2)]
  · intro h
    obtain ⟨ht, ctry, toctry, svcs, cost, fromzip, tozip⟩ := rq
    simp only at h
    subst h
    rfl

/-- C34 as amended, witness: the domestic request with handling time 0 and with handling
time 1. -/
theorem handling_time_day_conversion_witness :
    NativeDeliveryEstimate sample_country sample_convert_country cbt_miss_tables
        { ({ domestic_request with handling_time := 0 } : Request) with handling_time := 1 } =
      NativeDeliveryEstimate sample_country sample_convert_country cbt_miss_tables
        { domestic_request with handling_time := 0 } :=
  (handling_time_day_conversion sample_country sample_convert_country cbt_miss_tables
    { domestic_request with handling_time := 0 }).2.2.1 rfl

/-- C34, counterexample. With the service default `(24, 48)` and the handling time -1 the
claimed day counts are `24 / 24 + (-1) = 0` and `48 / 24 + (-1) = 1`, while the macro
returns `(-1, -1)`; with the handling times 0 and 1 it returns `(2, 3)`. -/
theorem negative_handling_time_gives_no_estimate :
    (NativeDeliveryEstimate_locals sample_country sample_convert_country cbt_miss_tables
        domestic_request_negative_handling).min_hours = 24 ∧
      (NativeDeliveryEstimate_locals sample_country sample_convert_country cbt_miss_tables
        domestic_request_negative_handling).max_hours = 48 ∧
      domestic_request_negative_handling.handling_time = -1 ∧
      (24 : Int) / 24 + (-1) = 0 ∧ (48 : Int) / 24 + (-1) = 1 ∧
      NativeDeliveryEstimate sample_country sample_convert_country cbt_miss_tables
        domestic_request_negative_handling = [-1, -1, 5, 65] ∧
      NativeDeliveryEstimate sample_country sample_convert_country cbt_miss_tables
        { domestic_request with handling_time := 0 } = [2, 3, 5, 65] ∧
      NativeDeliveryEstimate sample_country sample_convert_country cbt_miss_tables
        domestic_request = [2, 3, 5, 65] := by
  decide

end Native

/-! ## Round trip of the alphanumeric encoding -/

section RoundTrip

open FileCreation

theorem base36_char_of_digit (ch : Char)
    (h : spec_is_digit ch = true ∨ spec_is_upper ch = true) :
    (if spec_base36_digit ch ≥ 0 ∧ spec_base36_digit ch ≤ 9 then
        Char.ofNat ('0'.toNat + (spec_base36_digit ch).toNat)
      else Char.ofNat (spec_base36_digit ch + UK_ZIP_VAR).toNat) = ch := by
  have h48 : '0'.toNat = 48 := by decide
  have h57 : '9'.toNat = 57 := by decide
  have h65 : 'A'.toNat = 65 := by decide
  have h90 : 'Z'.toNat = 90 := by decide
  by_cases hd : spec_is_digit ch = true
  · have hd' : '0'.toNat ≤ ch.toNat ∧ ch.toNat ≤ '9'.toNat := by
      simpa [spec_is_digit] using hd
    rw [h48, h57] at hd'
    have hv : spec_base36_digit ch = (ch.toNat : Int) - 48 := by
      unfold spec_base36_digit
      rw [if_pos hd]
    rw [hv, if_pos ⟨by omega, by omega⟩, h48]
    have : 48 + ((ch.toNat : Int) - 48).toNat = ch.toNat := by omega
    rw [this, Char.ofNat_toNat]
  · rcases h with h | h
    · exact absurd h hd
    · have hu : 'A'.toNat ≤ ch.toNat ∧ ch.toNat ≤ 'Z'.toNat := by
        simpa [spec_is_upper] using h
      rw [h65, h90] at hu
      have hv : spec_base36_digit ch = (ch.toNat : Int) - 55 := by
        unfold spec_base36_digit
        rw [if_neg hd]
      have hc : ¬ ((ch.toNat : Int) - 55 ≥ 0 ∧ (ch.toNat : Int) - 55 ≤ 9) := by omega
      rw [hv, if_neg hc]
      unfold UK_ZIP_VAR
      have : ((ch.toNat : Int) - 55 + 55).toNat = ch.toNat := by omega
      rw [this, Char.ofNat_toNat]

theorem convert_hash_to_zip_loop_of_value :
    ∀ (r : List Char), (∀ ch ∈ r, spec_is_digit ch = true ∨ spec_is_upper ch = true) →
      (∀ ch, r.getLast? = some ch → spec_base36_digit ch ≠ 0) →
      ∀ fuel : Nat, r.length ≤ fuel →
        convert_hash_to_zip_loop fuel (spec_base36_value r.reverse) = r ∧
          (r.length : Int) ≤ spec_base36_value r.reverse := by
  intro r
  induction r with
  | nil =>
    intro _ _ fuel _
    refine ⟨?_, by simp [spec_base36_value]⟩
    cases fuel with
    | zero => rfl
    | succ fuel => simp [convert_hash_to_zip_loop, spec_base36_value]
  | cons c r ih =>
    intro hvalid hlead fuel hfuel
    obtain ⟨d0, d35⟩ := spec_base36_digit_range c (hvalid c (List.mem_cons_self _ _))
    have hvalid' : ∀ ch ∈ r, spec_is_digit ch = true ∨ spec_is_upper ch = true :=
      fun x hx => hvalid x (List.mem_cons_of_mem _ hx)
    have hlead' : ∀ ch, r.getLast? = some ch → spec_base36_digit ch ≠ 0 := by
      intro ch hch
      cases r with
      | nil => simp at hch
      | cons b l =>
        apply hlead ch
        rw [List.getLast?_cons_cons]
        exact hch
    obtain ⟨fuel, rfl⟩ : ∃ k, fuel = k + 1 := ⟨fuel - 1, by
      rw [List.length_cons] at hfuel
      omega⟩
    have hfuel' : r.length ≤ fuel := by
      rw [List.length_cons] at hfuel
      omega
    obtain ⟨ih1, ih2⟩ := ih hvalid' hlead' fuel hfuel'
    have hV0 : 0 ≤ spec_base36_value r.reverse := by omega
    have hval : spec_base36_value (c :: r).reverse =
        spec_base36_value r.reverse * 36 + spec_base36_digit c := by
      rw [List.reverse_cons, spec_base36_value_append]
    have hpos : (((c :: r).length : Nat) : Int) ≤ spec_base36_value (c :: r).reverse := by
      rw [hval, List.length_cons]
      push_cast
      cases r with
      | nil =>
        have := hlead c (by simp)
        simp [spec_base36_value]
        omega
      | cons b l =>
        rw [List.length_cons] at ih2
        push_cast at ih2
        rw [List.length_cons]
        push_cast
        omega
    refine ⟨?_, hpos⟩
    have hne : spec_base36_value (c :: r).reverse ≠ 0 := by
      rw [List.length_cons] at hpos
      push_cast at hpos
      omega
    have hrem : (spec_base36_value (c :: r).reverse).tmod UK_ZIP_BASE = spec_base36_digit c := by
      unfold UK_ZIP_BASE
      rw [hval, Int.tmod_eq_emod (by omega) (by omega)]
      omega
    have hdiv : (spec_base36_value (c :: r).reverse).tdiv UK_ZIP_BASE =
        spec_base36_value r.reverse := by
      unfold UK_ZIP_BASE
      rw [hval, Int.tdiv_eq_ediv (by omega) (by omega)]
      omega
    simp only [convert_hash_to_zip_loop]
    rw [if_pos hne, hrem, hdiv, ih1]
    have hch := base36_char_of_digit c (hvalid c (List.mem_cons_self _ _))
    split
    · rename_i hc
      rw [if_pos hc] at hch
      rw [hch]
    · rename_i hc
      rw [if_neg hc] at hch
      rw [hch]

theorem spec_base36_digit_eq_zero (ch : Char)
    (h : spec_is_digit ch = true ∨ spec_is_upper ch = true)
    (h0 : spec_base36_digit ch = 0) : ch = '0' := by
  have h48 : '0'.toNat = 48 := by decide
  have h65 : 'A'.toNat = 65 := by decide
  by_cases hd : spec_is_digit ch = true
  · have hv : spec_base36_digit ch = (ch.toNat : Int) - 48 := by
      unfold spec_base36_digit
      rw [if_pos hd]
    rw [hv] at h0
    apply Char.ext
    apply UInt32.ext
    show ch.toNat = 48
    omega
  · rcases h with h | h
    · exact absurd h hd
    · have hu : 'A'.toNat ≤ ch.toNat ∧ ch.toNat ≤ 'Z'.toNat := by
        simpa [spec_is_upper] using h
      rw [h65] at hu
      have hv : spec_base36_digit ch = (ch.toNat : Int) - 55 := by
        unfold spec_base36_digit
        rw [if_neg hd]
      rw [hv] at h0
      omega

theorem convert_hash_to_zip_of_value (s : List Char)
    (hs : ∀ ch ∈ s, spec_is_digit ch = true ∨ spec_is_upper ch = true)
    (hlead : s.head? ≠ some '0') :
    convert_hash_to_zip (spec_base36_value s) = s := by
  have hvalid : ∀ ch ∈ s.reverse, spec_is_digit ch = true ∨ spec_is_upper ch = true :=
    fun ch hch => hs ch (List.mem_reverse.mp hch)
  have hl : ∀ ch, s.reverse.getLast? = some ch → spec_base36_digit ch ≠ 0 := by
    intro ch hch h0
    rw [List.getLast?_reverse] at hch
    have hmem : ch ∈ s := List.mem_of_mem_head? hch
    rw [spec_base36_digit_eq_zero ch (hs ch hmem) h0] at hch
    exact hlead hch
  obtain ⟨h1, h2⟩ := convert_hash_to_zip_loop_of_value s.reverse hvalid hl
    (spec_base36_value s).natAbs (by
      have := (convert_hash_to_zip_loop_of_value s.reverse hvalid hl s.reverse.length
        le_rfl).2
      rw [List.reverse_reverse] at this
      omega)
  rw [List.reverse_reverse] at h1
  unfold convert_hash_to_zip
  rw [h1, List.reverse_reverse]

end RoundTrip

namespace FileCreation

/-- C40. Round trip of the alphanumeric encoding: for every code `s` of 1 to 5 characters
over digits and upper-case letters that contains at least one letter and does not start
with `'0'`, `convert_hash_to_zip (convert_zip_to_hash s) = s`; consequently
`convert_zip_to_hash` is injective on such codes. -/
theorem convert_zip_round_trip (s : List Char) (_h1 : 1 ≤ s.length) (h5 : s.length ≤ 5)
    (hs : ∀ ch ∈ s, spec_is_digit ch = true ∨ spec_is_upper ch = true)
    (hletter : ∃ ch ∈ s, spec_is_upper ch = true) (hlead : s.head? ≠ some '0') :
    (convert_zip_to_hash s).map convert_hash_to_zip = some s ∧
    (∀ s2 : List Char, 1 ≤ s2.length → s2.length ≤ 5 →
      (∀ ch ∈ s2, spec_is_digit ch = true ∨ spec_is_upper ch = true) →
      (∃ ch ∈ s2, spec_is_upper ch = true) → s2.head? ≠ some '0' →
      convert_zip_to_hash s2 = convert_zip_to_hash s → s2 = s) := by
  have hrt : ∀ t : List Char, t.length ≤ 5 →
      (∀ ch ∈ t, spec_is_digit ch = true ∨ spec_is_upper ch = true) →
      (∃ ch ∈ t, spec_is_upper ch = true) → t.head? ≠ some '0' →
      (convert_zip_to_hash t).map convert_hash_to_zip = some t := by
    intro t ht5 hts htl hth
    obtain ⟨ch, hch, hu⟩ := htl
    rw [convert_zip_to_hash_of_letter t ht5 hts ⟨ch, hch, not_digit_of_upper ch hu⟩]
    simp only [Option.map_some']
    rw [convert_hash_to_zip_of_value t hts hth]
  refine ⟨hrt s h5 hs hletter hlead, ?_⟩
  intro s2 _ h25 hs2 hl2 hh2 heq
  have e1 := hrt s h5 hs hletter hlead
  have e2 := hrt s2 h25 hs2 hl2 hh2
  rw [heq, e1] at e2
  exact (Option.some.inj e2).symm

/-- C40, witness: the code "SW1A" is decoded from its key. -/
theorem convert_zip_round_trip_witness :
    (convert_zip_to_hash ['S', 'W', '1', 'A']).map convert_hash_to_zip =
      some ['S', 'W', '1', 'A'] :=
  (convert_zip_round_trip ['S', 'W', '1', 'A'] (by decide) (by decide) (by decide)
    ⟨'S', by decide, by decide⟩ (by decide)).1

/-- Decoded keys: the key of "SW1A", the largest five-character key, and the keys 10 and 0,
which decode to "A" and to the empty code. -/
theorem convert_hash_to_zip_samples :
    convert_hash_to_zip 1347886 = ['S', 'W', '1', 'A'] ∧
      convert_hash_to_zip 60466175 = ['Z', 'Z', 'Z', 'Z', 'Z'] ∧
      convert_hash_to_zip 10 = ['A'] ∧ convert_hash_to_zip 0 = [] := by
  decide

end FileCreation

/-! ## The zip-range table built by `zr_create_map_data` -/

section ZipRanges

open FileCreation

theorem zr_range_loop_spec (excluded : Int → Bool) (country zip_begin zip_end : Int)
    (hend : zip_end < 32767) :
    ∀ (fuel : Nat) (i : Int) (bmap : zip_range_map) (k : zip_range_key),
      -32768 ≤ i → (zip_end - i + 1).toNat ≤ fuel →
      zr_range_loop excluded country zip_begin zip_end fuel i bmap k =
        match bmap k with
        | some old => some old
        | none =>
          if country = k.country_id ∧ i ≤ k.zip ∧ k.zip ≤ zip_end ∧ excluded k.zip = false
          then some zip_begin else none := by
  intro fuel
  induction fuel with
  | zero =>
    intro i bmap k hi hfuel
    have hlt : zip_end < i := by omega
    simp only [zr_range_loop]
    cases bmap k with
    | some old => rfl
    | none =>
      simp only []
      rw [if_neg (by intro h; omega)]
  | succ fuel ih =>
    intro i bmap k hi hfuel
    simp only [zr_range_loop]
    by_cases hle : i ≤ zip_end
    · rw [if_pos hle, wrap16_of_range (i + 1) (by omega) (by omega)]
      by_cases hex : excluded i = true
      · rw [if_pos hex, ih (i + 1) bmap k (by omega) (by omega)]
        cases bmap k with
        | some old => rfl
        | none =>
          simp only []
          by_cases hki : k.zip = i
          · rw [if_neg (by rintro ⟨_, _, _, h⟩; rw [hki, hex] at h; exact absurd h (by decide)),
              if_neg (by rintro ⟨_, _, _, h⟩; rw [hki, hex] at h; exact absurd h (by decide))]
          · by_cases hc : country = k.country_id ∧ i ≤ k.zip ∧ k.zip ≤ zip_end ∧
                excluded k.zip = false
            · rw [if_pos hc, if_pos ⟨hc.1, by omega, hc.2.2.1, hc.2.2.2⟩]
            · rw [if_neg hc, if_neg (fun h => hc ⟨h.1, by omega, h.2.2.1, h.2.2.2⟩)]
      · rw [if_neg hex, ih (i + 1) _ k (by omega) (by omega)]
        have hexf : excluded i = false := by
          cases h : excluded i with
          | true => exact absurd h hex
          | false => rfl
        by_cases hk : k = ⟨country, i⟩
        · subst hk
          simp only [zip_range_map.insert, if_true]
          cases bmap ⟨country, i⟩ with
          | some old => rfl
          | none =>
            simp [hle, hexf]
        · have hins : zip_range_map.insert bmap ⟨country, i⟩ zip_begin k = bmap k := by
            simp only [zip_range_map.insert, if_neg hk]
          rw [hins]
          cases bmap k with
          | some old => rfl
          | none =>
            simp only []
            have hne : ¬ (country = k.country_id ∧ k.zip = i) := by
              rintro ⟨h1, h2⟩
              apply hk
              cases k
              simp only at h1 h2
              subst h1 h2
              rfl
            by_cases hc : country = k.country_id ∧ i ≤ k.zip ∧ k.zip ≤ zip_end ∧
                excluded k.zip = false
            · have : i + 1 ≤ k.zip := by
                have : k.zip ≠ i := fun h => hne ⟨hc.1, h⟩
                omega
              rw [if_pos hc, if_pos ⟨hc.1, this, hc.2.2.1, hc.2.2.2⟩]
            · rw [if_neg hc, if_neg (fun h => hc ⟨h.1, by omega, h.2.2.1, h.2.2.2⟩)]
    · rw [if_neg hle]
      cases bmap k with
      | some old => rfl
      | none =>
        simp only []
        rw [if_neg (by intro h; omega)]

end ZipRanges

section ZipRangesFold

open FileCreation

theorem zr_fold_spec (excluded : Int → Bool) :
    ∀ (input : List zip_range_line),
      (∀ line ∈ input, -32768 ≤ line.zip_begin ∧ line.zip_end < 32767) →
      ∀ (bmap : zip_range_map) (k : zip_range_key),
        input.foldl
            (fun bmap line =>
              zr_range_loop excluded line.country line.zip_begin line.zip_end
                (line.zip_end - line.zip_begin + 1).toNat line.zip_begin bmap) bmap k =
          match bmap k with
          | some old => some old
          | none =>
            if excluded k.zip then none
            else (input.find? (fun line => line.covers k)).map (fun line => line.zip_begin) := by
  intro input
  induction input with
  | nil =>
    intro _ bmap k
    simp only [List.foldl_nil, List.find?_nil, Option.map_none']
    cases bmap k with
    | some old => rfl
    | none => simp
  | cons line rest ih =>
    intro h16 bmap k
    obtain ⟨hb, he⟩ := h16 line (List.mem_cons_self _ _)
    rw [List.foldl_cons, ih (fun l hl => h16 l (List.mem_cons_of_mem _ hl)),
      zr_range_loop_spec excluded line.country line.zip_begin line.zip_end he _ _ bmap k hb
        (le_refl _)]
    cases bmap k with
    | some old => rfl
    | none =>
      simp only []
      by_cases hex : excluded k.zip = true
      · rw [if_neg (by rintro ⟨_, _, _, h⟩; rw [hex] at h; exact absurd h (by decide))]
        simp [hex]
      · have hexf : excluded k.zip = false := by
          cases h : excluded k.zip with
          | true => exact absurd h hex
          | false => rfl
        by_cases hc : line.covers k = true
        · have hc' : line.country = k.country_id ∧ line.zip_begin ≤ k.zip ∧
              k.zip ≤ line.zip_end := by
            simpa [zip_range_line.covers] using hc
          rw [if_pos ⟨hc'.1, hc'.2.1, hc'.2.2, hexf⟩]
          simp [hexf, List.find?_cons, hc]
        · have hc' : ¬ (line.country = k.country_id ∧ line.zip_begin ≤ k.zip ∧
              k.zip ≤ line.zip_end) := by
            simpa [zip_range_line.covers] using hc
          rw [if_neg (fun h => hc' ⟨h.1, h.2.1, h.2.2.1⟩)]
          simp [hexf, List.find?_cons, hc]

theorem zr_create_map_data_eq (input : List zip_range_line) (excluded : Int → Bool)
    (h16 : ∀ line ∈ input, -32768 ≤ line.zip_begin ∧ line.zip_end < 32767)
    (k : zip_range_key) :
    zr_create_map_data input excluded k =
      if excluded k.zip then none
      else (input.find? (fun line => line.covers k)).map (fun line => line.zip_begin) := by
  unfold zr_create_map_data
  rw [zr_fold_spec excluded input h16]

end ZipRangesFold

namespace FileCreation

/-- C36. Zip-range table construction: for every input of `(country, start, end)` lines of
16-bit values with `end` below the 16-bit maximum and every excluded set, the map built by
`zr_create_map_data` contains a key `(country, z)` if and only if some line of that
country has `start <= z <= end` and `z` is not in the excluded set; its value is the start
of the first such line in input order, so the value is at most `z`; and none of the
excluded codes 2898, 2899, 6798, 6799, 7151 of `main` is a key for any country. -/
theorem zr_create_map_data_keys (input : List zip_range_line) (excluded : Int → Bool)
    (h16 : ∀ line ∈ input, -32768 ≤ line.zip_begin ∧ line.zip_end < 32767)
    (country z : Int) :
    zr_create_map_data input excluded ⟨country, z⟩ =
        (if excluded z then none
          else (input.find? (fun line => line.covers ⟨country, z⟩)).map
            (fun line => line.zip_begin)) ∧
      ((∃ v, zr_create_map_data input excluded ⟨country, z⟩ = some v) ↔
        ((∃ line ∈ input, line.country = country ∧ line.zip_begin ≤ z ∧ z ≤ line.zip_end) ∧
          excluded z = false)) ∧
      (∀ v, zr_create_map_data input excluded ⟨country, z⟩ = some v → v ≤ z) ∧
      (z ∈ [2898, 2899, 6798, 6799, 7151] →
        zr_create_map_data input excluded_zips ⟨country, z⟩ = none) := by
  have heq := zr_create_map_data_eq input excluded h16 ⟨country, z⟩
  simp only [] at heq
  refine ⟨heq, ?_, ?_, ?_⟩
  · rw [heq]
    constructor
    · rintro ⟨v, hv⟩
      by_cases hex : excluded z = true
      · rw [if_pos hex] at hv
        cases hv
      · rw [if_neg hex] at hv
        have hexf : excluded z = false := by
          cases h : excluded z with
          | true => exact absurd h hex
          | false => rfl
        cases hf : input.find? (fun line => line.covers ⟨country, z⟩) with
        | none =>
          rw [hf] at hv
          cases hv
        | some line =>
          have hc := List.find?_some hf
          have hc' : line.country = country ∧ line.zip_begin ≤ z ∧ z ≤ line.zip_end := by
            simpa [zip_range_line.covers] using hc
          exact ⟨⟨line, List.mem_of_find?_eq_some hf, hc'⟩, hexf⟩
    · rintro ⟨⟨line, hmem, hc⟩, hexf⟩
      rw [if_neg (by rw [hexf]; decide)]
      cases hf : input.find? (fun line => line.covers ⟨country, z⟩) with
      | none =>
        exfalso
        have := List.find?_eq_none.mp hf line hmem
        apply this
        simpa [zip_range_line.covers] using hc
      | some l => exact ⟨l.zip_begin, rfl⟩
  · intro v hv
    rw [heq] at hv
    by_cases hex : excluded z = true
    · rw [if_pos hex] at hv
      cases hv
    · rw [if_neg hex] at hv
      cases hf : input.find? (fun line => line.covers ⟨country, z⟩) with
      | none =>
        rw [hf] at hv
        cases hv
      | some line =>
        rw [hf] at hv
        have hc := List.find?_some hf
        have hc' : line.country = country ∧ line.zip_begin ≤ z ∧ z ≤ line.zip_end := by
          simpa [zip_range_line.covers] using hc
        simp only [Option.map_some', Option.some.injEq] at hv
        omega
  · intro hz
    have hex : excluded_zips z = true := by
      unfold excluded_zips
      exact decide_eq_true hz
    have := zr_create_map_data_eq input excluded_zips h16 ⟨country, z⟩
    simp only [] at this
    rw [this, if_pos hex]

/-- C36, witness: on the sample ranges with the excluded set of `main`, the zip 2003, which
two ranges cover, is a key, and the excluded zip 6798 is not. -/
theorem zr_create_map_data_keys_witness :
    (∃ v, zr_create_map_data sample_zip_range_lines excluded_zips ⟨15, 2003⟩ = some v) ∧
      zr_create_map_data sample_zip_range_lines excluded_zips ⟨15, 6798⟩ = none :=
  ⟨(zr_create_map_data_keys sample_zip_range_lines excluded_zips (by decide) 15 2003).2.1.mpr
      ⟨⟨⟨15, 2000, 2004⟩, by decide, by decide⟩, by decide⟩,
    (zr_create_map_data_keys sample_zip_range_lines excluded_zips (by decide) 15 6798).2.2.2
      (by decide)⟩

/-- The table built from the sample ranges: a zip of the first range, a zip that two
ranges cover (the first one wins), a zip of the second range only, an excluded zip, a
zip next to it, a zip outside every range and a zip of another country. -/
theorem zr_create_map_data_samples :
    zr_create_map_data sample_zip_range_lines excluded_zips ⟨15, 2000⟩ = some 2000 ∧
      zr_create_map_data sample_zip_range_lines excluded_zips ⟨15, 2003⟩ = some 2000 ∧
      zr_create_map_data sample_zip_range_lines excluded_zips ⟨15, 2008⟩ = some 2003 ∧
      zr_create_map_data sample_zip_range_lines excluded_zips ⟨15, 6798⟩ = none ∧
      zr_create_map_data sample_zip_range_lines excluded_zips ⟨15, 6800⟩ = some 6797 ∧
      zr_create_map_data sample_zip_range_lines excluded_zips ⟨15, 2009⟩ = none ∧
      zr_create_map_data sample_zip_range_lines excluded_zips ⟨77, 2000⟩ = none := by
  decide

end FileCreation
